import Mathlib

/-!
# H.E.I.P. — Dodecagramic-Overlay compiler and Frame Interpreter Runtime

A shallow embedding of `dodeca_compiler.cpp` and `frama_runtime.cpp`.

Conventions of the embedding
* a `std::string` and a `std::vector<uint8_t>` are lists of bytes (`List Nat`, every
  element below 256); `str` gives the bytes of an ASCII literal;
* `uint32_t` values are naturals reduced modulo `4294967296 = 2^32` wherever the
  source can wrap; `size_t` is 64 bits wide (`18446744073709551616 = 2^64`);
* a `std::shared_ptr<T>` that can be null is an `Option`; the `Frame` objects of the
  runtime, which are mutated through aliases, live in an indexed table (`heap`) and a
  pointer to one is its index;
* `std::make_shared<T>()` value-initialises `T`: scalar members start at zero, so a
  fresh `Instruction` has `type = INSTRUCT` (enumerator 0);
* loops over an input stream carry a fuel argument bounded by the stream length
  (each successful extraction consumes at least one byte);
* the loop of `execute`, which need not terminate, is run for a bounded number of
  iterations and its outcome says whether it has returned by then;
* a `float` is never computed with: `compression_ratio_` and `learning_rate` are left out
  and a heuristic score is kept as the list of the increments added to it;
* the `double` of `optimal_fold_depth` is followed exactly: the size is rounded to 53
  significant bits and `std::log2` is taken to return the `double` nearest to the exact
  logarithm, so that its integer part is the exact one or, for a size next below a power
  of two from `2^49 - 1` on, one more.
-/

namespace heip

/-! ## heip_types.h -/

/-- A byte string (`std::string`). -/
abbrev Str := List Nat

/-- The bytes of an ASCII string literal. -/
def str (s : String) : Str := s.toList.map Char.toNat

/-- The `InstructionType` enumeration, in declaration order. -/
inductive InstructionType where
  | INSTRUCT
  | GUIDE
  | STATE
  | BUBBLE
  | CHAIN
  | CASE
  | FRANCHISE
  | PROTOCOL
  | RANGE
  | OVERLAY
  | SUPERLATIVE
  deriving DecidableEq, Repr

/-- An `enum class HEIPOpcode : uint8_t` value is a byte; the enumerators are named bytes. -/
abbrev HEIPOpcode := Nat

namespace HEIPOpcode
abbrev NOP : HEIPOpcode := 0x00
abbrev LOAD : HEIPOpcode := 0x01
abbrev STORE : HEIPOpcode := 0x02
abbrev ADD : HEIPOpcode := 0x03
abbrev SUB : HEIPOpcode := 0x04
abbrev MUL : HEIPOpcode := 0x05
abbrev DIV : HEIPOpcode := 0x06
abbrev CALL : HEIPOpcode := 0x07
abbrev RET : HEIPOpcode := 0x08
abbrev JMP : HEIPOpcode := 0x09
abbrev JZ : HEIPOpcode := 0x0A
abbrev JNZ : HEIPOpcode := 0x0B
abbrev CMP : HEIPOpcode := 0x0C
abbrev PUSH : HEIPOpcode := 0x0D
abbrev POP : HEIPOpcode := 0x0E
abbrev ALLOC : HEIPOpcode := 0x0F
abbrev FREE : HEIPOpcode := 0x10
abbrev HELP_LEARN : HEIPOpcode := 0x20
abbrev HELP_ADAPT : HEIPOpcode := 0x21
abbrev HELP_HEAL : HEIPOpcode := 0x22
abbrev HELP_RECOMMEND : HEIPOpcode := 0x23
abbrev FRAME_CREATE : HEIPOpcode := 0x30
abbrev FRAME_ENTER : HEIPOpcode := 0x31
abbrev FRAME_EXIT : HEIPOpcode := 0x32
abbrev STATE_SAVE : HEIPOpcode := 0x33
abbrev STATE_RESTORE : HEIPOpcode := 0x34
abbrev OVERLAY_EXPAND : HEIPOpcode := 0x40
abbrev SYMBOL_RESOLVE : HEIPOpcode := 0x41
end HEIPOpcode

/-- The `Overlay` record; `symbol` is a `char`. -/
structure Overlay where
  name : Str
  symbol : Nat
  compressed_bytecode : List Nat
  original_size : Nat
  compressed_size : Nat
  deriving DecidableEq, Repr

/-- The `Instruction` record. The default values are those of value-initialisation. -/
structure Instruction where
  type : InstructionType := InstructionType.INSTRUCT
  name : Str := []
  params : List Str := []
  bytecode : List Nat := []
  range_start : Nat := 0
  range_end : Nat := 0
  overlay_ref : Option Overlay := none
  deriving DecidableEq, Repr

/-- The `Protocol` record. The default values are those of value-initialisation. -/
structure Protocol where
  name : Str := []
  instructions : List Instruction := []
  state_variables : List (Str × Str) := []
  range_scope : Nat := 0
  deriving DecidableEq, Repr

/-- The `DodecaMap` record: each `unordered_map` is an association list searched from
the front. -/
structure DodecaMap where
  symbol_to_overlay : List (Nat × Overlay) := []
  keyword_to_symbol : List (Str × Nat) := []
  deriving DecidableEq, Repr

/-- The member `DodecaMap::decompress`: the overlay registered for a symbol, if any. -/
def DodecaMap.decompress (m : DodecaMap) (symbol : Nat) : Option Overlay :=
  match m.symbol_to_overlay.find? (fun e => decide (e.1 = symbol)) with
  | some e => some e.2
  | none => none

/-- The member `DodecaMap::compress`: the symbol of a keyword, `'0'` when unknown. -/
def DodecaMap.compress (m : DodecaMap) (keyword : Str) : Nat :=
  match m.keyword_to_symbol.find? (fun e => decide (e.1 = keyword)) with
  | some e => e.2
  | none => 48

/-! ## dodeca_compiler.cpp -/

namespace dodeca_utils

/-- The function `dodeca_utils::is_valid_symbol`: `'0'..'9'`, `'a'..'b'`, `'c'..'z'`. -/
def is_valid_symbol (symbol : Nat) : Bool :=
  (48 ≤ symbol && symbol ≤ 57) || (97 ≤ symbol && symbol ≤ 98) ||
    (99 ≤ symbol && symbol ≤ 122)

end dodeca_utils

/-- Whitespace of the classic locale, as skipped by `operator>>`: space and `\t \n \v \f \r`. -/
def isspace (c : Nat) : Bool := c = 32 || (9 ≤ c && c ≤ 13)

/-- One call `std::getline(stream, line)` on the unread part of the stream: it fails
(`none`) at end of input, otherwise it yields the bytes before the next `'\n'` and
leaves the stream after that `'\n'`. -/
def getline (stream : Str) : Option (Str × Str) :=
  match stream with
  | [] => none
  | _ :: _ => some (stream.takeWhile (fun c => c != 10), (stream.dropWhile (fun c => c != 10)).drop 1)

/-- One extraction `stream >> token`: leading whitespace is skipped; it fails (`none`)
when nothing is left, otherwise it yields the bytes up to the next whitespace. -/
def extract (stream : Str) : Option (Str × Str) :=
  match stream.dropWhile isspace with
  | [] => none
  | c :: cs => some ((c :: cs).takeWhile (fun b => !isspace b), (c :: cs).dropWhile (fun b => !isspace b))

/-- The loop `while (line_stream >> param) inst->params.push_back(param)`. -/
def read_params : Nat → Str → List Str → List Str
  | 0, _, params => params
  | fuel + 1, stream, params =>
    match extract stream with
    | none => params
    | some (param, rest) => read_params fuel rest (params ++ [param])

/-- The keyword cascade of `parse_instructions` (source lines 112 to 132). -/
def map_keyword (dodeca_map_ : DodecaMap) (type_keyword : Str) (inst : Instruction) : Instruction :=
  if type_keyword = str "Instruct" ∨ type_keyword = str "instruct" then
    { inst with type := InstructionType.INSTRUCT }
  else if type_keyword = str "Guide" ∨ type_keyword = str "guide" then
    { inst with type := InstructionType.GUIDE }
  else if type_keyword = str "State" ∨ type_keyword = str "state" then
    { inst with type := InstructionType.STATE }
  else if type_keyword = str "Protocol" ∨ type_keyword = str "protocol" then
    { inst with type := InstructionType.PROTOCOL }
  else if type_keyword = str "Bubble" ∨ type_keyword = str "bubble" then
    { inst with type := InstructionType.BUBBLE }
  else if type_keyword = str "Chain" ∨ type_keyword = str "chain" then
    { inst with type := InstructionType.CHAIN }
  else if type_keyword = str "Franchise" ∨ type_keyword = str "franchise" then
    { inst with type := InstructionType.FRANCHISE }
  else
    match type_keyword with
    | [c] =>
      if dodeca_utils.is_valid_symbol c then
        { inst with type := InstructionType.OVERLAY, overlay_ref := dodeca_map_.decompress c }
      else inst
    | _ => inst

/-- The body of the `while (std::getline ...)` loop for one line that is not skipped:
the instruction built from the line when `range_pos` has the given value. A failed
extraction leaves its target string empty and the line stream exhausted. -/
def parse_line (dodeca_map_ : DodecaMap) (line : Str) (range_pos : Nat) : Instruction :=
  let inst : Instruction := { range_start := range_pos }
  let first : Str × Str := (extract line).getD ([], [])
  let inst := map_keyword dodeca_map_ first.1 inst
  let second : Str × Str := (extract first.2).getD ([], [])
  let inst := { inst with name := second.1 }
  let inst := { inst with params := read_params second.2.length second.2 inst.params }
  { inst with range_end := (range_pos + 1) % 4294967296 }

/-- The test `line.empty() || line[0] == '#'`. -/
def skip_line (line : Str) : Bool :=
  match line with
  | [] => true
  | c :: _ => c == 35

/-- The loop `while (std::getline(stream, line))` of `parse_instructions`, with the
unread stream, `range_pos` and the vector built so far as its state. -/
def parse_loop (dodeca_map_ : DodecaMap) : Nat → Str → Nat → List Instruction → List Instruction
  | 0, _, _, instructions => instructions
  | fuel + 1, stream, range_pos, instructions =>
    match getline stream with
    | none => instructions
    | some (line, rest) =>
      if skip_line line then parse_loop dodeca_map_ fuel rest range_pos instructions
      else
        parse_loop dodeca_map_ fuel rest ((range_pos + 1) % 4294967296)
          (instructions ++ [parse_line dodeca_map_ line range_pos])

/-- The method `DodecaCompiler::parse_instructions`. Every successful `getline` consumes at
least one byte, so `source.length + 1` iterations always reach the failing call. -/
def parse_instructions (dodeca_map_ : DodecaMap) (source : Str) : List Instruction :=
  parse_loop dodeca_map_ (source.length + 1) source 0 []

/-- The state of the loop of `build_protocols`: the vector built so far and
`current_protocol`, a pointer to one of its elements (its index) or null. -/
structure BuildState where
  protocols : List Protocol := []
  current_protocol : Option Nat := none
  deriving DecidableEq, Repr

/-- One iteration of the loop of `build_protocols`. -/
def build_step (st : BuildState) (inst : Instruction) : BuildState :=
  if inst.type = InstructionType.PROTOCOL then
    { protocols := st.protocols ++ [{ name := inst.name }]
      current_protocol := some st.protocols.length }
  else
    match st.current_protocol with
    | some k =>
      { st with protocols :=
          st.protocols.modify (fun p => { p with instructions := p.instructions ++ [inst] }) k }
    | none => st

/-- The method `DodecaCompiler::build_protocols`. -/
def build_protocols (instructions : List Instruction) : List Protocol :=
  (instructions.foldl build_step {}).protocols

/-- The method `DodecaCompiler::emit_opcode`. -/
def emit_opcode (output : List Nat) (opcode : HEIPOpcode) : List Nat :=
  output ++ [opcode]

/-- The method `DodecaCompiler::emit_operand`, on a `uint32_t` operand. -/
def emit_operand (output : List Nat) (operand : Nat) : List Nat :=
  output ++ [(operand >>> 24) &&& 0xFF] ++ [(operand >>> 16) &&& 0xFF] ++
    [(operand >>> 8) &&& 0xFF] ++ [operand &&& 0xFF]

/-- The static table of `map_to_opcode`. -/
def opcode_map : List (Str × HEIPOpcode) :=
  [ (str "load", HEIPOpcode.LOAD),
    (str "store", HEIPOpcode.STORE),
    (str "add", HEIPOpcode.ADD),
    (str "sub", HEIPOpcode.SUB),
    (str "call", HEIPOpcode.CALL),
    (str "return", HEIPOpcode.RET),
    (str "jump", HEIPOpcode.JMP),
    (str "compare", HEIPOpcode.CMP),
    (str "push", HEIPOpcode.PUSH),
    (str "pop", HEIPOpcode.POP) ]

/-- The method `DodecaCompiler::map_to_opcode`. -/
def map_to_opcode (instruction : Str) : HEIPOpcode :=
  match opcode_map.find? (fun e => decide (e.1 = instruction)) with
  | some e => e.2
  | none => HEIPOpcode.NOP

/-- The innermost loop of `generate_bytecode`: one parameter. -/
def emit_param (bytecode : List Nat) (param : Str) : List Nat :=
  emit_operand bytecode (param.length % 4294967296) ++ param

/-- The body of the instruction loop of `generate_bytecode`. -/
def emit_instruction (bytecode : List Nat) (inst : Instruction) : List Nat :=
  match inst.overlay_ref with
  | some overlay => emit_opcode bytecode HEIPOpcode.OVERLAY_EXPAND ++ overlay.compressed_bytecode
  | none => inst.params.foldl emit_param (emit_opcode bytecode (map_to_opcode inst.name))

/-- The body of the protocol loop of `generate_bytecode`. -/
def emit_protocol (bytecode : List Nat) (protocol : Protocol) : List Nat :=
  emit_opcode
    (protocol.instructions.foldl emit_instruction (emit_opcode bytecode HEIPOpcode.FRAME_CREATE))
    HEIPOpcode.FRAME_EXIT

/-- The method `DodecaCompiler::generate_bytecode`. -/
def generate_bytecode (protocols : List Protocol) : List Nat :=
  protocols.foldl emit_protocol []

/-- The `HELPContext` record. `learning_rate` is a `float` that the constructor sets to
0.01 and nothing changes; it is left out, and a score of `heuristic_scores` (a `float`) is
kept as the list of the multiples of `learning_rate` added to it, in order, starting from
the value-initialised 0. -/
structure HELPContext where
  compilation_count : Nat := 0
  adaptation_history : List Str := []
  heuristic_scores : List (Str × List Nat) := []
  deriving DecidableEq, Repr

/-- The statement `heuristic_scores[key] += learning_rate * weight`: `operator[]` inserts
a zero score for a new key. -/
def add_score (scores : List (Str × List Nat)) (key : Str) (weight : Nat) :
    List (Str × List Nat) :=
  match scores.find? (fun e => decide (e.1 = key)) with
  | some e => (key, e.2 ++ [weight]) :: scores.filter (fun e => decide (e.1 ≠ key))
  | none => (key, [weight]) :: scores

/-- The member `HELPContext::adapt_optimization`. -/
def HELPContext.adapt_optimization (h : HELPContext) (pattern : Str) : HELPContext :=
  { h with
    heuristic_scores := add_score h.heuristic_scores pattern 2
    adaptation_history := h.adaptation_history ++ [str "Adapted: " ++ pattern] }

/-- The state of a `DodecaCompiler` (`compression_ratio_`, a `float`, is left out). The
default values are those the constructor sets. -/
structure DodecaCompiler where
  dodeca_map_ : DodecaMap := {}
  overlay_registry_ : List (Str × Overlay) := []
  next_symbol_ : Nat := 48
  help_enabled_ : Bool := true
  help_context_ : HELPContext := {}
  original_size_ : Nat := 0
  compressed_size_ : Nat := 0
  deriving DecidableEq, Repr

/-- The assignment `m[key] = value` on an `unordered_map` kept as an association list. -/
def assign {κ ν : Type} [DecidableEq κ] (m : List (κ × ν)) (key : κ) (value : ν) :
    List (κ × ν) :=
  (key, value) :: m.filter (fun e => decide (e.1 ≠ key))

/-- The loop of `fold_recursively` from position `i`, where `data` is what is left of the
input from `i` on: the loop runs while four bytes are left and moves on by four. -/
def fold_loop : List Nat → List (Str × Nat) → Nat → List Nat → List Nat
  | b0 :: b1 :: b2 :: b3 :: rest, pattern_map, pattern_id, folded =>
    let pattern : Str := [b0, b1, b2, b3]
    match pattern_map.find? (fun e => decide (e.1 = pattern)) with
    | none =>
      fold_loop rest (assign pattern_map pattern pattern_id) ((pattern_id + 1) % 256)
        (folded ++ [pattern_id])
    | some e => fold_loop rest pattern_map pattern_id (folded ++ [e.2])
  | _, _, _, folded => folded

/-- The member `fold_recursively`; `depth` is never negative here. -/
def fold_recursively : List Nat → Nat → List Nat
  | data, 0 => data
  | data, depth + 1 =>
    if data.length < 4 then data else fold_recursively (fold_loop data [] 0 []) depth

/-- The integer part of the binary logarithm of `n`, by halving; `fuel` bounds the
halvings, and `n` itself is enough. -/
def floor_log2 : Nat → Nat → Nat
  | 0, _ => 0
  | fuel + 1, n => if 2 ≤ n then floor_log2 fuel (n / 2) + 1 else 0

/-- The value of a `size_t` converted to `double`, as the call `std::log2(data_size)`
converts its argument: 53 significant bits, rounded to the nearest value, a tie going to
the even one. -/
def to_double (n : Nat) : Nat :=
  if n < 9007199254740992 then n
  else
    let unit := 2 ^ (floor_log2 n n - 52)
    let q := n / unit
    let r := n % unit
    if 2 * r < unit then q * unit
    else if unit < 2 * r then (q + 1) * unit
    else if q % 2 = 0 then q * unit
    else (q + 1) * unit

/-- Whether `std::log2` of a `double` with the integer value `x`, where
`2^(k-1) ≤ x < 2^k`, returns the integer `k`: the exact logarithm of `x` is then nearer to
`k` than to the `double` next below `k`. With `N = 2^m`, `m = 53 - e`, where `e` is the
integer part of the logarithm of `k - 1`, that `double` is `k - 2/N`, and
`log2 x > k - 1/N` says `(2^k)^N < 2 x^N`, the last test. The tests before it only save
the evaluation of these powers and agree with it (`log2_rounds_up_eq`): `x` is too far
below `2^k`, or `(x / 2^k)^N`, by `m` squarings in units of `2^-128` with the quotients
rounded down, is above one half, or with the quotients rounded up it is at most one
half. -/
def log2_rounds_up (x k : Nat) : Bool :=
  let m := 53 - floor_log2 (k - 1) (k - 1)
  let lo := (fun v => v * v / 340282366920938463463374607431768211456)^[m]
    (x * 340282366920938463463374607431768211456 / 2 ^ k)
  let hi := (fun v => (v * v + 340282366920938463463374607431768211455) /
      340282366920938463463374607431768211456)^[m]
    ((x * 340282366920938463463374607431768211456 + (2 ^ k - 1)) / 2 ^ k)
  if 2 ^ k ≤ (2 ^ k - x) * 2 ^ m then false
  else if 340282366920938463463374607431768211456 < 2 * lo then true
  else if 2 * hi ≤ 340282366920938463463374607431768211456 then false
  else decide ((2 ^ k) ^ 2 ^ m < 2 * x ^ 2 ^ m)

/-- The expression `static_cast<int>(std::log2(x))` for a `double` with the positive
integer value `x`: the exact integer part of the logarithm, or one more when the logarithm
rounds up to the next integer. -/
def log2_to_int (x : Nat) : Nat :=
  if log2_rounds_up x (floor_log2 x x + 1) then floor_log2 x x + 1 else floor_log2 x x

namespace dodeca_utils

/-- The function `optimal_fold_depth`: `static_cast<int>(std::log2(data_size)) / 2`. For
size 0 the logarithm is minus infinity and the cast is undefined in the source; here the
depth is 0. -/
def optimal_fold_depth (data_size : Nat) : Nat := log2_to_int (to_double data_size) / 2

end dodeca_utils

/-- The member `fold_structure`. -/
def fold_structure (unfolded : List Nat) : List Nat :=
  fold_recursively unfolded (dodeca_utils.optimal_fold_depth unfolded.length)

/-- The member `apply_help_optimizations`: the changed compiler and the changed stream. -/
def apply_help_optimizations (c : DodecaCompiler) (bytecode : List Nat) :
    DodecaCompiler × List Nat :=
  ({ c with help_context_ := c.help_context_.adapt_optimization (str "bytecode_compression") },
   bytecode.filter (fun b => b != HEIPOpcode.NOP))

/-- The member `allocate_symbol`: the symbol handed out and the changed compiler. -/
def allocate_symbol (c : DodecaCompiler) : Nat × DodecaCompiler :=
  let symbol := c.next_symbol_
  let c :=
    if 48 ≤ c.next_symbol_ ∧ c.next_symbol_ < 57 then
      { c with next_symbol_ := c.next_symbol_ + 1 }
    else if c.next_symbol_ = 57 then { c with next_symbol_ := 97 }
    else if c.next_symbol_ = 98 then { c with next_symbol_ := 99 }
    else if 99 ≤ c.next_symbol_ ∧ c.next_symbol_ < 122 then
      { c with next_symbol_ := c.next_symbol_ + 1 }
    else c
  (symbol, c)

/-- The member `register_overlay`. -/
def register_overlay (c : DodecaCompiler) (keyword : Str) (replacement_bytecode : List Nat) :
    DodecaCompiler :=
  let (symbol, c) := allocate_symbol c
  let overlay : Overlay :=
    { name := keyword, symbol := symbol, compressed_bytecode := replacement_bytecode,
      original_size := 0, compressed_size := replacement_bytecode.length }
  { c with
    overlay_registry_ := assign c.overlay_registry_ keyword overlay
    dodeca_map_ :=
      { symbol_to_overlay := assign c.dodeca_map_.symbol_to_overlay symbol overlay
        keyword_to_symbol := assign c.dodeca_map_.keyword_to_symbol keyword symbol } }

/-! ## frame_runtime.h, frama_runtime.cpp -/

/-- The `Range` record (`end_` is the member `end`). -/
structure Range where
  start : Nat
  end_ : Nat
  deriving DecidableEq, Repr

/-- The `Frame` record, with the members the runtime reads or writes; `execution_range`
holds the pointed-to `Range`, which is never mutated once attached. -/
structure Frame where
  name : Str := []
  execution_range : Option Range := none
  frame_id : Nat := 0
  timestamp : Nat := 0
  can_recover : Bool := false
  checkpoint_state : List Nat := []
  deriving DecidableEq, Repr

/-- The data members of `FrameRuntime`. `heap` is the table of allocated `Frame` objects;
`frame_stack_` and `current_frame_` hold indices into it. `memory_` maps an address to the
byte stored there and `memory_size` is `memory_.size()`; a write beyond `memory_size`
(outside the buffer) is kept visible in `memory_`. The clock members, the float
`uptime_percentage_` and the never-used `checkpoint_stack_` are left out. -/
structure FrameRuntime where
  bytecode_ : List Nat
  program_counter_ : Nat
  heap : List Frame
  frame_stack_ : List Nat
  current_frame_ : Option Nat
  next_frame_id_ : Nat
  stack_ : List Nat
  memory_ : Nat → Nat
  memory_size : Nat
  self_healing_enabled_ : Bool
  error_log_ : List Str
  instruction_count_ : Nat
  execution_log_ : List Str

/-- The method `FrameRuntime::log_execution_event`. -/
def log_execution_event (rt : FrameRuntime) (event : Str) : FrameRuntime :=
  { rt with execution_log_ := rt.execution_log_ ++ [event] }

/-- The method `FrameRuntime::create_frame`; `now` is the clock reading in microseconds.
It returns the new pointer with the updated runtime. -/
def create_frame (rt : FrameRuntime) (name : Str) (now : Nat) : Nat × FrameRuntime :=
  let frame : Frame :=
    { name := name, frame_id := rt.next_frame_id_, timestamp := now, can_recover := true }
  (rt.heap.length,
    { rt with
      heap := rt.heap ++ [frame]
      next_frame_id_ := (rt.next_frame_id_ + 1) % 18446744073709551616
      frame_stack_ := rt.frame_stack_ ++ [rt.heap.length] })

/-- The constructor `FrameRuntime::FrameRuntime`: 1 MiB of zeroed memory and the root frame. -/
def FrameRuntime.init (now : Nat) : FrameRuntime :=
  let rt : FrameRuntime :=
    { bytecode_ := [], program_counter_ := 0, heap := [], frame_stack_ := [],
      current_frame_ := none, next_frame_id_ := 1, stack_ := [],
      memory_ := fun _ => 0, memory_size := 1024 * 1024,
      self_healing_enabled_ := true, error_log_ := [], instruction_count_ := 0,
      execution_log_ := [] }
  let r := create_frame rt (str "__root__") now
  { r.2 with current_frame_ := some r.1 }

/-- The method `FrameRuntime::load_bytecode` (it always returns true). -/
def load_bytecode (rt : FrameRuntime) (bytecode : List Nat) : FrameRuntime :=
  log_execution_event { rt with bytecode_ := bytecode, program_counter_ := 0 }
    (str "Bytecode loaded: " ++ str (toString bytecode.length) ++ str " bytes")

/-- The frame that `current_frame_` points to, if it is not null. -/
def current_frame (rt : FrameRuntime) : Option Frame :=
  match rt.current_frame_ with
  | some p => rt.heap.get? p
  | none => none

/-- The four bytes `(v >> 24) & 0xFF`, `(v >> 16) & 0xFF`, `(v >> 8) & 0xFF`, `v & 0xFF`. -/
def be_bytes (v : Nat) : List Nat :=
  [(v >>> 24) &&& 0xFF, (v >>> 16) &&& 0xFF, (v >>> 8) &&& 0xFF, v &&& 0xFF]

/-- The expression `(b0 << 24) | (b1 << 16) | (b2 << 8) | b3` on four bytes, as the bit
pattern of the resulting 32-bit `int`. -/
def be_word (b0 b1 b2 b3 : Nat) : Nat :=
  ((b0 <<< 24) ||| (b1 <<< 16) ||| (b2 <<< 8) ||| b3) % 4294967296

/-- Conversion of a 32-bit `int`, given by its bit pattern, to the 64-bit `size_t`: a
pattern with the top bit set is a negative `int` and is sign-extended. -/
def int_to_size_t (w : Nat) : Nat :=
  if w < 2147483648 then w else w + (18446744073709551616 - 4294967296)

/-- The element `v[i]` of a byte vector for a `size_t` index expression; an index past the
end (undefined behaviour in the source) reads as 0. -/
def byte_at (v : List Nat) (i : Nat) : Nat :=
  v.getD (i % 18446744073709551616) 0

/-- The 4-byte big-endian immediate at the program counter, read into a `uint32_t`. -/
def read_immediate (rt : FrameRuntime) : Nat :=
  be_word (byte_at rt.bytecode_ rt.program_counter_) (byte_at rt.bytecode_ (rt.program_counter_ + 1))
    (byte_at rt.bytecode_ (rt.program_counter_ + 2)) (byte_at rt.bytecode_ (rt.program_counter_ + 3))

/-- The guard `program_counter_ + 4 > bytecode_.size()`, in `size_t` arithmetic. -/
def immediate_missing (rt : FrameRuntime) : Bool :=
  decide ((rt.program_counter_ + 4) % 18446744073709551616 > rt.bytecode_.length)

/-- The statement `program_counter_ += 4`. -/
def advance_pc (rt : FrameRuntime) : FrameRuntime :=
  { rt with program_counter_ := (rt.program_counter_ + 4) % 18446744073709551616 }

/-- The method `FrameRuntime::save_state`: program counter, then every stack value from
the bottom up, four bytes each. -/
def save_state (rt : FrameRuntime) : FrameRuntime :=
  let state : List Nat :=
    rt.stack_.foldl (fun state val => state ++ be_bytes val) (be_bytes rt.program_counter_)
  match rt.current_frame_ with
  | some p => { rt with heap := rt.heap.modify (fun f => { f with checkpoint_state := state }) p }
  | none => rt

/-- The stack loop of `restore_state` (`for (i = 4; i < state.size(); i += 4)`) on the
bytes from index 4 on; a trailing group of fewer than four bytes reads the missing ones
as 0. -/
def restore_stack : List Nat → List Nat → List Nat
  | [], stack => stack
  | [b0], stack => stack ++ [be_word b0 0 0 0]
  | [b0, b1], stack => stack ++ [be_word b0 b1 0 0]
  | [b0, b1, b2], stack => stack ++ [be_word b0 b1 b2 0]
  | b0 :: b1 :: b2 :: b3 :: rest, stack => restore_stack rest (stack ++ [be_word b0 b1 b2 b3])

/-- The method `FrameRuntime::restore_state`. -/
def restore_state (rt : FrameRuntime) : FrameRuntime :=
  match current_frame rt with
  | some frame =>
    if frame.checkpoint_state ≠ [] then
      let state := frame.checkpoint_state
      let rt1 : FrameRuntime :=
        { rt with
          program_counter_ :=
            int_to_size_t (be_word (state.getD 0 0) (state.getD 1 0) (state.getD 2 0) (state.getD 3 0))
          stack_ := restore_stack (state.drop 4) [] }
      log_execution_event rt1 (str "State restored from checkpoint")
    else rt
  | none => rt

/-- The method `FrameRuntime::create_checkpoint`. -/
def create_checkpoint (rt : FrameRuntime) : FrameRuntime :=
  log_execution_event (save_state rt) (str "Checkpoint created")

/-- The method `FrameRuntime::attempt_recovery`. -/
def attempt_recovery (rt : FrameRuntime) : Bool × FrameRuntime :=
  let rt1 := log_execution_event rt (str "Attempting self-healing recovery")
  let rt2 := restore_state rt1
  let rt3 : FrameRuntime := { rt2 with error_log_ := [] }
  (match current_frame rt3 with
    | some frame => decide (frame.checkpoint_state ≠ [])
    | none => false,
   rt3)

/-- The expression `stack_.back()`. -/
def back (stack : List Nat) : Nat := stack.getLastD 0

/-- The statement `memory_[address] = byte`. -/
def mem_write (memory : Nat → Nat) (address byte : Nat) : Nat → Nat :=
  fun i => if i = address then byte else memory i

/-- The method `FrameRuntime::execute_heip_opcode`, entered after the opcode byte has been
fetched: the returned flag with the runtime as the call leaves it. -/
def execute_heip_opcode (rt : FrameRuntime) (opcode : HEIPOpcode) : Bool × FrameRuntime :=
  if opcode = HEIPOpcode.NOP then (true, rt)
  else if opcode = HEIPOpcode.LOAD then
    if immediate_missing rt then (false, rt)
    else
      let value := read_immediate rt
      let rt1 := advance_pc rt
      (true, { rt1 with stack_ := rt1.stack_ ++ [value] })
  else if opcode = HEIPOpcode.STORE then
    if rt.stack_.isEmpty then (false, rt)
    else
      let value := back rt.stack_
      let rt1 : FrameRuntime := { rt with stack_ := rt.stack_.dropLast }
      if immediate_missing rt1 then (false, rt1)
      else
        let address := read_immediate rt1
        let rt2 := advance_pc rt1
        if (address + 4) % 4294967296 > rt2.memory_size then (false, rt2)
        else
          let m0 := mem_write rt2.memory_ address ((value >>> 24) &&& 0xFF)
          let m1 := mem_write m0 ((address + 1) % 4294967296) ((value >>> 16) &&& 0xFF)
          let m2 := mem_write m1 ((address + 2) % 4294967296) ((value >>> 8) &&& 0xFF)
          let m3 := mem_write m2 ((address + 3) % 4294967296) (value &&& 0xFF)
          (true, { rt2 with memory_ := m3 })
  else if opcode = HEIPOpcode.ADD then
    if rt.stack_.length < 2 then (false, rt)
    else
      let b := back rt.stack_
      let a := back rt.stack_.dropLast
      (true, { rt with stack_ := rt.stack_.dropLast.dropLast ++ [(a + b) % 4294967296] })
  else if opcode = HEIPOpcode.SUB then
    if rt.stack_.length < 2 then (false, rt)
    else
      let b := back rt.stack_
      let a := back rt.stack_.dropLast
      (true,
        { rt with
          stack_ := rt.stack_.dropLast.dropLast ++ [(a + (4294967296 - b % 4294967296)) % 4294967296] })
  else if opcode = HEIPOpcode.MUL then
    if rt.stack_.length < 2 then (false, rt)
    else
      let b := back rt.stack_
      let a := back rt.stack_.dropLast
      (true, { rt with stack_ := rt.stack_.dropLast.dropLast ++ [(a * b) % 4294967296] })
  else if opcode = HEIPOpcode.CALL then
    if immediate_missing rt then (false, rt)
    else
      let target := read_immediate rt
      let rt1 := advance_pc rt
      (true,
        { rt1 with
          stack_ := rt1.stack_ ++ [rt1.program_counter_ % 4294967296]
          program_counter_ := target })
  else if opcode = HEIPOpcode.RET then
    if rt.stack_.isEmpty then (false, rt)
    else (true, { rt with program_counter_ := back rt.stack_, stack_ := rt.stack_.dropLast })
  else if opcode = HEIPOpcode.JMP then
    if immediate_missing rt then (false, rt)
    else (true, { rt with program_counter_ := read_immediate rt })
  else if opcode = HEIPOpcode.PUSH then
    if rt.stack_.isEmpty then (false, rt) else (true, rt)
  else if opcode = HEIPOpcode.POP then
    if rt.stack_.isEmpty then (false, rt)
    else (true, { rt with stack_ := rt.stack_.dropLast })
  else if opcode = HEIPOpcode.FRAME_CREATE then
    (true, log_execution_event (create_checkpoint rt) (str "Frame created"))
  else if opcode = HEIPOpcode.FRAME_EXIT then
    (true, log_execution_event rt (str "Frame exited"))
  else if opcode = HEIPOpcode.HELP_LEARN then
    (true, log_execution_event rt (str "HELP learning invoked"))
  else if opcode = HEIPOpcode.HELP_HEAL then
    (true, (attempt_recovery (log_execution_event rt (str "HELP self-healing triggered"))).2)
  else if opcode = HEIPOpcode.OVERLAY_EXPAND then
    (true, log_execution_event rt (str "Overlay expanded"))
  else (false, rt)

/-- The method `FrameRuntime::execute_instruction`: the byte is cast to `HEIPOpcode`. -/
def execute_instruction (rt : FrameRuntime) (opcode : Nat) : Bool × FrameRuntime :=
  execute_heip_opcode rt opcode

/-- The method `FrameRuntime::enter_frame`; the argument is a pointer into `heap`. -/
def enter_frame (rt : FrameRuntime) (frame : Nat) : FrameRuntime :=
  log_execution_event { rt with current_frame_ := some frame }
    (str "Entered frame: " ++ ((rt.heap.get? frame).map (fun f => f.name)).getD [])

/-- The method `FrameRuntime::exit_frame`. -/
def exit_frame (rt : FrameRuntime) : FrameRuntime :=
  let rt1 : FrameRuntime :=
    if rt.frame_stack_.isEmpty then rt else { rt with frame_stack_ := rt.frame_stack_.dropLast }
  let rt2 : FrameRuntime :=
    match rt1.frame_stack_.getLast? with
    | some top => { rt1 with current_frame_ := some top }
    | none => rt1
  log_execution_event rt2 (str "Exited frame")

/-- The method `FrameRuntime::set_execution_range`, on `uint32_t` arguments. -/
def set_execution_range (rt : FrameRuntime) (start end_ : Nat) : FrameRuntime :=
  match rt.current_frame_ with
  | some p =>
    { rt with
      heap := rt.heap.modify
        (fun f => { f with execution_range := some { start := start, end_ := end_ } }) p }
  | none => rt

/-- The method `FrameRuntime::in_range`, on a `uint32_t` position. -/
def in_range (rt : FrameRuntime) (position : Nat) : Bool :=
  match current_frame rt with
  | some frame =>
    match frame.execution_range with
    | some range => decide (position ≥ range.start) && decide (position ≤ range.end_)
    | none => true
  | none => true

/-- What a run of `execute` has come to: it has returned a status, or its loop is still
running after the iterations allowed so far. -/
inductive ExecOutcome where
  | returned (status : Nat) (rt : FrameRuntime)
  | running (rt : FrameRuntime)

/-- One iteration of the `while` loop of `execute`, entered when
`program_counter_ < bytecode_.size()`: fetch, dispatch, then the recovery policy on failure
or the counter increment and range check on success. -/
def execute_iteration (rt : FrameRuntime) : ExecOutcome :=
  let opcode := byte_at rt.bytecode_ rt.program_counter_
  let rt1 : FrameRuntime :=
    { rt with program_counter_ := (rt.program_counter_ + 1) % 18446744073709551616 }
  let r := execute_instruction rt1 opcode
  if r.1 = false then
    if r.2.self_healing_enabled_ = true then
      let recovery := attempt_recovery r.2
      if recovery.1 = true then
        ExecOutcome.running
          (log_execution_event recovery.2 (str "Self-healing recovery successful"))
      else ExecOutcome.returned 1 recovery.2
    else ExecOutcome.returned 1 r.2
  else
    let rt2 : FrameRuntime :=
      { r.2 with instruction_count_ := (r.2.instruction_count_ + 1) % 18446744073709551616 }
    if in_range rt2 (rt2.program_counter_ % 4294967296) = false then
      ExecOutcome.returned 0
        (log_execution_event (log_execution_event rt2 (str "Execution out of range"))
          (str "Execution completed successfully"))
    else ExecOutcome.running rt2

/-- The `while` loop of `execute`, run for at most the given number of evaluations of its
condition. -/
def execute_loop : Nat → FrameRuntime → ExecOutcome
  | 0, rt => ExecOutcome.running rt
  | fuel + 1, rt =>
    if rt.program_counter_ < rt.bytecode_.length then
      match execute_iteration rt with
      | ExecOutcome.returned status rt1 => ExecOutcome.returned status rt1
      | ExecOutcome.running rt1 => execute_loop fuel rt1
    else
      ExecOutcome.returned 0 (log_execution_event rt (str "Execution completed successfully"))

/-- The method `FrameRuntime::execute`, with a bound on the loop iterations. The `catch`
block is not modelled: only a failed allocation can throw inside the loop. -/
def execute (fuel : Nat) (rt : FrameRuntime) : ExecOutcome :=
  execute_loop fuel (log_execution_event rt (str "Execution started"))

/-! ## Reference descriptions and example states used by the theorems -/

/-- The lines of a source text that the parser keeps, in the words of the specification:
the text is split at every `'\n'` and the pieces that are empty or begin with `'#'` are
dropped. -/
def kept_lines (source : Str) : List Str :=
  (source.splitOn 10).filter (fun line => decide (line ≠ [] ∧ line.head? ≠ some 35))

/-- The whitespace-separated tokens of a line: the non-empty pieces between whitespace
bytes. -/
def tokens (line : Str) : List Str :=
  (line.splitOnP isspace).filter (fun t => decide (t ≠ []))

/-- The spellings that the keyword cascade of `parse_instructions` compares the first token
with: each keyword in lower case and with a capital first letter. -/
def keyword_spellings : List (Str × InstructionType) :=
  [ (str "Instruct", InstructionType.INSTRUCT), (str "instruct", InstructionType.INSTRUCT),
    (str "Guide", InstructionType.GUIDE), (str "guide", InstructionType.GUIDE),
    (str "State", InstructionType.STATE), (str "state", InstructionType.STATE),
    (str "Protocol", InstructionType.PROTOCOL), (str "protocol", InstructionType.PROTOCOL),
    (str "Bubble", InstructionType.BUBBLE), (str "bubble", InstructionType.BUBBLE),
    (str "Chain", InstructionType.CHAIN), (str "chain", InstructionType.CHAIN),
    (str "Franchise", InstructionType.FRANCHISE), (str "franchise", InstructionType.FRANCHISE) ]

/-- The reference grouping of the specification: every protocol-kind instruction opens a
protocol named after it that holds the maximal run of non-protocol instructions following
it; instructions before the first opener belong to no protocol. -/
def group_protocols : List Instruction → List Protocol
  | [] => []
  | inst :: rest =>
    if inst.type = InstructionType.PROTOCOL then
      { name := inst.name
        instructions := rest.takeWhile (fun i => decide (i.type ≠ InstructionType.PROTOCOL)) } ::
        group_protocols rest
    else group_protocols rest

/-- The four big-endian bytes of the low 32 bits of a number. -/
def big_endian32 (n : Nat) : List Nat :=
  [n / 16777216 % 256, n / 65536 % 256, n / 256 % 256, n % 256]

/-- The reference encoding of one instruction: `OVERLAY_EXPAND` and the overlay bytes when
it carries an overlay reference, otherwise the opcode of its name and, per parameter, the
big-endian length and the raw bytes. -/
def encode_instruction (inst : Instruction) : List Nat :=
  match inst.overlay_ref with
  | some overlay => [0x40] ++ overlay.compressed_bytecode
  | none => [map_to_opcode inst.name] ++ inst.params.flatMap (fun p => big_endian32 p.length ++ p)

/-- The reference encoding of one protocol, framed by `FRAME_CREATE` and `FRAME_EXIT`. -/
def encode_protocol (protocol : Protocol) : List Nat :=
  [0x30] ++ protocol.instructions.flatMap encode_instruction ++ [0x32]

/-- The runtime used to instantiate C9: a fresh runtime whose bytecode is the LOAD opcode,
the operand `0xDEADBEEF` as written by `emit_operand`, and `FRAME_EXIT`, with the opcode
byte already fetched. -/
def load_example : FrameRuntime :=
  { FrameRuntime.init 0 with
    bytecode_ := emit_operand [0x01] 3735928559 ++ [0x32]
    program_counter_ := 1 }

/-- The runtimes used to instantiate C10: a fresh runtime with the stack `7, 4294967295, 1`,
and one with the single value `7`. -/
def arith_example : FrameRuntime :=
  { FrameRuntime.init 0 with stack_ := [7, 4294967295, 1] }

/-- A fresh runtime with a one-element stack. -/
def short_example : FrameRuntime :=
  { FrameRuntime.init 0 with stack_ := [7] }

/-- The exit status of an outcome, when `execute` has returned. -/
def ExecOutcome.status? : ExecOutcome → Option Nat
  | ExecOutcome.returned status _ => some status
  | ExecOutcome.running _ => none

/-- The runtime of an outcome. -/
def ExecOutcome.state : ExecOutcome → FrameRuntime
  | ExecOutcome.returned _ rt => rt
  | ExecOutcome.running rt => rt

/-- The number of checkpoint restorations a runtime has logged. -/
def restorations (rt : FrameRuntime) : Nat :=
  rt.execution_log_.count (str "State restored from checkpoint")

/-- The checkpoint of the current frame, empty when there is no current frame. -/
def checkpoint_of (rt : FrameRuntime) : List Nat :=
  match current_frame rt with
  | some frame => frame.checkpoint_state
  | none => []

/-- The execution range of the current frame, if there is one. -/
def current_range (rt : FrameRuntime) : Option Range :=
  match current_frame rt with
  | some frame => frame.execution_range
  | none => none

/-- The runtime used to instantiate C11: a fresh runtime with the stack `7, 0xDEADBEEF`
whose bytecode is the STORE opcode and the address 16 as written by `emit_operand`, with
the opcode byte already fetched. -/
def store_example : FrameRuntime :=
  { FrameRuntime.init 0 with
    bytecode_ := emit_operand [0x02] 16 ++ [0x32]
    program_counter_ := 1
    stack_ := [7, 3735928559] }

/-- The failing input of C12 with the STORE opcode byte already fetched: a fresh runtime
(1 MiB of memory) with the value `0xDEADBEEF` on the stack and the address `0xFFFFFFFC` as
the immediate. -/
def store_wrap_example : FrameRuntime :=
  { FrameRuntime.init 0 with
    bytecode_ := [0x02, 0xFF, 0xFF, 0xFF, 0xFC]
    program_counter_ := 1
    stack_ := [3735928559] }

/-- The runtime used to instantiate C13: a CALL at position 0 with target 9, on the stack
`7`. -/
def call_example : FrameRuntime :=
  { FrameRuntime.init 0 with
    bytecode_ := emit_operand [0x07] 9 ++ [0, 0, 0, 0, 0x08]
    program_counter_ := 1
    stack_ := [7] }

/-- A runtime whose bytecode has 2^32 bytes, all zero, with the program counter just after
a CALL opcode at position `2^32 - 5`. -/
def call_wrap_example : FrameRuntime :=
  { FrameRuntime.init 0 with
    bytecode_ := List.replicate 4294967296 0
    program_counter_ := 4294967292 }

/-- The runtime used to instantiate C16: the program `LOAD 7; FRAME_CREATE; POP; POP` after
its first three instructions, at the head of the loop before the second POP. -/
def recover_example : FrameRuntime :=
  (execute 3 (load_bytecode (FrameRuntime.init 0) [0x01, 0, 0, 0, 7, 0x30, 0x0E, 0x0E])).state

/-- The runtime `recover_example` as the failing second POP leaves it. -/
def failed_example : FrameRuntime :=
  { recover_example with program_counter_ := 8 }

/-- The runtime of the program `FRAME_CREATE; 0xFF` at the head of the loop once
FRAME_CREATE has run, with the given clock reading of the root frame and the given
execution log. -/
def retry_state (now : Nat) (log : List Str) : FrameRuntime :=
  { bytecode_ := [0x30, 0xFF], program_counter_ := 1,
    heap := [{ name := str "__root__", frame_id := 1, timestamp := now, can_recover := true,
               checkpoint_state := [0, 0, 0, 1] }],
    frame_stack_ := [0], current_frame_ := some 0, next_frame_id_ := 2, stack_ := [],
    memory_ := fun _ => 0, memory_size := 1024 * 1024, self_healing_enabled_ := true,
    error_log_ := [], instruction_count_ := 1, execution_log_ := log }

/-- A fresh runtime whose program counter is 2^32 + 5. -/
def checkpoint_wide_example : FrameRuntime :=
  { FrameRuntime.init 0 with program_counter_ := 4294967301, stack_ := [4294967295] }

/-- The runtime used to instantiate C18: counter 6 and a stack with top-bit values. -/
def checkpoint_example : FrameRuntime :=
  { FrameRuntime.init 0 with program_counter_ := 6, stack_ := [4294967295, 0, 2147483648] }

/-- A runtime whose bytecode is 2^32 + 1 NOP bytes, at the head of the loop with the
program counter at `2^32 - 1`, and whose current frame has the execution range
`[0, 2^32 - 1]`. -/
def range_wrap_example : FrameRuntime :=
  set_execution_range
    { FrameRuntime.init 0 with
      bytecode_ := List.replicate 4294967297 0
      program_counter_ := 4294967295 }
    0 4294967295

/-- The runtime used to instantiate C20: the program `NOP; NOP; NOP` at the head of the
loop, with the execution range `[0, 1]` on the current frame. -/
def range_example : FrameRuntime :=
  set_execution_range (load_bytecode (FrameRuntime.init 0) [0, 0, 0]) 0 1

/-- A fresh runtime after `execute` has run the program `JMP 0x80000000`: the run has
returned and the program counter is 2^31. -/
def jump_example : FrameRuntime :=
  (execute 2 (load_bytecode (FrameRuntime.init 0) [0x09, 0x80, 0x00, 0x00, 0x00])).state

/-- The runtime `jump_example` after `save_state` and then `load_bytecode` of the one-byte
program `0xFF`: the checkpoint of the current frame holds the counter 2^31. -/
def sign_example : FrameRuntime :=
  load_bytecode (save_state jump_example) [0xFF]

/-- The non-overlapping 4-byte windows of a byte sequence, in order; bytes after the last
whole window belong to no window. -/
def windows : List Nat → List Str
  | b0 :: b1 :: b2 :: b3 :: rest => [b0, b1, b2, b3] :: windows rest
  | _ => []

/-- One step of `first_seen`. -/
def see (seen : List Str) (w : Str) : List Str := if w ∈ seen then seen else seen ++ [w]

/-- The distinct windows of a list of windows, in the order in which they are first seen. -/
def first_seen (ws : List Str) : List Str := ws.foldl see []

/-- The position of a window in a list of windows (the length when it is not there). -/
def position (w : Str) (l : List Str) : Nat := l.findIdx (fun x => decide (x = w))

/-- One folding pass: `fold_recursively` with depth 1. -/
def fold_pass (data : List Nat) : List Nat := fold_recursively data 1

/-- A sequence of 257 pairwise different windows. -/
def wrap_example : List Nat := (List.range 257).flatMap (fun k => [0, 0, k / 256, k % 256])

/-- The symbol that the call number `n` (from 0) of `allocate_symbol` returns on a fresh
compiler, as the specification lists them: `'0'` to `'9'`, then `'a'` for good. -/
def nth_symbol (n : Nat) : Nat := if n < 10 then 48 + n else 97

/-- The symbols handed out by `n` successive calls of `allocate_symbol`, in order, and the
compiler after them. -/
def allocate_many : Nat → DodecaCompiler → List Nat × DodecaCompiler
  | 0, c => ([], c)
  | n + 1, c =>
    ((allocate_symbol c).1 :: (allocate_many n (allocate_symbol c).2).1,
      (allocate_many n (allocate_symbol c).2).2)

/-- Successive calls of `register_overlay`, one for each keyword and replacement. -/
def register_all (c : DodecaCompiler) (calls : List (Str × List Nat)) : DodecaCompiler :=
  calls.foldl (fun c call => register_overlay c call.1 call.2) c

/-- The overlay that `register_overlay` stores for a keyword, a symbol and a replacement. -/
def stored_overlay (keyword : Str) (symbol : Nat) (replacement : List Nat) : Overlay :=
  { name := keyword, symbol := symbol, compressed_bytecode := replacement,
    original_size := 0, compressed_size := replacement.length }

/-- The symbol that a token stands for: the token is one character of `0-9` or `a-z`. -/
def symbol_of_token (token : Str) : Option Nat :=
  match token with
  | [c] => if dodeca_utils.is_valid_symbol c then some c else none
  | _ => none

/-- Twelve registrations under the pairwise different keywords `k0` to `k9`, `k:`, `k;`,
the registration number `i` with the replacement `[i]`. -/
def twelve_overlays : List (Str × List Nat) :=
  (List.range 12).map (fun i => ([107, 48 + i], [i]))

/-- A STORE entered after its opcode byte was fetched at the end of the bytecode, with the
value 5 on the stack: the immediate is missing. -/
def store_short_example : FrameRuntime :=
  { load_bytecode (FrameRuntime.init 0) [0x02] with program_counter_ := 1, stack_ := [5] }

/-- A STORE with the value 5 on the stack and the address `0x00100000`, the first one past
the 1 MiB memory. -/
def store_far_example : FrameRuntime :=
  { load_bytecode (FrameRuntime.init 0) [0x02, 0x00, 0x10, 0x00, 0x00] with
    program_counter_ := 1, stack_ := [5] }

/-- The runtime of the program `FRAME_CREATE; LOAD 7; STORE 16; POP` after its first three
instructions: the checkpoint holds the counter 1 and the empty stack, the value 7 has been
stored at the addresses 16 to 19, and the POP is about to fail on the empty stack. -/
def persist_example : FrameRuntime :=
  (execute 3 (load_bytecode (FrameRuntime.init 0)
    [0x30, 0x01, 0, 0, 0, 7, 0x02, 0, 0, 0, 16, 0x0E])).state

/-- The lower-case form of an ASCII byte. -/
def ascii_lower (c : Nat) : Nat := if 65 ≤ c ∧ c ≤ 90 then c + 32 else c

/-! ## Lemmas on the parser -/

theorem splitOnP_takeWhile (p : Nat → Bool) (s : List Nat) :
    s.splitOnP p = s.takeWhile (fun c => !p c) ::
      (match s.dropWhile (fun c => !p c) with
       | [] => []
       | _ :: r => r.splitOnP p) := by
  induction s with
  | nil => simp
  | cons x xs ih =>
    rw [List.splitOnP_cons]
    by_cases h : p x
    · simp [h]
    · simp [h, ih, List.modifyHead]

theorem dropWhile_head_false (p : Nat → Bool) :
    ∀ (s : List Nat) (d : Nat) (r : List Nat), s.dropWhile p = d :: r → p d = false := by
  intro s
  induction s with
  | nil => intro d r h; simp at h
  | cons x xs ih =>
    intro d r h
    by_cases hx : p x
    · simp [List.dropWhile, hx] at h
      exact ih d r h
    · simp [List.dropWhile, hx] at h
      rw [← h.1]
      simpa using hx

theorem dropWhile_length_le (p : Nat → Bool) (s : List Nat) : (s.dropWhile p).length ≤ s.length := by
  induction s with
  | nil => simp
  | cons x xs ih =>
    by_cases hx : p x
    · simp [List.dropWhile, hx]; omega
    · simp [List.dropWhile, hx]

theorem skip_line_eq (line : Str) :
    skip_line line = !decide (line ≠ [] ∧ line.head? ≠ some 35) := by
  cases line with
  | nil => simp [skip_line]
  | cons c cs => by_cases hc : c = 35 <;> simp [skip_line, hc]

theorem getline_length {stream line rest : Str} (h : getline stream = some (line, rest)) :
    rest.length < stream.length := by
  cases stream with
  | nil => simp [getline] at h
  | cons c cs =>
    simp only [getline, Option.some.injEq, Prod.mk.injEq] at h
    rw [← h.2]
    have := dropWhile_length_le (fun c => c != 10) (c :: cs)
    simp only [List.length_drop, List.length_cons] at *
    omega

theorem kept_lines_getline {stream line rest : Str} (h : getline stream = some (line, rest)) :
    kept_lines stream = if skip_line line then kept_lines rest else line :: kept_lines rest := by
  cases stream with
  | nil => simp [getline] at h
  | cons c cs =>
    simp only [getline, Option.some.injEq, Prod.mk.injEq] at h
    obtain ⟨h1, h2⟩ := h
    have hs := splitOnP_takeWhile (fun x => x == 10) (c :: cs)
    have hb : (fun x : Nat => !(x == 10)) = (fun x => x != 10) := rfl
    rw [hb, h1] at hs
    unfold kept_lines List.splitOn
    rw [hs, List.filter_cons, skip_line_eq]
    have hrest : List.filter (fun line => decide (line ≠ [] ∧ line.head? ≠ some 35))
        (match List.dropWhile (fun x => x != 10) (c :: cs) with
          | [] => []
          | _ :: r => List.splitOnP (fun x => x == 10) r) =
        List.filter (fun line => decide (line ≠ [] ∧ line.head? ≠ some 35))
          (List.splitOnP (fun x => x == 10) rest) := by
      rw [← h2]
      cases hd : List.dropWhile (fun x => x != 10) (c :: cs) with
      | nil => simp
      | cons d r => simp
    rw [hrest]
    by_cases hk : (line ≠ [] ∧ line.head? ≠ some 35)
    · simp [hk]
    · simp [hk]

theorem parse_loop_eq (reg : DodecaMap) :
    ∀ (fuel : Nat) (stream : Str) (n : Nat) (acc : List Instruction),
      stream.length < fuel →
      parse_loop reg fuel stream (n % 4294967296) acc =
        acc ++ (kept_lines stream).mapIdx
          (fun i line => parse_line reg line ((n + i) % 4294967296)) := by
  intro fuel
  induction fuel with
  | zero => intro stream n acc h; omega
  | succ fuel ih =>
    intro stream n acc h
    unfold parse_loop
    cases hg : getline stream with
    | none =>
      cases stream with
      | nil => simp [kept_lines, List.splitOn]
      | cons c cs => simp [getline] at hg
    | some lr =>
      obtain ⟨line, rest⟩ := lr
      have hlen := getline_length hg
      have hk := kept_lines_getline hg
      simp only
      by_cases hs : skip_line line = true
      · rw [if_pos hs, ih rest n acc (by omega), hk, if_pos hs]
      · rw [if_neg hs, hk, if_neg hs]
        have hmod : (n % 4294967296 + 1) % 4294967296 = (n + 1) % 4294967296 := by omega
        rw [hmod, ih rest (n + 1) _ (by omega), List.mapIdx_cons]
        have hf : (fun i line => parse_line reg line ((n + 1 + i) % 4294967296)) =
            (fun i line => parse_line reg line ((n + (i + 1)) % 4294967296)) := by
          funext i line
          rw [show n + 1 + i = n + (i + 1) by omega]
        simp [hf]

theorem parse_instructions_eq (reg : DodecaMap) (source : Str) :
    parse_instructions reg source =
      (kept_lines source).mapIdx (fun i line => parse_line reg line (i % 4294967296)) := by
  have h := parse_loop_eq reg (source.length + 1) source 0 [] (by omega)
  simpa [parse_instructions] using h

theorem tokens_nil : tokens [] = [] := by
  simp [tokens]

theorem tokens_dropWhile (s : Str) : tokens (s.dropWhile isspace) = tokens s := by
  induction s with
  | nil => simp
  | cons x xs ih =>
    by_cases hx : isspace x = true
    · rw [List.dropWhile_cons_of_pos hx, ih]
      simp [tokens, List.splitOnP_cons, hx]
    · rw [List.dropWhile_cons_of_neg hx]

theorem tokens_cons_of_not_space (c : Nat) (cs : Str) (hc : isspace c = false) :
    tokens (c :: cs) =
      (c :: cs).takeWhile (fun b => !isspace b) ::
        tokens ((c :: cs).dropWhile (fun b => !isspace b)) := by
  have hs := splitOnP_takeWhile isspace (c :: cs)
  have htw : (c :: cs).takeWhile (fun b => !isspace b) =
      c :: cs.takeWhile (fun b => !isspace b) := by simp [List.takeWhile, hc]
  unfold tokens
  rw [hs, htw, List.filter_cons]
  simp only [ne_eq, reduceCtorEq, not_false_eq_true, decide_True, if_true]
  congr 1
  cases hd : List.dropWhile (fun b => !isspace b) (c :: cs) with
  | nil => simp
  | cons d r =>
    have hdsp := dropWhile_head_false (fun b => !isspace b) (c :: cs) d r hd
    simp only [Bool.not_eq_false_eq_eq_true, Bool.not_eq_false'] at hdsp
    simp [List.splitOnP_cons, hdsp]

theorem extract_none {s : Str} (h : extract s = none) : tokens s = [] := by
  unfold extract at h
  rw [← tokens_dropWhile]
  cases hd : List.dropWhile isspace s with
  | nil => exact tokens_nil
  | cons c cs => rw [hd] at h; simp at h

theorem extract_some {s t r : Str} (h : extract s = some (t, r)) :
    tokens s = t :: tokens r ∧ r.length < s.length := by
  unfold extract at h
  rw [← tokens_dropWhile]
  cases hd : List.dropWhile isspace s with
  | nil => rw [hd] at h; simp at h
  | cons c cs =>
    rw [hd] at h
    simp only [Option.some.injEq, Prod.mk.injEq] at h
    have hc : isspace c = false := by
      have := dropWhile_head_false isspace s c cs hd
      simpa using this
    constructor
    · rw [tokens_cons_of_not_space c cs hc, h.1, h.2]
    · rw [← h.2]
      have h1 := dropWhile_length_le (fun b => !isspace b) (c :: cs)
      have h2 := dropWhile_length_le isspace s
      rw [hd] at h2
      have h3 : (List.dropWhile (fun b => !isspace b) (c :: cs)).length ≤ cs.length := by
        simp only [List.dropWhile, hc, Bool.not_false]
        exact dropWhile_length_le _ cs
      simp only [List.length_cons] at h2
      omega

theorem read_params_eq :
    ∀ (fuel : Nat) (s : Str) (acc : List Str), s.length ≤ fuel →
      read_params fuel s acc = acc ++ tokens s := by
  intro fuel
  induction fuel with
  | zero =>
    intro s acc h
    have hs : s = [] := List.length_eq_zero.mp (by omega)
    simp [read_params, hs, tokens_nil]
  | succ fuel ih =>
    intro s acc h
    unfold read_params
    cases he : extract s with
    | none => simp [extract_none he]
    | some tr =>
      obtain ⟨t, r⟩ := tr
      obtain ⟨h1, h2⟩ := extract_some he
      simp only
      rw [ih r _ (by omega), h1]
      simp

theorem parse_line_eq (reg : DodecaMap) (line : Str) (pos : Nat) :
    parse_line reg line pos =
      { map_keyword reg ((tokens line).headD []) { range_start := pos } with
        name := (tokens line).getD 1 []
        params := (tokens line).drop 2
        range_end := (pos + 1) % 4294967296 } := by
  have hmk : ∀ (t : Str) (i : Instruction), (map_keyword reg t i).params = i.params := by
    intro t i
    unfold map_keyword
    repeat (first | split | rfl)
  unfold parse_line
  cases h1 : extract line with
  | none =>
    have e : extract ([] : Str) = none := rfl
    simp [extract_none h1, e, read_params, hmk]
  | some tr =>
    obtain ⟨t, r⟩ := tr
    obtain ⟨ht, _⟩ := extract_some h1
    cases h2 : extract r with
    | none =>
      have e : extract ([] : Str) = none := rfl
      simp [ht, h2, extract_none h2, read_params, hmk]
    | some ur =>
      obtain ⟨u, q⟩ := ur
      obtain ⟨hu, _⟩ := extract_some h2
      simp [ht, h2, hu, read_params_eq, hmk]

theorem map_keyword_range_start (reg : DodecaMap) (t : Str) (i : Instruction) :
    (map_keyword reg t i).range_start = i.range_start := by
  unfold map_keyword
  repeat (first | split | rfl)

theorem parse_instructions_getElem? (reg : DodecaMap) (source : Str) (i : Nat) :
    (parse_instructions reg source)[i]? =
      (kept_lines source)[i]?.map (fun line => parse_line reg line (i % 4294967296)) := by
  rw [parse_instructions_eq, List.getElem?_mapIdx]

/-! ## Lemmas on grouping and generation -/

theorem modify_length_append (f : Protocol → Protocol) (ps : List Protocol) (p : Protocol) :
    List.modify f ps.length (ps ++ [p]) = ps ++ [f p] := by
  induction ps with
  | nil => rfl
  | cons q qs ih => simpa [List.modify_succ_cons] using ih

theorem group_protocols_dropWhile (l : List Instruction) :
    group_protocols (l.dropWhile (fun i => decide (i.type ≠ InstructionType.PROTOCOL))) =
      group_protocols l := by
  induction l with
  | nil => rfl
  | cons i rest ih =>
    by_cases hp : i.type = InstructionType.PROTOCOL
    · simp [List.dropWhile, hp]
    · simp only [decide_not] at ih
      simp [List.dropWhile, hp, group_protocols, ih]

theorem foldl_build_step_open :
    ∀ (l : List Instruction) (ps : List Protocol) (p : Protocol),
      (l.foldl build_step { protocols := ps ++ [p], current_protocol := some ps.length }).protocols =
        ps ++ ({ p with instructions := p.instructions ++
                  l.takeWhile (fun i => decide (i.type ≠ InstructionType.PROTOCOL)) } ::
                group_protocols l) := by
  intro l
  induction l with
  | nil => intro ps p; simp [group_protocols]
  | cons i rest ih =>
    intro ps p
    by_cases hp : i.type = InstructionType.PROTOCOL
    · have hstep : build_step { protocols := ps ++ [p], current_protocol := some ps.length } i =
          { protocols := (ps ++ [p]) ++ [{ name := i.name }],
            current_protocol := some (ps ++ [p]).length } := by
        simp [build_step, hp]
      rw [List.foldl_cons, hstep, ih (ps ++ [p]) { name := i.name }]
      simp [List.takeWhile, hp, group_protocols]
    · have hstep : build_step { protocols := ps ++ [p], current_protocol := some ps.length } i =
          { protocols := ps ++ [{ p with instructions := p.instructions ++ [i] }],
            current_protocol := some ps.length } := by
        simp [build_step, hp, modify_length_append]
      rw [List.foldl_cons, hstep, ih ps { p with instructions := p.instructions ++ [i] }]
      simp [List.takeWhile, hp, group_protocols]

theorem build_protocols_eq (l : List Instruction) : build_protocols l = group_protocols l := by
  unfold build_protocols
  induction l with
  | nil => rfl
  | cons i rest ih =>
    by_cases hp : i.type = InstructionType.PROTOCOL
    · have hstep : build_step {} i =
          { protocols := [] ++ [{ name := i.name }], current_protocol := some ([] : List Protocol).length } := by
        simp [build_step, hp]
      rw [List.foldl_cons, hstep, foldl_build_step_open rest [] { name := i.name }]
      simp [group_protocols, hp]
    · have hstep : build_step {} i = {} := by
        simp [build_step, hp]
      rw [List.foldl_cons, hstep, ih]
      simp [group_protocols, hp]

theorem filter_eq_takeWhile_append (p : Instruction → Bool) (l : List Instruction) :
    l.filter p = l.takeWhile p ++ (l.dropWhile p).filter p := by
  induction l with
  | nil => rfl
  | cons i rest ih =>
    by_cases hp : p i = true
    · simp [List.filter, List.takeWhile, List.dropWhile, hp, ih]
    · simp [List.filter, List.takeWhile, List.dropWhile, hp]

theorem group_protocols_names (l : List Instruction) :
    (group_protocols l).map (fun p => p.name) =
      (l.filter (fun i => decide (i.type = InstructionType.PROTOCOL))).map (fun i => i.name) := by
  induction l with
  | nil => rfl
  | cons i rest ih =>
    by_cases hp : i.type = InstructionType.PROTOCOL
    · simp [group_protocols, hp, ih]
    · simp [group_protocols, hp, ih]

theorem group_protocols_flatten (l : List Instruction) :
    (group_protocols l).flatMap (fun p => p.instructions) =
      (l.dropWhile (fun i => decide (i.type ≠ InstructionType.PROTOCOL))).filter
        (fun i => decide (i.type ≠ InstructionType.PROTOCOL)) := by
  induction l with
  | nil => rfl
  | cons i rest ih =>
    by_cases hp : i.type = InstructionType.PROTOCOL
    · have h := filter_eq_takeWhile_append (fun i => decide (i.type ≠ InstructionType.PROTOCOL)) rest
      simp only [group_protocols, hp, if_true, List.flatMap_cons, ih]
      simp only [decide_not] at h
      simp [List.dropWhile, hp, List.filter, h]
    · simp [group_protocols, hp, ih, List.dropWhile]

theorem foldl_append_flatMap {α : Type} (f : List Nat → α → List Nat) (g : α → List Nat)
    (hf : ∀ acc x, f acc x = acc ++ g x) :
    ∀ (l : List α) (acc : List Nat), l.foldl f acc = acc ++ l.flatMap g := by
  intro l
  induction l with
  | nil => intro acc; simp
  | cons x xs ih => intro acc; simp [List.foldl_cons, hf, ih]

theorem emit_operand_eq (output : List Nat) (n : Nat) :
    emit_operand output (n % 4294967296) = output ++ big_endian32 n := by
  have h255 : (255 : Nat) = 2 ^ 8 - 1 := by norm_num
  simp only [emit_operand, big_endian32, Nat.shiftRight_eq_div_pow, h255,
    Nat.and_pow_two_sub_one_eq_mod, List.append_assoc, List.singleton_append]
  have e1 : n % 4294967296 / 2 ^ 24 % 2 ^ 8 = n / 16777216 % 256 := by norm_num; omega
  have e2 : n % 4294967296 / 2 ^ 16 % 2 ^ 8 = n / 65536 % 256 := by norm_num; omega
  have e3 : n % 4294967296 / 2 ^ 8 % 2 ^ 8 = n / 256 % 256 := by norm_num; omega
  have e4 : n % 4294967296 % 2 ^ 8 = n % 256 := by norm_num
  rw [e1, e2, e3, e4]
  simp

theorem emit_param_eq (acc : List Nat) (param : Str) :
    emit_param acc param = acc ++ (big_endian32 param.length ++ param) := by
  simp [emit_param, emit_operand_eq]

theorem emit_instruction_eq (acc : List Nat) (inst : Instruction) :
    emit_instruction acc inst = acc ++ encode_instruction inst := by
  unfold emit_instruction encode_instruction
  cases inst.overlay_ref with
  | some overlay => simp [emit_opcode]
  | none =>
    simp only
    rw [foldl_append_flatMap emit_param _ emit_param_eq]
    simp [emit_opcode]

theorem emit_protocol_eq (acc : List Nat) (protocol : Protocol) :
    emit_protocol acc protocol = acc ++ encode_protocol protocol := by
  unfold emit_protocol encode_protocol
  rw [foldl_append_flatMap emit_instruction _ emit_instruction_eq]
  simp [emit_opcode]

/-! ## Lemmas on the runtime -/

theorem be_word_eq_add (b0 b1 b2 b3 : Nat) (h0 : b0 < 256) (h1 : b1 < 256) (h2 : b2 < 256)
    (h3 : b3 < 256) :
    be_word b0 b1 b2 b3 = b0 * 16777216 + b1 * 65536 + b2 * 256 + b3 := by
  unfold be_word
  simp only [Nat.shiftLeft_eq]
  have e1 : b0 * 2 ^ 24 ||| b1 * 2 ^ 16 = 2 ^ 16 * (b0 * 256 + b1) := by
    have h := Nat.mul_add_lt_is_or (i := 24) (b := b1 * 2 ^ 16) (by norm_num; omega) b0
    rw [Nat.mul_comm b0, ← h]
    norm_num
    omega
  have e2 : 2 ^ 16 * (b0 * 256 + b1) ||| b2 * 2 ^ 8 = 2 ^ 8 * (b0 * 65536 + b1 * 256 + b2) := by
    have h := Nat.mul_add_lt_is_or (i := 16) (b := b2 * 2 ^ 8) (by norm_num; omega)
      (b0 * 256 + b1)
    rw [← h]
    norm_num
    omega
  have e3 : 2 ^ 8 * (b0 * 65536 + b1 * 256 + b2) ||| b3 =
      b0 * 16777216 + b1 * 65536 + b2 * 256 + b3 := by
    have h := Nat.mul_add_lt_is_or (i := 8) (b := b3) (by norm_num; omega)
      (b0 * 65536 + b1 * 256 + b2)
    rw [← h]
    norm_num
    omega
  rw [e1, e2, e3]
  omega

theorem be_bytes_eq (x : Nat) : be_bytes x = [x / 16777216 % 256, x / 65536 % 256, x / 256 % 256, x % 256] := by
  have h255 : (255 : Nat) = 2 ^ 8 - 1 := by norm_num
  simp only [be_bytes, Nat.shiftRight_eq_div_pow, h255, Nat.and_pow_two_sub_one_eq_mod]

theorem emit_operand_be_bytes (output : List Nat) (x : Nat) :
    emit_operand output x = output ++ be_bytes x := by
  simp [emit_operand, be_bytes]

theorem be_word_be_bytes (x : Nat) (hx : x < 4294967296) :
    be_word (x / 16777216 % 256) (x / 65536 % 256) (x / 256 % 256) (x % 256) = x := by
  rw [be_word_eq_add _ _ _ _ (by omega) (by omega) (by omega) (by omega)]
  omega

theorem getD_append_mid (pre post : List Nat) (b0 b1 b2 b3 : Nat) :
    (pre ++ [b0, b1, b2, b3] ++ post).getD pre.length 0 = b0 ∧
      (pre ++ [b0, b1, b2, b3] ++ post).getD (pre.length + 1) 0 = b1 ∧
      (pre ++ [b0, b1, b2, b3] ++ post).getD (pre.length + 2) 0 = b2 ∧
      (pre ++ [b0, b1, b2, b3] ++ post).getD (pre.length + 3) 0 = b3 := by
  induction pre with
  | nil => simp
  | cons p ps ih =>
    simp only [List.cons_append, List.length_cons]
    have e1 : ps.length + 1 + 1 = (ps.length + 1) + 1 := rfl
    have e2 : ps.length + 1 + 2 = (ps.length + 2) + 1 := by omega
    have e3 : ps.length + 1 + 3 = (ps.length + 3) + 1 := by omega
    rw [e2, e3]
    simp only [List.getD_cons_succ]
    exact ih

theorem back_concat (s : List Nat) (a : Nat) : back (s ++ [a]) = a := by
  unfold back
  induction s with
  | nil => rfl
  | cons x xs ih =>
    cases xs with
    | nil => rfl
    | cons y ys => simpa using ih

theorem stack_two (s : List Nat) (a b : Nat) :
    back (s ++ [a, b]) = b ∧ (s ++ [a, b]).dropLast = s ++ [a] ∧
      ¬ (s ++ [a, b]).length < 2 := by
  have e : s ++ [a, b] = (s ++ [a]) ++ [b] := by simp
  refine ⟨?_, ?_, ?_⟩
  · rw [e, back_concat]
  · rw [e, List.dropLast_concat]
  · simp

theorem sub_wrap (a b : Nat) :
    (a + (4294967296 - b % 4294967296)) % 4294967296 =
      Int.toNat (((a : Int) - (b : Int)) % 4294967296) := by
  omega

theorem immediate_at (rt : FrameRuntime) (pre post : List Nat) (a : Nat)
    (ha : a < 4294967296)
    (hcode : rt.bytecode_ = emit_operand pre a ++ post)
    (hpc : rt.program_counter_ = pre.length)
    (hsize : rt.bytecode_.length < 18446744073709551616) :
    immediate_missing rt = false ∧ read_immediate rt = a ∧
      advance_pc rt = { rt with program_counter_ := rt.program_counter_ + 4 } := by
  rw [emit_operand_be_bytes, be_bytes_eq] at hcode
  have hlen : pre.length + 4 ≤ rt.bytecode_.length := by
    rw [hcode]; simp
  obtain ⟨g0, g1, g2, g3⟩ := getD_append_mid pre post (a / 16777216 % 256) (a / 65536 % 256)
    (a / 256 % 256) (a % 256)
  rw [← hcode] at g0 g1 g2 g3
  have m0 : rt.program_counter_ % 18446744073709551616 = pre.length := by rw [hpc]; omega
  have m1 : (rt.program_counter_ + 1) % 18446744073709551616 = pre.length + 1 := by
    rw [hpc]; omega
  have m2 : (rt.program_counter_ + 2) % 18446744073709551616 = pre.length + 2 := by
    rw [hpc]; omega
  have m3 : (rt.program_counter_ + 3) % 18446744073709551616 = pre.length + 3 := by
    rw [hpc]; omega
  have m4 : (rt.program_counter_ + 4) % 18446744073709551616 = rt.program_counter_ + 4 := by
    rw [hpc]; omega
  refine ⟨?_, ?_, ?_⟩
  · unfold immediate_missing
    rw [m4, hpc]
    exact decide_eq_false (by omega)
  · unfold read_immediate byte_at
    rw [m0, m1, m2, m3, g0, g1, g2, g3]
    exact be_word_be_bytes a ha
  · unfold advance_pc
    rw [m4]

theorem isEmpty_concat (s : List Nat) (v : Nat) : (s ++ [v]).isEmpty = false := by
  cases s <;> rfl

theorem getD_replicate_zero (n i : Nat) : (List.replicate n 0).getD i 0 = 0 := by
  induction n generalizing i with
  | zero => simp
  | succ n ih =>
    cases i with
    | zero => simp [List.replicate_succ]
    | succ i => simp [List.replicate_succ, ih i]

theorem call_step (rt : FrameRuntime) (h : immediate_missing rt = false) :
    execute_heip_opcode rt HEIPOpcode.CALL =
      (true,
        { advance_pc rt with
          stack_ := (advance_pc rt).stack_ ++ [(advance_pc rt).program_counter_ % 4294967296]
          program_counter_ := read_immediate rt }) := by
  unfold execute_heip_opcode
  rw [if_neg (by decide), if_neg (by decide), if_neg (by decide), if_neg (by decide),
    if_neg (by decide), if_neg (by decide), if_pos rfl, h]
  rfl

theorem ret_step (rt : FrameRuntime) :
    execute_heip_opcode rt HEIPOpcode.RET =
      if rt.stack_.isEmpty then (false, rt)
      else (true, { rt with program_counter_ := back rt.stack_, stack_ := rt.stack_.dropLast }) := by
  unfold execute_heip_opcode
  rw [if_neg (by decide), if_neg (by decide), if_neg (by decide), if_neg (by decide),
    if_neg (by decide), if_neg (by decide), if_neg (by decide), if_pos rfl]

theorem restore_state_eq (rt : FrameRuntime) :
    restore_state rt =
      if checkpoint_of rt ≠ [] then
        { rt with
          program_counter_ :=
            int_to_size_t (be_word ((checkpoint_of rt).getD 0 0) ((checkpoint_of rt).getD 1 0)
              ((checkpoint_of rt).getD 2 0) ((checkpoint_of rt).getD 3 0))
          stack_ := restore_stack ((checkpoint_of rt).drop 4) []
          execution_log_ := rt.execution_log_ ++ [str "State restored from checkpoint"] }
      else rt := by
  unfold restore_state checkpoint_of
  cases h : current_frame rt with
  | none => simp
  | some frame =>
    by_cases hc : frame.checkpoint_state = []
    · simp [hc]
    · simp [hc, log_execution_event]

theorem checkpoint_of_log (rt : FrameRuntime) (e : Str) :
    checkpoint_of (log_execution_event rt e) = checkpoint_of rt := rfl

theorem attempt_recovery_eq (rf : FrameRuntime) :
    attempt_recovery rf =
      if checkpoint_of rf ≠ [] then
        (true,
          { rf with
            program_counter_ :=
              int_to_size_t (be_word ((checkpoint_of rf).getD 0 0) ((checkpoint_of rf).getD 1 0)
                ((checkpoint_of rf).getD 2 0) ((checkpoint_of rf).getD 3 0))
            stack_ := restore_stack ((checkpoint_of rf).drop 4) []
            error_log_ := []
            execution_log_ := rf.execution_log_ ++
              [str "Attempting self-healing recovery", str "State restored from checkpoint"] })
      else
        (false,
          { rf with
            error_log_ := []
            execution_log_ := rf.execution_log_ ++ [str "Attempting self-healing recovery"] }) := by
  have hflag : ∀ r : FrameRuntime,
      (match current_frame r with
        | some frame => decide (frame.checkpoint_state ≠ [])
        | none => false) = decide (checkpoint_of r ≠ []) := by
    intro r
    unfold checkpoint_of
    cases current_frame r <;> simp
  unfold attempt_recovery
  simp only [restore_state_eq, checkpoint_of_log]
  by_cases hc : checkpoint_of rf = []
  · simp only [hc, ne_eq, not_true_eq_false, if_false, log_execution_event, List.append_assoc,
      List.singleton_append, Prod.mk.injEq, and_true]
    show (match current_frame rf with
      | some frame => decide (frame.checkpoint_state ≠ [])
      | none => false) = false
    rw [hflag]
    simp [hc]
  · simp only [hc, ne_eq, not_false_eq_true, if_true, log_execution_event, List.append_assoc,
      List.singleton_append, List.cons_append, List.nil_append, Prod.mk.injEq, and_true]
    show (match current_frame rf with
      | some frame => decide (frame.checkpoint_state ≠ [])
      | none => false) = true
    rw [hflag]
    simp [hc]

theorem map_modify_same {β : Type} (f : Frame → β) (g : Frame → Frame)
    (hfg : ∀ x, f (g x) = f x) :
    ∀ (l : List Frame) (n : Nat), (l.modify g n).map f = l.map f := by
  intro l
  induction l with
  | nil => intro n; cases n <;> rfl
  | cons x xs ih =>
    intro n
    cases n with
    | zero => simp [List.modify_zero_cons, hfg]
    | succ n => simp [List.modify_succ_cons, ih n]

theorem save_state_frames (rt : FrameRuntime) :
    (save_state rt).instruction_count_ = rt.instruction_count_ ∧
      (save_state rt).self_healing_enabled_ = rt.self_healing_enabled_ ∧
      (save_state rt).bytecode_ = rt.bytecode_ ∧
      (save_state rt).frame_stack_ = rt.frame_stack_ ∧
      (save_state rt).current_frame_ = rt.current_frame_ ∧
      (save_state rt).next_frame_id_ = rt.next_frame_id_ ∧
      (save_state rt).heap.map (fun f => f.frame_id) = rt.heap.map (fun f => f.frame_id) ∧
      (save_state rt).heap.length = rt.heap.length := by
  unfold save_state
  simp only []
  split
  · refine ⟨rfl, rfl, rfl, rfl, rfl, rfl, ?_, ?_⟩
    · dsimp only
      refine map_modify_same (fun f : Frame => f.frame_id) _ ?_ _ _
      intro x
      rfl
    · simp
  · exact ⟨rfl, rfl, rfl, rfl, rfl, rfl, rfl, rfl⟩

theorem execute_loop_succ (fuel : Nat) (rt : FrameRuntime) :
    execute_loop (fuel + 1) rt =
      if rt.program_counter_ < rt.bytecode_.length then
        match execute_iteration rt with
        | ExecOutcome.returned status rt1 => ExecOutcome.returned status rt1
        | ExecOutcome.running rt1 => execute_loop fuel rt1
      else
        ExecOutcome.returned 0
          (log_execution_event rt (str "Execution completed successfully")) := rfl

theorem opcode_frames (rt : FrameRuntime) (opcode : Nat) :
    (execute_heip_opcode rt opcode).2.instruction_count_ = rt.instruction_count_ ∧
      (execute_heip_opcode rt opcode).2.self_healing_enabled_ = rt.self_healing_enabled_ ∧
      (execute_heip_opcode rt opcode).2.bytecode_ = rt.bytecode_ ∧
      (execute_heip_opcode rt opcode).2.frame_stack_ = rt.frame_stack_ ∧
      (execute_heip_opcode rt opcode).2.current_frame_ = rt.current_frame_ ∧
      (execute_heip_opcode rt opcode).2.next_frame_id_ = rt.next_frame_id_ ∧
      (execute_heip_opcode rt opcode).2.heap.map (fun f => f.frame_id) =
        rt.heap.map (fun f => f.frame_id) ∧
      (execute_heip_opcode rt opcode).2.heap.length = rt.heap.length := by
  have hs := save_state_frames rt
  by_cases h0 : opcode = HEIPOpcode.NOP
  · unfold execute_heip_opcode
    rw [if_pos h0]
    exact ⟨rfl, rfl, rfl, rfl, rfl, rfl, rfl, rfl⟩
  by_cases h1 : opcode = HEIPOpcode.LOAD
  · unfold execute_heip_opcode
    rw [if_neg h0, if_pos h1]
    try simp only []
    split_ifs <;> exact ⟨rfl, rfl, rfl, rfl, rfl, rfl, rfl, rfl⟩
  by_cases h2 : opcode = HEIPOpcode.STORE
  · unfold execute_heip_opcode
    rw [if_neg h0, if_neg h1, if_pos h2]
    try simp only []
    split_ifs <;> exact ⟨rfl, rfl, rfl, rfl, rfl, rfl, rfl, rfl⟩
  by_cases h3 : opcode = HEIPOpcode.ADD
  · unfold execute_heip_opcode
    rw [if_neg h0, if_neg h1, if_neg h2, if_pos h3]
    try simp only []
    split_ifs <;> exact ⟨rfl, rfl, rfl, rfl, rfl, rfl, rfl, rfl⟩
  by_cases h4 : opcode = HEIPOpcode.SUB
  · unfold execute_heip_opcode
    rw [if_neg h0, if_neg h1, if_neg h2, if_neg h3, if_pos h4]
    try simp only []
    split_ifs <;> exact ⟨rfl, rfl, rfl, rfl, rfl, rfl, rfl, rfl⟩
  by_cases h5 : opcode = HEIPOpcode.MUL
  · unfold execute_heip_opcode
    rw [if_neg h0, if_neg h1, if_neg h2, if_neg h3, if_neg h4, if_pos h5]
    try simp only []
    split_ifs <;> exact ⟨rfl, rfl, rfl, rfl, rfl, rfl, rfl, rfl⟩
  by_cases h6 : opcode = HEIPOpcode.CALL
  · unfold execute_heip_opcode
    rw [if_neg h0, if_neg h1, if_neg h2, if_neg h3, if_neg h4, if_neg h5, if_pos h6]
    try simp only []
    split_ifs <;> exact ⟨rfl, rfl, rfl, rfl, rfl, rfl, rfl, rfl⟩
  by_cases h7 : opcode = HEIPOpcode.RET
  · unfold execute_heip_opcode
    rw [if_neg h0, if_neg h1, if_neg h2, if_neg h3, if_neg h4, if_neg h5, if_neg h6, if_pos h7]
    try simp only []
    split_ifs <;> exact ⟨rfl, rfl, rfl, rfl, rfl, rfl, rfl, rfl⟩
  by_cases h8 : opcode = HEIPOpcode.JMP
  · unfold execute_heip_opcode
    rw [if_neg h0, if_neg h1, if_neg h2, if_neg h3, if_neg h4, if_neg h5, if_neg h6, if_neg h7, if_pos h8]
    try simp only []
    split_ifs <;> exact ⟨rfl, rfl, rfl, rfl, rfl, rfl, rfl, rfl⟩
  by_cases h9 : opcode = HEIPOpcode.PUSH
  · unfold execute_heip_opcode
    rw [if_neg h0, if_neg h1, if_neg h2, if_neg h3, if_neg h4, if_neg h5, if_neg h6, if_neg h7, if_neg h8, if_pos h9]
    try simp only []
    split_ifs <;> exact ⟨rfl, rfl, rfl, rfl, rfl, rfl, rfl, rfl⟩
  by_cases h10 : opcode = HEIPOpcode.POP
  · unfold execute_heip_opcode
    rw [if_neg h0, if_neg h1, if_neg h2, if_neg h3, if_neg h4, if_neg h5, if_neg h6, if_neg h7, if_neg h8, if_neg h9, if_pos h10]
    try simp only []
    split_ifs <;> exact ⟨rfl, rfl, rfl, rfl, rfl, rfl, rfl, rfl⟩
  by_cases h11 : opcode = HEIPOpcode.FRAME_CREATE
  · unfold execute_heip_opcode
    rw [if_neg h0, if_neg h1, if_neg h2, if_neg h3, if_neg h4, if_neg h5, if_neg h6, if_neg h7, if_neg h8, if_neg h9, if_neg h10, if_pos h11]
    exact hs
  by_cases h12 : opcode = HEIPOpcode.FRAME_EXIT
  · unfold execute_heip_opcode
    rw [if_neg h0, if_neg h1, if_neg h2, if_neg h3, if_neg h4, if_neg h5, if_neg h6, if_neg h7, if_neg h8, if_neg h9, if_neg h10, if_neg h11, if_pos h12]
    exact ⟨rfl, rfl, rfl, rfl, rfl, rfl, rfl, rfl⟩
  by_cases h13 : opcode = HEIPOpcode.HELP_LEARN
  · unfold execute_heip_opcode
    rw [if_neg h0, if_neg h1, if_neg h2, if_neg h3, if_neg h4, if_neg h5, if_neg h6, if_neg h7, if_neg h8, if_neg h9, if_neg h10, if_neg h11, if_neg h12, if_pos h13]
    exact ⟨rfl, rfl, rfl, rfl, rfl, rfl, rfl, rfl⟩
  by_cases h14 : opcode = HEIPOpcode.HELP_HEAL
  · unfold execute_heip_opcode
    rw [if_neg h0, if_neg h1, if_neg h2, if_neg h3, if_neg h4, if_neg h5, if_neg h6, if_neg h7, if_neg h8, if_neg h9, if_neg h10, if_neg h11, if_neg h12, if_neg h13, if_pos h14]
    rw [attempt_recovery_eq]
    try simp only []
    split_ifs <;> exact ⟨rfl, rfl, rfl, rfl, rfl, rfl, rfl, rfl⟩
  by_cases h15 : opcode = HEIPOpcode.OVERLAY_EXPAND
  · unfold execute_heip_opcode
    rw [if_neg h0, if_neg h1, if_neg h2, if_neg h3, if_neg h4, if_neg h5, if_neg h6, if_neg h7, if_neg h8, if_neg h9, if_neg h10, if_neg h11, if_neg h12, if_neg h13, if_neg h14, if_pos h15]
    exact ⟨rfl, rfl, rfl, rfl, rfl, rfl, rfl, rfl⟩
  unfold execute_heip_opcode
  rw [if_neg h0, if_neg h1, if_neg h2, if_neg h3, if_neg h4, if_neg h5, if_neg h6, if_neg h7, if_neg h8, if_neg h9, if_neg h10, if_neg h11, if_neg h12, if_neg h13, if_neg h14, if_neg h15]
  exact ⟨rfl, rfl, rfl, rfl, rfl, rfl, rfl, rfl⟩

theorem frame_create_step (rt : FrameRuntime) :
    execute_heip_opcode rt HEIPOpcode.FRAME_CREATE =
      (true, log_execution_event (create_checkpoint rt) (str "Frame created")) := by
  unfold execute_heip_opcode
  rw [if_neg (by decide), if_neg (by decide), if_neg (by decide), if_neg (by decide),
    if_neg (by decide), if_neg (by decide), if_neg (by decide), if_neg (by decide),
    if_neg (by decide), if_neg (by decide), if_neg (by decide), if_pos rfl]

theorem retry_first (now : Nat) :
    execute_iteration
        (log_execution_event (load_bytecode (FrameRuntime.init now) [0x30, 0xFF])
          (str "Execution started")) =
      ExecOutcome.running
        (retry_state now
          [str "Bytecode loaded: 2 bytes", str "Execution started", str "Checkpoint created",
            str "Frame created"]) := by
  have hop : byte_at [0x30, 0xFF] 0 = HEIPOpcode.FRAME_CREATE := by decide
  have hstr : str "Bytecode loaded: " ++ str (toString [0x30, 0xFF].length) ++ str " bytes" =
      str "Bytecode loaded: 2 bytes" := by decide
  simp only [execute_iteration, load_bytecode, log_execution_event, FrameRuntime.init,
    create_frame, hop, hstr, execute_instruction, frame_create_step]
  simp [create_checkpoint, save_state, log_execution_event, in_range, current_frame,
    retry_state, be_bytes]

theorem retry_again (now : Nat) (log : List Str) :
    execute_iteration (retry_state now log) =
      ExecOutcome.running
        (retry_state now
          (log ++ [str "Attempting self-healing recovery"] ++
            [str "State restored from checkpoint"] ++
            [str "Self-healing recovery successful"])) := by
  have hop : byte_at (retry_state now log).bytecode_ (retry_state now log).program_counter_ =
      0xFF := by
    show byte_at [0x30, 0xFF] 1 = 0xFF
    decide
  have hfail : ∀ rt : FrameRuntime, execute_heip_opcode rt 0xFF = (false, rt) := by
    intro rt
    unfold execute_heip_opcode
    rw [if_neg (by decide), if_neg (by decide), if_neg (by decide), if_neg (by decide),
      if_neg (by decide), if_neg (by decide), if_neg (by decide), if_neg (by decide),
      if_neg (by decide), if_neg (by decide), if_neg (by decide), if_neg (by decide),
      if_neg (by decide), if_neg (by decide), if_neg (by decide), if_neg (by decide)]
  have hck : ∀ pc : Nat, checkpoint_of { retry_state now log with program_counter_ := pc } =
      [0, 0, 0, 1] := fun _ => rfl
  unfold execute_iteration
  simp only [hop, execute_instruction, hfail, attempt_recovery_eq, hck]
  simp [retry_state, log_execution_event, int_to_size_t, be_word, restore_stack]

theorem retry_restorations (now : Nat) (log : List Str) :
    restorations
        (retry_state now
          (log ++ [str "Attempting self-healing recovery"] ++
            [str "State restored from checkpoint"] ++
            [str "Self-healing recovery successful"])) =
      restorations (retry_state now log) + 1 := by
  have h1 : List.count (str "State restored from checkpoint")
      [str "Attempting self-healing recovery"] = 0 := by decide
  have h2 : List.count (str "State restored from checkpoint")
      [str "State restored from checkpoint"] = 1 := by decide
  have h3 : List.count (str "State restored from checkpoint")
      [str "Self-healing recovery successful"] = 0 := by decide
  show List.count _ (log ++ _ ++ _ ++ _) = List.count _ log + 1
  rw [List.count_append, List.count_append, List.count_append, h1, h2, h3]

theorem retry_forever (now : Nat) :
    ∀ (fuel : Nat) (log : List Str),
      (execute_loop fuel (retry_state now log)).status? = none ∧
        restorations (execute_loop fuel (retry_state now log)).state =
          restorations (retry_state now log) + fuel := by
  intro fuel
  induction fuel with
  | zero => intro log; exact ⟨rfl, rfl⟩
  | succ fuel ih =>
    intro log
    have hlt : (retry_state now log).program_counter_ < (retry_state now log).bytecode_.length := by
      show 1 < 2
      decide
    rw [execute_loop_succ, if_pos hlt, retry_again]
    simp only []
    obtain ⟨i1, i2⟩ := ih (log ++ [str "Attempting self-healing recovery"] ++
      [str "State restored from checkpoint"] ++ [str "Self-healing recovery successful"])
    refine ⟨i1, ?_⟩
    rw [i2, retry_restorations]
    omega

theorem restore_stack_flatMap :
    ∀ (stack acc : List Nat), (∀ v ∈ stack, v < 4294967296) →
      restore_stack (stack.flatMap be_bytes) acc = acc ++ stack := by
  intro stack
  induction stack with
  | nil => intro acc _; simp [restore_stack]
  | cons v vs ih =>
    intro acc h
    have hv : v < 4294967296 := h v (List.mem_cons_self _ _)
    have hvs : ∀ w ∈ vs, w < 4294967296 := fun w hw => h w (List.mem_cons_of_mem _ hw)
    rw [List.flatMap_cons, be_bytes_eq]
    simp only [List.cons_append, List.nil_append, restore_stack]
    have hnil : ([] : List Nat).append (vs.flatMap be_bytes) = vs.flatMap be_bytes := rfl
    rw [hnil, ih _ hvs, be_word_be_bytes v hv]
    simp

theorem int_to_size_t_small (w : Nat) (h : w < 2147483648) : int_to_size_t w = w := by
  unfold int_to_size_t
  rw [if_pos h]

theorem checkpoint_of_save_state (rt : FrameRuntime) :
    checkpoint_of (save_state rt) = [] ∨
      checkpoint_of (save_state rt) =
        be_bytes rt.program_counter_ ++ rt.stack_.flatMap be_bytes := by
  have hfold : rt.stack_.foldl (fun state val => state ++ be_bytes val)
      (be_bytes rt.program_counter_) =
      be_bytes rt.program_counter_ ++ rt.stack_.flatMap be_bytes :=
    foldl_append_flatMap (fun state val => state ++ be_bytes val) be_bytes (fun _ _ => rfl) _ _
  unfold checkpoint_of current_frame save_state
  simp only [hfold]
  cases hcur : rt.current_frame_ with
  | none => left; simp [hcur]
  | some p =>
    simp only [List.get?_eq_getElem?, List.getElem?_modify_eq]
    cases hget : rt.heap[p]? with
    | none => left; simp
    | some frame => right; simp

theorem nop_step (rt : FrameRuntime) : execute_heip_opcode rt HEIPOpcode.NOP = (true, rt) := by
  unfold execute_heip_opcode
  rw [if_pos rfl]

theorem in_range_eq (rt : FrameRuntime) (p : Nat) :
    in_range rt p =
      match current_range rt with
      | some r => decide (r.start ≤ p ∧ p ≤ r.end_)
      | none => true := by
  unfold in_range current_range
  cases current_frame rt with
  | none => rfl
  | some frame =>
    cases hr : frame.execution_range with
    | none => simp [hr]
    | some r => simp [hr, Bool.decide_and]

theorem nop_iteration (rt : FrameRuntime)
    (hop : byte_at rt.bytecode_ rt.program_counter_ = 0)
    (hin : in_range rt (((rt.program_counter_ + 1) % 18446744073709551616) % 4294967296) = true) :
    execute_iteration rt =
      ExecOutcome.running
        { rt with
          program_counter_ := (rt.program_counter_ + 1) % 18446744073709551616
          instruction_count_ := (rt.instruction_count_ + 1) % 18446744073709551616 } := by
  have hin2 : in_range
      { ({ rt with program_counter_ := (rt.program_counter_ + 1) % 18446744073709551616 } :
          FrameRuntime) with
        instruction_count_ := (rt.instruction_count_ + 1) % 18446744073709551616 }
      (((rt.program_counter_ + 1) % 18446744073709551616) % 4294967296) = true := hin
  unfold execute_iteration
  simp only [hop, execute_instruction, nop_step, Bool.true_eq_false, if_false, hin2]

/-! ## Lemmas on folding and optimisation -/

theorem four_induction {P : List Nat → Prop} (h0 : ∀ l : List Nat, l.length < 4 → P l)
    (h4 : ∀ b0 b1 b2 b3 rest, P rest → P (b0 :: b1 :: b2 :: b3 :: rest)) : ∀ l, P l := by
  have key : ∀ n (l : List Nat), l.length ≤ n → P l := by
    intro n
    induction n with
    | zero => intro l hl; exact h0 l (by omega)
    | succ n ih =>
      intro l hl
      match l, hl with
      | [], _ => exact h0 _ (by simp)
      | [_], _ => exact h0 _ (by simp)
      | [_, _], _ => exact h0 _ (by simp)
      | [_, _, _], _ => exact h0 _ (by simp)
      | b0 :: b1 :: b2 :: b3 :: rest, hl =>
        exact h4 _ _ _ _ _ (ih rest (by simp only [List.length_cons] at hl; omega))
  intro l
  exact key l.length l (le_refl _)

theorem fold_loop_short (l : List Nat) (h : l.length < 4) (m : List (Str × Nat))
    (id : Nat) (folded : List Nat) : fold_loop l m id folded = folded := by
  match l, h with
  | [], _ => rfl
  | [_], _ => rfl
  | [_, _], _ => rfl
  | [_, _, _], _ => rfl
  | _ :: _ :: _ :: _ :: rest, h => simp only [List.length_cons] at h; omega

theorem windows_short (l : List Nat) (h : l.length < 4) : windows l = [] := by
  match l, h with
  | [], _ => rfl
  | [_], _ => rfl
  | [_, _], _ => rfl
  | [_, _, _], _ => rfl
  | _ :: _ :: _ :: _ :: rest, h => simp only [List.length_cons] at h; omega

theorem windows_length : ∀ l : List Nat, (windows l).length = l.length / 4 := by
  apply four_induction
  · intro l h
    rw [windows_short l h, Nat.div_eq_of_lt h]
    rfl
  · intro b0 b1 b2 b3 rest ih
    simp only [windows, List.length_cons, ih]
    omega

theorem windows_getElem? : ∀ (l : List Nat) (k : Nat), k < l.length / 4 →
    (windows l)[k]? = some ((l.drop (4 * k)).take 4) := by
  apply four_induction
  · intro l h k hk
    rw [Nat.div_eq_of_lt h] at hk
    omega
  · intro b0 b1 b2 b3 rest ih k hk
    cases k with
    | zero => simp [windows]
    | succ k =>
      have hk2 : k < rest.length / 4 := by
        simp only [List.length_cons] at hk
        omega
      have h4 : 4 * (k + 1) = 4 * k + 1 + 1 + 1 + 1 := by ring
      rw [h4]
      simp only [windows, List.getElem?_cons_succ, List.drop_succ_cons]
      exact ih k hk2

theorem find_assign {κ ν : Type} [DecidableEq κ] (m : List (κ × ν)) (k : κ) (v : ν) (w : κ) :
    (assign m k v).find? (fun e => decide (e.1 = w)) =
      if k = w then some (k, v) else m.find? (fun e => decide (e.1 = w)) := by
  unfold assign
  by_cases h : k = w
  · simp [h]
  · rw [if_neg h, List.find?_cons]
    have hd : decide ((k, v).1 = w) = false := by simp [h]
    rw [hd]
    simp only [List.find?_filter]
    congr 1
    funext e
    by_cases he : e.1 = w
    · have hk : ¬ w = k := fun hk => h hk.symm
      simp [he, hk]
    · simp [he]

theorem first_seen_concat (seen : List Str) (w : Str) :
    first_seen (seen ++ [w]) = see (first_seen seen) w := by
  unfold first_seen
  rw [List.foldl_append]
  rfl

theorem mem_foldl_see (ws : List Str) : ∀ (acc : List Str) (w : Str),
    w ∈ ws.foldl see acc ↔ w ∈ acc ∨ w ∈ ws := by
  induction ws with
  | nil => intro acc w; simp
  | cons x xs ih =>
    intro acc w
    rw [List.foldl_cons, ih]
    unfold see
    by_cases hx : x ∈ acc
    · rw [if_pos hx]
      constructor
      · rintro (h | h)
        · exact Or.inl h
        · exact Or.inr (List.mem_cons_of_mem _ h)
      · rintro (h | h)
        · exact Or.inl h
        · rcases List.mem_cons.mp h with h | h
          · exact Or.inl (h ▸ hx)
          · exact Or.inr h
    · rw [if_neg hx]
      simp only [List.mem_append, List.mem_singleton, List.mem_cons]
      tauto

theorem mem_first_seen (ws : List Str) (w : Str) : w ∈ first_seen ws ↔ w ∈ ws := by
  unfold first_seen
  rw [mem_foldl_see]
  simp

theorem foldl_see_extends (ws : List Str) : ∀ acc : List Str,
    ∃ t, ws.foldl see acc = acc ++ t := by
  induction ws with
  | nil => intro acc; exact ⟨[], by simp⟩
  | cons x xs ih =>
    intro acc
    rw [List.foldl_cons]
    obtain ⟨t, ht⟩ := ih (see acc x)
    rw [ht]
    unfold see
    by_cases hx : x ∈ acc
    · rw [if_pos hx]; exact ⟨t, rfl⟩
    · rw [if_neg hx]; exact ⟨x :: t, by simp⟩

theorem position_first_seen_append (seen ws : List Str) (w : Str) (h : w ∈ seen) :
    position w (first_seen (seen ++ ws)) = position w (first_seen seen) := by
  unfold first_seen position
  rw [List.foldl_append]
  obtain ⟨t, ht⟩ := foldl_see_extends ws (seen.foldl see [])
  rw [ht, List.findIdx_append, if_pos]
  apply List.findIdx_lt_length_of_exists
  exact ⟨w, (mem_first_seen seen w).mpr h, by simp⟩

theorem position_concat (l : List Str) (w : Str) (h : w ∉ l) :
    position w (l ++ [w]) = l.length := by
  unfold position
  have hl : l.findIdx (fun x => decide (x = w)) = l.length := by
    apply List.findIdx_eq_length_of_false
    intro x hx
    have : x ≠ w := fun e => h (e ▸ hx)
    simp [this]
  rw [List.findIdx_append, hl, if_neg (by omega)]
  simp [List.findIdx_cons]

theorem position_lt (l : List Str) (w : Str) (h : w ∈ l) : position w l < l.length := by
  unfold position
  apply List.findIdx_lt_length_of_exists
  exact ⟨w, h, by simp⟩

theorem position_inj (l : List Str) (w1 w2 : Str) (h1 : w1 ∈ l) (h2 : w2 ∈ l)
    (h : position w1 l = position w2 l) : w1 = w2 := by
  have a1 := position_lt l w1 h1
  have a2 := position_lt l w2 h2
  unfold position at h a1 a2
  have g1 : decide (l[l.findIdx (fun x => decide (x = w1))] = w1) = true :=
    List.findIdx_getElem (p := fun x => decide (x = w1)) (w := a1)
  have g2 : decide (l[l.findIdx (fun x => decide (x = w2))] = w2) = true :=
    List.findIdx_getElem (p := fun x => decide (x = w2)) (w := a2)
  simp only [decide_eq_true_eq] at g1 g2
  rw [← g1, ← g2]
  simp only [h]

theorem fold_loop_cons (b0 b1 b2 b3 : Nat) (rest : List Nat) (m : List (Str × Nat))
    (id : Nat) (folded : List Nat) :
    fold_loop (b0 :: b1 :: b2 :: b3 :: rest) m id folded =
      match m.find? (fun e => decide (e.1 = [b0, b1, b2, b3])) with
      | none =>
        fold_loop rest (assign m [b0, b1, b2, b3] id) ((id + 1) % 256) (folded ++ [id])
      | some e => fold_loop rest m id (folded ++ [e.2]) := rfl

theorem fold_loop_eq : ∀ (data : List Nat) (seen : List Str) (m : List (Str × Nat))
    (id : Nat) (folded : List Nat),
    (∀ w, (m.find? (fun e => decide (e.1 = w))).map Prod.snd =
      if w ∈ first_seen seen then some (position w (first_seen seen) % 256) else none) →
    id = (first_seen seen).length % 256 →
    fold_loop data m id folded =
      folded ++ (windows data).map
        (fun w => position w (first_seen (seen ++ windows data)) % 256) := by
  apply four_induction
  · intro l h seen m id folded _ _
    rw [fold_loop_short l h, windows_short l h]
    simp
  · intro b0 b1 b2 b3 rest ih seen m id folded hm hid
    rw [fold_loop_cons]
    have hw := hm [b0, b1, b2, b3]
    have hsplit : seen ++ windows (b0 :: b1 :: b2 :: b3 :: rest) =
        (seen ++ [[b0, b1, b2, b3]]) ++ windows rest := by
      simp [windows]
    have happ : (seen ++ [[b0, b1, b2, b3]]) ++ windows rest =
        seen ++ [b0, b1, b2, b3] :: windows rest := by simp
    have hhead : position [b0, b1, b2, b3]
        (first_seen (seen ++ [b0, b1, b2, b3] :: windows rest)) =
        position [b0, b1, b2, b3] (first_seen (seen ++ [[b0, b1, b2, b3]])) := by
      rw [← happ]
      exact position_first_seen_append _ _ _ (by simp)
    cases hf : m.find? (fun e => decide (e.1 = [b0, b1, b2, b3])) with
    | none =>
      rw [hf] at hw
      have hnot : [b0, b1, b2, b3] ∉ first_seen seen := by
        intro hin
        rw [if_pos hin] at hw
        simp at hw
      have hfs : first_seen (seen ++ [[b0, b1, b2, b3]]) =
          first_seen seen ++ [[b0, b1, b2, b3]] := by
        rw [first_seen_concat]
        unfold see
        rw [if_neg hnot]
      simp only []
      rw [ih (seen ++ [[b0, b1, b2, b3]]) _ _ _ ?_ ?_]
      · rw [hsplit]
        simp only [windows, List.map_cons, List.append_assoc, List.singleton_append]
        rw [hhead, hfs, position_concat _ _ hnot, ← hid]
      · intro w
        rw [find_assign, hfs]
        by_cases hkw : [b0, b1, b2, b3] = w
        · subst hkw
          rw [if_pos rfl, position_concat _ _ hnot, ← hid]
          simp
        · rw [if_neg hkw, hm w]
          have hne : w ≠ [b0, b1, b2, b3] := fun e => hkw e.symm
          by_cases hin : w ∈ first_seen seen
          · have hpos : position w (first_seen seen ++ [[b0, b1, b2, b3]]) =
                position w (first_seen seen) := by
              unfold position
              rw [List.findIdx_append, if_pos]
              exact position_lt _ _ hin
            rw [if_pos hin, if_pos (by simp [hin]), hpos]
          · rw [if_neg hin, if_neg (by simp [hin, hne])]
      · rw [hfs, List.length_append, hid]
        simp
    | some e =>
      rw [hf] at hw
      have hin : [b0, b1, b2, b3] ∈ first_seen seen := by
        by_contra hnot
        rw [if_neg hnot] at hw
        simp at hw
      rw [if_pos hin] at hw
      have he : e.2 = position [b0, b1, b2, b3] (first_seen seen) % 256 := by
        simpa using hw
      have hfs : first_seen (seen ++ [[b0, b1, b2, b3]]) = first_seen seen := by
        rw [first_seen_concat]
        unfold see
        rw [if_pos hin]
      simp only []
      rw [ih (seen ++ [[b0, b1, b2, b3]]) _ _ _ ?_ ?_]
      · rw [hsplit]
        simp only [windows, List.map_cons, List.append_assoc, List.singleton_append]
        rw [hhead, hfs, he]
      · rw [hfs]; exact hm
      · rw [hfs]; exact hid

theorem fold_pass_eq (data : List Nat) :
    fold_loop data [] 0 [] =
      (windows data).map (fun w => position w (first_seen (windows data)) % 256) := by
  have h := fold_loop_eq data [] [] 0 [] (by intro w; simp [first_seen]) (by simp [first_seen])
  simpa using h

theorem fold_recursively_succ (data : List Nat) (depth : Nat) :
    fold_recursively data (depth + 1) =
      if data.length < 4 then data else fold_recursively (fold_loop data [] 0 []) depth := rfl

theorem fold_recursively_zero (data : List Nat) : fold_recursively data 0 = data := by
  cases data <;> rfl

theorem fold_pass_length (data : List Nat) :
    (fold_loop data [] 0 []).length = data.length / 4 := by
  rw [fold_pass_eq, List.length_map, windows_length]

theorem foldl_see_length (ws : List Str) : ∀ acc : List Str,
    (ws.foldl see acc).length ≤ acc.length + ws.length := by
  induction ws with
  | nil => intro acc; simp
  | cons x xs ih =>
    intro acc
    rw [List.foldl_cons]
    have h := ih (see acc x)
    have h2 : (see acc x).length ≤ acc.length + 1 := by
      unfold see
      split_ifs <;> simp
    simp only [List.length_cons]
    omega

theorem foldl_see_nodup (ws : List Str) : ∀ acc : List Str, acc.Nodup →
    (ws.foldl see acc).Nodup := by
  induction ws with
  | nil => intro acc h; simpa using h
  | cons x xs ih =>
    intro acc h
    rw [List.foldl_cons]
    apply ih
    unfold see
    split_ifs with hx
    · exact h
    · exact List.Nodup.append h (List.nodup_singleton x) (by simpa using hx)

theorem position_le (ws : List Str) (k : Nat) (w : Str) (h : ws[k]? = some w) :
    position w (first_seen ws) ≤ k := by
  have hk : k < ws.length := by
    rcases Nat.lt_or_ge k ws.length with h1 | h1
    · exact h1
    · rw [List.getElem?_eq_none h1] at h; cases h
  have hmem : w ∈ ws.take (k + 1) := by
    rw [List.mem_iff_getElem?]
    exact ⟨k, by rw [List.getElem?_take_of_lt (by omega)]; exact h⟩
  have hsplit : ws = ws.take (k + 1) ++ ws.drop (k + 1) := (List.take_append_drop _ _).symm
  rw [hsplit, position_first_seen_append _ _ _ hmem]
  have h1 := position_lt _ _ ((mem_first_seen _ _).mpr hmem)
  have h2 : (first_seen (ws.take (k + 1))).length ≤ 0 + (ws.take (k + 1)).length :=
    foldl_see_length _ []
  rw [List.length_take] at h2
  omega

theorem fold_loop_le (data : List Nat) (k : Nat) (h : k < (fold_loop data [] 0 []).length) :
    (fold_loop data [] 0 []).getD k 0 ≤ k := by
  rw [fold_pass_eq] at h ⊢
  rw [List.length_map] at h
  rw [List.getD_eq_getElem?_getD, List.getElem?_map, List.getElem?_eq_getElem h]
  simp only [Option.map_some', Option.getD_some]
  have := position_le (windows data) k _ (List.getElem?_eq_getElem h)
  exact le_trans (Nat.mod_le _ _) this

theorem fold_recursively_le : ∀ (depth : Nat) (data : List Nat),
    (∀ k, k < data.length → data.getD k 0 ≤ k) →
    ∀ k, k < (fold_recursively data depth).length → (fold_recursively data depth).getD k 0 ≤ k := by
  intro depth
  induction depth with
  | zero => intro data h; rw [fold_recursively_zero]; exact h
  | succ d ih =>
    intro data h
    rw [fold_recursively_succ]
    split_ifs
    · exact h
    · exact ih _ (fun k hk => fold_loop_le data k hk)

theorem fold_pass_unfold (data : List Nat) :
    fold_pass data = if data.length < 4 then data else fold_loop data [] 0 [] := by
  unfold fold_pass
  rw [fold_recursively_succ]
  split_ifs
  · rfl
  · rw [fold_recursively_zero]

theorem fold_recursively_iterate : ∀ (depth : Nat) (data : List Nat),
    4 ^ depth ≤ data.length →
    fold_recursively data depth = fold_pass^[depth] data ∧
      (fold_pass^[depth] data).length = data.length / 4 ^ depth := by
  intro depth
  induction depth with
  | zero => intro data _; rw [fold_recursively_zero]; simp
  | succ d ih =>
    intro data h
    have hpos : 1 ≤ 4 ^ d := Nat.one_le_pow _ _ (by decide)
    have h4 : ¬ data.length < 4 := by
      rw [pow_succ] at h
      omega
    have hlen : 4 ^ d ≤ (fold_loop data [] 0 []).length := by
      rw [fold_pass_length, Nat.le_div_iff_mul_le (by decide)]
      rw [pow_succ] at h
      exact h
    have hstep : fold_pass data = fold_loop data [] 0 [] := by
      rw [fold_pass_unfold, if_neg h4]
    obtain ⟨i1, i2⟩ := ih _ hlen
    rw [fold_recursively_succ, if_neg h4, Function.iterate_succ_apply, hstep]
    refine ⟨i1, ?_⟩
    rw [i2, fold_pass_length, Nat.div_div_eq_div_mul, pow_succ, Nat.mul_comm]

theorem floor_log2_bounds : ∀ (fuel n : Nat), n ≤ fuel → 1 ≤ n →
    2 ^ floor_log2 fuel n ≤ n ∧ n < 2 ^ (floor_log2 fuel n + 1) := by
  intro fuel
  induction fuel with
  | zero => intro n h1 h2; omega
  | succ f ih =>
    intro n h1 h2
    unfold floor_log2
    split_ifs with h
    · obtain ⟨i1, i2⟩ := ih (n / 2) (by omega) (by omega)
      rw [pow_succ] at i2 ⊢
      rw [pow_succ]
      constructor <;> omega
    · simp
      omega

theorem floor_log2_eq (n : Nat) : floor_log2 n n = Nat.log2 n := by
  rcases Nat.eq_zero_or_pos n with h | h
  · subst h
    simp [floor_log2, Nat.log2]
  · have hn : n ≠ 0 := by omega
    obtain ⟨i1, i2⟩ := floor_log2_bounds n n (le_refl _) h
    have a := (Nat.le_log2 hn).mpr i1
    have b := (Nat.log2_lt hn).mpr i2
    omega

theorem foldl_see_nodup_eq (ws : List Str) : ∀ acc : List Str, (acc ++ ws).Nodup →
    ws.foldl see acc = acc ++ ws := by
  induction ws with
  | nil => intro acc _; simp
  | cons x xs ih =>
    intro acc h
    have hx : x ∉ acc := by
      intro hin
      have := List.nodup_append.mp h
      exact this.2.2 hin (List.mem_cons_self _ _)
    have h2 : (acc ++ [x] ++ xs).Nodup := by simpa using h
    have hs : see acc x = acc ++ [x] := by
      unfold see
      rw [if_neg hx]
    rw [List.foldl_cons, hs, ih _ h2]
    simp

theorem first_seen_nodup (ws : List Str) (h : ws.Nodup) : first_seen ws = ws := by
  unfold first_seen
  rw [foldl_see_nodup_eq ws [] (by simpa using h)]
  rfl

theorem position_getElem : ∀ (l : List Str) (k : Nat) (w : Str), l.Nodup → l[k]? = some w →
    position w l = k := by
  intro l
  induction l with
  | nil => intro k w _ h; simp at h
  | cons x xs ih =>
    intro k w hn h
    unfold position
    rw [List.findIdx_cons]
    cases k with
    | zero =>
      simp only [List.getElem?_cons_zero, Option.some.injEq] at h
      simp [h]
    | succ k =>
      simp only [List.getElem?_cons_succ] at h
      have hw : w ∈ xs := List.mem_iff_getElem?.mpr ⟨k, h⟩
      have hne : x ≠ w := fun e => (List.nodup_cons.mp hn).1 (e ▸ hw)
      have := ih k w (List.nodup_cons.mp hn).2 h
      unfold position at this
      simp [hne, this]

theorem windows_flatMap (f : Nat → Str) (hf : ∀ k, (f k).length = 4) (l : List Nat) :
    windows (l.flatMap f) = l.map f := by
  induction l with
  | nil => rfl
  | cons x xs ih =>
    rw [List.flatMap_cons, List.map_cons, ← ih]
    have hx := hf x
    match f x, hx with
    | [_, _, _, _], _ => rfl

theorem wrap_example_windows :
    windows wrap_example = (List.range 257).map (fun k => [0, 0, k / 256, k % 256]) := by
  unfold wrap_example
  exact windows_flatMap (fun k => [0, 0, k / 256, k % 256]) (fun _ => rfl) _

theorem wrap_example_nodup : (windows wrap_example).Nodup := by
  rw [wrap_example_windows]
  apply List.Nodup.map_on _ (List.nodup_range 257)
  intro x _ y _ h
  simp only [List.cons.injEq, and_true, true_and] at h
  omega

theorem wrap_example_length : 4 ≤ wrap_example.length := by
  have h := windows_length wrap_example
  rw [wrap_example_windows, List.length_map, List.length_range] at h
  omega

theorem fold_one (data : List Nat) (h : 4 ≤ data.length) :
    fold_recursively data 1 =
      (windows data).map (fun w => position w (first_seen (windows data)) % 256) := by
  rw [fold_recursively_succ, if_neg (by omega), fold_recursively_zero, fold_pass_eq]

theorem fold_one_nodup (data : List Nat) (h : 4 ≤ data.length) (hn : (windows data).Nodup)
    (k : Nat) (w : Str) (hk : (windows data)[k]? = some w) :
    (fold_recursively data 1).getD k 0 = k % 256 := by
  rw [fold_one data h, List.getD_eq_getElem?_getD, List.getElem?_map, hk,
    first_seen_nodup _ hn]
  simp only [Option.map_some', Option.getD_some]
  rw [position_getElem _ k w hn hk]

theorem wrap_example_getElem? (k : Nat) (h : k < 257) :
    (windows wrap_example)[k]? = some [0, 0, k / 256, k % 256] := by
  rw [wrap_example_windows, List.getElem?_map, List.getElem?_range h]
  rfl

theorem wrap_example_fold (k : Nat) (h : k < 257) :
    (fold_recursively wrap_example 1).getD k 0 = k % 256 ∧
      (windows wrap_example).getD k [] = [0, 0, k / 256, k % 256] := by
  constructor
  · exact fold_one_nodup _ wrap_example_length wrap_example_nodup k _ (wrap_example_getElem? k h)
  · rw [List.getD_eq_getElem?_getD, wrap_example_getElem? k h]
    rfl

theorem floor_log2_unique (n l : Nat) (h1 : 2 ^ l ≤ n) (h2 : n < 2 ^ (l + 1)) :
    floor_log2 n n = l := by
  have hn : 1 ≤ n := le_trans (Nat.one_le_two_pow) h1
  obtain ⟨i1, i2⟩ := floor_log2_bounds n n (le_refl _) hn
  have a : l < floor_log2 n n + 1 := by
    by_contra hc
    have : 2 ^ (floor_log2 n n + 1) ≤ 2 ^ l := Nat.pow_le_pow_right (by decide) (by omega)
    omega
  have b : floor_log2 n n < l + 1 := by
    by_contra hc
    have : 2 ^ (l + 1) ≤ 2 ^ floor_log2 n n := Nat.pow_le_pow_right (by decide) (by omega)
    omega
  omega

theorem to_double_small (n : Nat) (h : n < 9007199254740992) : to_double n = n := by
  unfold to_double
  rw [if_pos h]

theorem to_double_bounds (n : Nat) (h : 1 ≤ n) :
    2 ^ floor_log2 n n ≤ to_double n ∧ to_double n ≤ 2 ^ (floor_log2 n n + 1) := by
  obtain ⟨i1, i2⟩ := floor_log2_bounds n n (le_refl _) h
  by_cases hs : n < 9007199254740992
  · rw [to_double_small n hs]
    exact ⟨i1, le_of_lt i2⟩
  · have hl : 53 ≤ floor_log2 n n := by
      by_contra hc
      have : 2 ^ (floor_log2 n n + 1) ≤ 2 ^ 53 := Nat.pow_le_pow_right (by decide) (by omega)
      have e : (2 : Nat) ^ 53 = 9007199254740992 := by norm_num
      omega
    have hu : 0 < 2 ^ (floor_log2 n n - 52) := Nat.pow_pos (by decide)
    have e1 : 2 ^ floor_log2 n n = 4503599627370496 * 2 ^ (floor_log2 n n - 52) := by
      have : floor_log2 n n = 52 + (floor_log2 n n - 52) := by omega
      conv_lhs => rw [this, pow_add]
      norm_num
    have e2 : 2 ^ (floor_log2 n n + 1) = 9007199254740992 * 2 ^ (floor_log2 n n - 52) := by
      have : floor_log2 n n + 1 = 53 + (floor_log2 n n - 52) := by omega
      conv_lhs => rw [this, pow_add]
      norm_num
    have q1 : 4503599627370496 ≤ n / 2 ^ (floor_log2 n n - 52) := by
      rw [Nat.le_div_iff_mul_le hu, ← e1]
      exact i1
    have q2 : n / 2 ^ (floor_log2 n n - 52) < 9007199254740992 := by
      rw [Nat.div_lt_iff_lt_mul hu, ← e2]
      exact i2
    have lo : 2 ^ floor_log2 n n ≤ n / 2 ^ (floor_log2 n n - 52) * 2 ^ (floor_log2 n n - 52) := by
      rw [e1]
      exact Nat.mul_le_mul_right _ q1
    have hi : (n / 2 ^ (floor_log2 n n - 52) + 1) * 2 ^ (floor_log2 n n - 52) ≤
        2 ^ (floor_log2 n n + 1) := by
      rw [e2]
      exact Nat.mul_le_mul_right _ (by omega)
    have mid : n / 2 ^ (floor_log2 n n - 52) * 2 ^ (floor_log2 n n - 52) ≤
        (n / 2 ^ (floor_log2 n n - 52) + 1) * 2 ^ (floor_log2 n n - 52) :=
      Nat.mul_le_mul_right _ (by omega)
    unfold to_double
    rw [if_neg hs]
    simp only []
    split_ifs
    · exact ⟨lo, le_trans mid hi⟩
    · exact ⟨le_trans lo mid, hi⟩
    · exact ⟨lo, le_trans mid hi⟩
    · exact ⟨le_trans lo mid, hi⟩

theorem floor_log2_pow (j : Nat) : floor_log2 (2 ^ j) (2 ^ j) = j :=
  floor_log2_unique _ j (le_refl _) (Nat.pow_lt_pow_right (by decide) (by omega))

/-- Bernoulli, downwards: `a^N * (a - N t) ≤ a * (a - t)^N`, written without subtraction
for `a = x + t`. -/
theorem pow_sub_bound (x t : Nat) : ∀ N : Nat,
    (x + t) ^ N * (x + t) ≤ (x + t) * x ^ N + N * t * (x + t) ^ N := by
  intro N
  induction N with
  | zero => simp
  | succ N ih =>
    have hx : x ^ N * x = x ^ (N + 1) := (pow_succ x N).symm
    have h1 : (x + t) ^ N * (x + t) * x ≤ ((x + t) * x ^ N + N * t * (x + t) ^ N) * x :=
      Nat.mul_le_mul_right _ ih
    have h2 : N * t * (x + t) ^ N * x ≤ N * t * (x + t) ^ N * (x + t) :=
      Nat.mul_le_mul_left _ (by omega)
    have e1 : (x + t) ^ (N + 1) * (x + t) =
        (x + t) ^ N * (x + t) * x + t * ((x + t) ^ N * (x + t)) := by ring
    have e2 : ((x + t) * x ^ N + N * t * (x + t) ^ N) * x =
        (x + t) * x ^ (N + 1) + N * t * (x + t) ^ N * x := by ring
    have e3 : (x + t) * x ^ (N + 1) + (N + 1) * t * (x + t) ^ (N + 1) =
        (x + t) * x ^ (N + 1) + N * t * (x + t) ^ N * (x + t) +
          t * ((x + t) ^ N * (x + t)) := by ring
    rw [e1, e3]
    rw [e2] at h1
    omega

/-- Bernoulli, upwards: `a^N * (a + N t) ≤ a * (a + t)^N`. -/
theorem pow_add_bound (a t : Nat) : ∀ N : Nat,
    a ^ N * (a + N * t) ≤ a * (a + t) ^ N := by
  intro N
  induction N with
  | zero => simp
  | succ N ih =>
    have h1 : a * (a ^ N * (a + N * t)) ≤ a * (a * (a + t) ^ N) := Nat.mul_le_mul_left _ ih
    have h2 : a ^ N ≤ (a + t) ^ N := Nat.pow_le_pow_left (by omega) N
    have h3 : a * t * a ^ N ≤ a * t * (a + t) ^ N := Nat.mul_le_mul_left _ h2
    have e1 : a ^ (N + 1) * (a + (N + 1) * t) = a * (a ^ N * (a + N * t)) + a * t * a ^ N := by
      ring
    have e2 : a * (a + t) ^ (N + 1) = a * (a * (a + t) ^ N) + a * t * (a + t) ^ N := by ring
    rw [e1, e2]
    omega

/-- Near a power: when `x = a - t` with `4 N t ≤ a`, then `a^N < 2 x^N`. -/
theorem pow_near (x t N : Nat) (hx : 0 < x) (h : 4 * N * t ≤ x + t) :
    (x + t) ^ N < 2 * x ^ N := by
  have hb := pow_sub_bound x t N
  have ha : 0 < (x + t) ^ N := Nat.pow_pos (by omega)
  have h1 : 4 * N * t * (x + t) ^ N ≤ (x + t) * (x + t) ^ N := Nat.mul_le_mul_right _ h
  have e1 : (x + t) ^ N * (x + t) = (x + t) * (x + t) ^ N := Nat.mul_comm _ _
  have e2 : 4 * N * t * (x + t) ^ N = 4 * (N * t * (x + t) ^ N) := by ring
  rw [e1] at hb
  rw [e2] at h1
  have h3 : 3 * ((x + t) * (x + t) ^ N) ≤ 4 * ((x + t) * x ^ N) := by omega
  have h4 : (x + t) * (3 * (x + t) ^ N) ≤ (x + t) * (4 * x ^ N) := by
    have e3 : (x + t) * (3 * (x + t) ^ N) = 3 * ((x + t) * (x + t) ^ N) := by ring
    have e4 : (x + t) * (4 * x ^ N) = 4 * ((x + t) * x ^ N) := by ring
    rw [e3, e4]
    exact h3
  have h5 : 3 * (x + t) ^ N ≤ 4 * x ^ N := Nat.le_of_mul_le_mul_left h4 (by omega)
  omega

/-- Far from a power: when `x = a - t` with `a ≤ N t`, then `2 x^N ≤ a^N`. -/
theorem pow_far (x t N : Nat) (h0 : 0 < x + t) (h : x + t ≤ N * t) :
    2 * x ^ N ≤ (x + t) ^ N := by
  have hb := pow_add_bound (x + t) t N
  · have ha : 0 < (x + t) ^ N := Nat.pow_pos h0
    have h1 : (x + t) ^ N * (2 * (x + t)) ≤ (x + t) ^ N * (x + t + N * t) :=
      Nat.mul_le_mul_left _ (by omega)
    have h2 : (x + t) * (2 * (x + t) ^ N) ≤ (x + t) * (x + t + t) ^ N := by
      have e : (x + t) * (2 * (x + t) ^ N) = (x + t) ^ N * (2 * (x + t)) := by ring
      rw [e]
      exact le_trans h1 hb
    have h3 : 2 * (x + t) ^ N ≤ (x + t + t) ^ N := Nat.le_of_mul_le_mul_left h2 h0
    have h4 : x * (x + t + t) ≤ (x + t) * (x + t) := by
      have e : (x + t) * (x + t) = x * (x + t + t) + t * t := by ring
      omega
    have h5 : (x * (x + t + t)) ^ N ≤ ((x + t) * (x + t)) ^ N := Nat.pow_le_pow_left h4 N
    rw [mul_pow, mul_pow] at h5
    have h6 : x ^ N * (2 * (x + t) ^ N) ≤ x ^ N * (x + t + t) ^ N := Nat.mul_le_mul_left _ h3
    have h7 : (x + t) ^ N * (2 * x ^ N) ≤ (x + t) ^ N * (x + t) ^ N := by
      have e : (x + t) ^ N * (2 * x ^ N) = x ^ N * (2 * (x + t) ^ N) := by ring
      rw [e]
      exact le_trans h6 h5
    exact Nat.le_of_mul_le_mul_left h7 ha

/-- Squaring with the quotient rounded down keeps a lower bound: from `v a ≤ x p`, the
value after `m` squarings, times `a^(2^m)`, is at most `x^(2^m) p`. -/
theorem square_down_bound (p : Nat) (hp : 0 < p) : ∀ (m v a x : Nat), v * a ≤ x * p →
    (fun v => v * v / p)^[m] v * a ^ 2 ^ m ≤ x ^ 2 ^ m * p := by
  intro m
  induction m with
  | zero =>
    intro v a x h
    simpa using h
  | succ m ih =>
    intro v a x h
    rw [Function.iterate_succ_apply]
    have e : ∀ b : Nat, b ^ 2 ^ (m + 1) = (b * b) ^ 2 ^ m := by
      intro b
      rw [pow_succ, Nat.mul_comm (2 ^ m) 2, pow_mul, pow_two]
    rw [e a, e x]
    apply ih
    have h1 : v * v / p * p ≤ v * v := Nat.div_mul_le_self _ _
    have h2 : v * v / p * p * (a * a) ≤ v * v * (a * a) := Nat.mul_le_mul_right _ h1
    have h3 : v * a * (v * a) ≤ x * p * (x * p) := Nat.mul_le_mul h h
    have h4 : p * (v * v / p * (a * a)) ≤ p * (x * x * p) := by
      have e1 : p * (v * v / p * (a * a)) = v * v / p * p * (a * a) := by ring
      have e2 : p * (x * x * p) = x * p * (x * p) := by ring
      have e3 : v * v * (a * a) = v * a * (v * a) := by ring
      rw [e1, e2]
      rw [e3] at h2
      exact le_trans h2 h3
    exact Nat.le_of_mul_le_mul_left h4 hp

/-- Squaring with the quotient rounded up keeps an upper bound. -/
theorem square_up_bound (p c : Nat) (hc : c + 1 = p) : ∀ (m v a x : Nat), x * p ≤ v * a →
    x ^ 2 ^ m * p ≤ (fun v => (v * v + c) / p)^[m] v * a ^ 2 ^ m := by
  have hp : 0 < p := by omega
  intro m
  induction m with
  | zero =>
    intro v a x h
    simpa using h
  | succ m ih =>
    intro v a x h
    rw [Function.iterate_succ_apply]
    have e : ∀ b : Nat, b ^ 2 ^ (m + 1) = (b * b) ^ 2 ^ m := by
      intro b
      rw [pow_succ, Nat.mul_comm (2 ^ m) 2, pow_mul, pow_two]
    rw [e a, e x]
    apply ih
    have h1 : v * v ≤ (v * v + c) / p * p := by
      have d := Nat.div_add_mod (v * v + c) p
      have r := Nat.mod_lt (v * v + c) hp
      rw [Nat.mul_comm] at d
      omega
    have h2 : v * v * (a * a) ≤ (v * v + c) / p * p * (a * a) := Nat.mul_le_mul_right _ h1
    have h3 : x * p * (x * p) ≤ v * a * (v * a) := Nat.mul_le_mul h h
    have h4 : p * (x * x * p) ≤ p * ((v * v + c) / p * (a * a)) := by
      have e1 : p * ((v * v + c) / p * (a * a)) = (v * v + c) / p * p * (a * a) := by ring
      have e2 : p * (x * x * p) = x * p * (x * p) := by ring
      have e3 : v * v * (a * a) = v * a * (v * a) := by ring
      rw [e1, e2]
      rw [e3] at h2
      exact le_trans h3 h2
    exact Nat.le_of_mul_le_mul_left h4 hp

/-- The tests of `log2_rounds_up` before the last only save the evaluation of the powers:
where one of them decides, the last test gives the same. -/
theorem log2_rounds_up_eq (x k : Nat) (h : x ≤ 2 ^ k) :
    log2_rounds_up x k =
      decide ((2 ^ k) ^ 2 ^ (53 - floor_log2 (k - 1) (k - 1)) <
        2 * x ^ 2 ^ (53 - floor_log2 (k - 1) (k - 1))) := by
  have ha : 0 < 2 ^ k := Nat.pow_pos (by decide)
  have hA : 0 < (2 ^ k) ^ 2 ^ (53 - floor_log2 (k - 1) (k - 1)) := Nat.pow_pos ha
  unfold log2_rounds_up
  simp only []
  split_ifs with hg hl hh
  · generalize 2 ^ (53 - floor_log2 (k - 1) (k - 1)) = N at hg
    obtain ⟨t, ht⟩ : ∃ t, 2 ^ k = x + t := ⟨2 ^ k - x, by omega⟩
    rw [ht] at hg ⊢
    have ht2 : x + t - x = t := by omega
    rw [ht2] at hg
    have := pow_far x t N (by omega) (by rw [Nat.mul_comm]; exact hg)
    symm
    simp only [decide_eq_false_iff_not, not_lt]
    exact this
  · have b := square_down_bound 340282366920938463463374607431768211456 (by decide)
      (53 - floor_log2 (k - 1) (k - 1))
      (x * 340282366920938463463374607431768211456 / 2 ^ k) (2 ^ k) x
      (Nat.div_mul_le_self _ _)
    symm
    simp only [decide_eq_true_eq]
    generalize (fun v => v * v / 340282366920938463463374607431768211456)^[53 -
      floor_log2 (k - 1) (k - 1)] (x * 340282366920938463463374607431768211456 / 2 ^ k) =
      lo at b hl
    generalize (2 ^ k) ^ 2 ^ (53 - floor_log2 (k - 1) (k - 1)) = A at b hA ⊢
    generalize x ^ 2 ^ (53 - floor_log2 (k - 1) (k - 1)) = X at b ⊢
    have h1 : (340282366920938463463374607431768211456 + 1) * A ≤ 2 * lo * A :=
      Nat.mul_le_mul_right A (by omega)
    have e : 2 * lo * A = 2 * (lo * A) := by ring
    rw [e] at h1
    omega
  · have b := square_up_bound 340282366920938463463374607431768211456
      340282366920938463463374607431768211455 (by decide)
      (53 - floor_log2 (k - 1) (k - 1))
      ((x * 340282366920938463463374607431768211456 + (2 ^ k - 1)) / 2 ^ k) (2 ^ k) x
      (by
        have d := Nat.div_add_mod (x * 340282366920938463463374607431768211456 + (2 ^ k - 1))
          (2 ^ k)
        have r := Nat.mod_lt (x * 340282366920938463463374607431768211456 + (2 ^ k - 1)) ha
        rw [Nat.mul_comm] at d
        omega)
    symm
    simp only [decide_eq_false_iff_not, not_lt]
    generalize (fun v => (v * v + 340282366920938463463374607431768211455) /
      340282366920938463463374607431768211456)^[53 - floor_log2 (k - 1) (k - 1)]
      ((x * 340282366920938463463374607431768211456 + (2 ^ k - 1)) / 2 ^ k) = hi at b hh
    generalize (2 ^ k) ^ 2 ^ (53 - floor_log2 (k - 1) (k - 1)) = A at b hA ⊢
    generalize x ^ 2 ^ (53 - floor_log2 (k - 1) (k - 1)) = X at b ⊢
    have h1 : 2 * hi * A ≤ 340282366920938463463374607431768211456 * A :=
      Nat.mul_le_mul_right A hh
    have e : 2 * hi * A = 2 * (hi * A) := by ring
    rw [e] at h1
    omega
  · rfl

theorem log2_rounds_up_pow (j : Nat) : log2_rounds_up (2 ^ j) (j + 1) = false := by
  rw [log2_rounds_up_eq _ _ (Nat.pow_le_pow_right (by decide) (by omega))]
  have hN : 1 ≤ 2 ^ (53 - floor_log2 (j + 1 - 1) (j + 1 - 1)) := Nat.one_le_two_pow
  generalize 2 ^ (53 - floor_log2 (j + 1 - 1) (j + 1 - 1)) = N at hN
  have e : (2 ^ (j + 1)) ^ N = 2 ^ N * (2 ^ j) ^ N := by
    rw [pow_succ, mul_pow, mul_comm]
  have h2 : 2 ≤ 2 ^ N := by
    calc 2 = 2 ^ 1 := by norm_num
      _ ≤ 2 ^ N := Nat.pow_le_pow_right (by decide) hN
  have : 2 * (2 ^ j) ^ N ≤ (2 ^ (j + 1)) ^ N := by
    rw [e]
    exact Nat.mul_le_mul_right _ h2
  simp only [decide_eq_false_iff_not, not_lt]
  exact this

theorem log2_to_int_pow (j : Nat) : log2_to_int (2 ^ j) = j := by
  unfold log2_to_int
  rw [floor_log2_pow, log2_rounds_up_pow]
  simp

theorem log2_to_int_cases (x : Nat) :
    log2_to_int x = floor_log2 x x ∨ log2_to_int x = floor_log2 x x + 1 := by
  unfold log2_to_int
  split_ifs
  · exact Or.inr rfl
  · exact Or.inl rfl

theorem log2_to_double_cases (n : Nat) (h : 1 ≤ n) :
    log2_to_int (to_double n) = floor_log2 n n ∨
      log2_to_int (to_double n) = floor_log2 n n + 1 := by
  obtain ⟨b1, b2⟩ := to_double_bounds n h
  rcases Nat.lt_or_ge (to_double n) (2 ^ (floor_log2 n n + 1)) with hlt | hge
  · have hl := floor_log2_unique _ _ b1 hlt
    rcases log2_to_int_cases (to_double n) with c | c
    · left; rw [c, hl]
    · right; rw [c, hl]
  · have he : to_double n = 2 ^ (floor_log2 n n + 1) := le_antisymm b2 hge
    right
    rw [he, log2_to_int_pow]

theorem depth_cases (n : Nat) (h : 1 ≤ n) :
    dodeca_utils.optimal_fold_depth n = floor_log2 n n / 2 ∨ dodeca_utils.optimal_fold_depth n = floor_log2 n n / 2 + 1 := by
  unfold dodeca_utils.optimal_fold_depth
  rcases log2_to_double_cases n h with c | c <;> rw [c] <;> omega

theorem floor_log2_small (l : Nat) (h : l < 64) : floor_log2 l l ≤ 5 := by
  rcases Nat.eq_zero_or_pos l with h0 | h0
  · subst h0; decide
  · obtain ⟨i1, _⟩ := floor_log2_bounds l l (le_refl _) h0
    by_contra hc
    have : 2 ^ 6 ≤ 2 ^ floor_log2 l l := Nat.pow_le_pow_right (by decide) (by omega)
    have e : (2 : Nat) ^ 6 = 64 := by norm_num
    omega

theorem depth_exact (n : Nat) (h : 1 ≤ n) (hs : n < 281474976710656) :
    dodeca_utils.optimal_fold_depth n = floor_log2 n n / 2 := by
  obtain ⟨i1, i2⟩ := floor_log2_bounds n n (le_refl _) h
  have hl : floor_log2 n n < 48 := by
    by_contra hc
    have : 2 ^ 48 ≤ 2 ^ floor_log2 n n := Nat.pow_le_pow_right (by decide) (by omega)
    have e : (2 : Nat) ^ 48 = 281474976710656 := by norm_num
    omega
  have he := floor_log2_small (floor_log2 n n) (by omega)
  have hN : 2 ^ 48 ≤ 2 ^ (53 - floor_log2 (floor_log2 n n) (floor_log2 n n)) :=
    Nat.pow_le_pow_right (by decide) (by omega)
  have hk : 2 ^ (floor_log2 n n + 1) ≤ 2 ^ 48 := Nat.pow_le_pow_right (by decide) (by omega)
  have hup : log2_rounds_up n (floor_log2 n n + 1) = false := by
    unfold log2_rounds_up
    simp only [Nat.add_sub_cancel]
    rw [if_pos]
    calc 2 ^ (floor_log2 n n + 1) ≤ 2 ^ 48 := hk
      _ ≤ 2 ^ (53 - floor_log2 (floor_log2 n n) (floor_log2 n n)) := hN
      _ = 1 * 2 ^ (53 - floor_log2 (floor_log2 n n) (floor_log2 n n)) := (Nat.one_mul _).symm
      _ ≤ (2 ^ (floor_log2 n n + 1) - n) *
          2 ^ (53 - floor_log2 (floor_log2 n n) (floor_log2 n n)) :=
        Nat.mul_le_mul_right _ (by omega)
  unfold dodeca_utils.optimal_fold_depth log2_to_int
  rw [to_double_small n (by omega), hup]
  simp

theorem log2_rounds_up_near (x k N t : Nat) (hx : 0 < x) (hk : 2 ^ k = x + t)
    (hN : 2 ^ (53 - floor_log2 (k - 1) (k - 1)) = N) (h : 4 * N * t ≤ x + t) :
    log2_rounds_up x k = true := by
  rw [log2_rounds_up_eq x k (by omega), hN, hk]
  simp only [decide_eq_true_eq]
  exact pow_near x t N hx h

theorem depth_of (n l : Nat) (b : Bool) (hs : n < 9007199254740992)
    (hl : floor_log2 n n = l) (hu : log2_rounds_up n (l + 1) = b) :
    dodeca_utils.optimal_fold_depth n = (if b = true then l + 1 else l) / 2 := by
  unfold dodeca_utils.optimal_fold_depth log2_to_int
  rw [to_double_small n hs, hl, hu]

theorem depth_rounded :
    dodeca_utils.optimal_fold_depth 1125899906842623 = 25 ∧ dodeca_utils.optimal_fold_depth 4503599627370495 = 26 :=
  ⟨depth_of 1125899906842623 49 true (by decide) (by decide)
      (log2_rounds_up_near 1125899906842623 (49 + 1) 281474976710656 1 (by decide)
        (by decide) (by decide) (by decide)),
    depth_of 4503599627370495 51 true (by decide) (by decide)
      (log2_rounds_up_near 4503599627370495 (51 + 1) 281474976710656 1 (by decide)
        (by decide) (by decide) (by decide))⟩

theorem exact_bounds (n : Nat) (h : 1 ≤ n) :
    4 ^ (floor_log2 n n / 2) ≤ n ∧ n < 4 ^ (floor_log2 n n / 2 + 1) := by
  obtain ⟨i1, i2⟩ := floor_log2_bounds n n (le_refl _) h
  have e : ∀ k : Nat, 4 ^ k = 2 ^ (2 * k) := by
    intro k
    rw [pow_mul]
    rfl
  rw [e, e]
  constructor
  · exact le_trans (Nat.pow_le_pow_right (by decide) (by omega)) i1
  · exact lt_of_lt_of_le i2 (Nat.pow_le_pow_right (by decide) (by omega))

theorem fold_recursively_stop (data : List Nat) (h : data.length < 4) :
    ∀ depth, fold_recursively data depth = data := by
  intro depth
  cases depth with
  | zero => exact fold_recursively_zero data
  | succ d => rw [fold_recursively_succ, if_pos h]

theorem fold_recursively_more : ∀ (d j : Nat) (data : List Nat),
    4 ^ d ≤ data.length → data.length < 4 ^ (d + 1) →
    fold_recursively data (d + j) = fold_pass^[d] data := by
  intro d
  induction d with
  | zero =>
    intro j data _ h2
    rw [fold_recursively_stop data (by simpa using h2)]
    rfl
  | succ d ih =>
    intro j data h1 h2
    have hpos : 1 ≤ 4 ^ d := Nat.one_le_pow _ _ (by decide)
    have h4 : ¬ data.length < 4 := by
      rw [pow_succ] at h1
      omega
    have hstep : fold_pass data = fold_loop data [] 0 [] := by
      rw [fold_pass_unfold, if_neg h4]
    have hlo : 4 ^ d ≤ (fold_loop data [] 0 []).length := by
      rw [fold_pass_length, Nat.le_div_iff_mul_le (by decide)]
      rw [pow_succ] at h1
      exact h1
    have hhi : (fold_loop data [] 0 []).length < 4 ^ (d + 1) := by
      rw [fold_pass_length, Nat.div_lt_iff_lt_mul (by decide)]
      rw [pow_succ] at h2
      exact h2
    have e : d + 1 + j = (d + j) + 1 := by omega
    rw [e, fold_recursively_succ, if_neg h4, Function.iterate_succ_apply, hstep]
    exact ih j _ hlo hhi

theorem fold_structure_eq (data : List Nat) (h : 1 ≤ data.length) :
    fold_structure data = fold_pass^[floor_log2 data.length data.length / 2] data := by
  obtain ⟨b1, b2⟩ := exact_bounds data.length h
  unfold fold_structure
  rcases depth_cases data.length h with c | c
  · rw [c]
    exact fold_recursively_more _ 0 data b1 b2
  · rw [c]
    exact fold_recursively_more _ 1 data b1 b2

theorem depth_zero_iff (n : Nat) (h : 1 ≤ n) : dodeca_utils.optimal_fold_depth n = 0 ↔ n < 4 := by
  obtain ⟨b1, b2⟩ := exact_bounds n h
  constructor
  · intro hz
    have hd : floor_log2 n n / 2 = 0 := by
      rcases depth_cases n h with c | c <;> omega
    rw [hd] at b2
    simpa using b2
  · intro hlt
    rw [depth_exact n h (by omega)]
    by_contra hne
    have : 4 ^ 1 ≤ 4 ^ (floor_log2 n n / 2) := Nat.pow_le_pow_right (by decide) (by omega)
    omega

theorem fold_structure_length (data : List Nat) (h : 1 ≤ data.length) :
    (fold_structure data).length =
        data.length / 4 ^ (floor_log2 data.length data.length / 2) ∧
      1 ≤ (fold_structure data).length ∧ (fold_structure data).length ≤ 3 := by
  obtain ⟨b1, b2⟩ := exact_bounds data.length h
  obtain ⟨_, i2⟩ := fold_recursively_iterate _ data b1
  have hpos : 0 < 4 ^ (floor_log2 data.length data.length / 2) := Nat.pow_pos (by decide)
  have hlen : (fold_structure data).length =
      data.length / 4 ^ (floor_log2 data.length data.length / 2) := by
    rw [fold_structure_eq data h, i2]
  refine ⟨hlen, ?_, ?_⟩
  · rw [hlen]
    exact Nat.div_pos b1 hpos
  · rw [hlen]
    have : data.length / 4 ^ (floor_log2 data.length data.length / 2) < 4 := by
      rw [Nat.div_lt_iff_lt_mul hpos]
      rw [pow_succ] at b2
      omega
    omega

theorem fold_structure_le (b : List Nat) (h : 4 ≤ b.length) (k : Nat)
    (hk : k < (fold_structure b).length) : (fold_structure b).getD k 0 ≤ k := by
  have hd : dodeca_utils.optimal_fold_depth b.length ≠ 0 := by
    intro hz
    have := (depth_zero_iff b.length (by omega)).mp hz
    omega
  obtain ⟨d, hd2⟩ := Nat.exists_eq_succ_of_ne_zero hd
  unfold fold_structure at hk ⊢
  rw [hd2, Nat.succ_eq_add_one, fold_recursively_succ, if_neg (by omega)] at hk ⊢
  exact fold_recursively_le d _ (fun k hk => fold_loop_le b k hk) k hk

theorem filter_length_add_count (b : List Nat) :
    (b.filter (fun x => decide (x ≠ 0))).length + b.count 0 = b.length := by
  induction b with
  | nil => rfl
  | cons x xs ih =>
    by_cases hx : x = 0
    · have hf : (x :: xs).filter (fun x => decide (x ≠ 0)) =
          xs.filter (fun x => decide (x ≠ 0)) := by simp [hx]
      rw [hf, hx, List.count_cons_self, List.length_cons]
      omega
    · have hf : (x :: xs).filter (fun x => decide (x ≠ 0)) =
          x :: xs.filter (fun x => decide (x ≠ 0)) := by simp [hx]
      rw [hf, List.count_cons_of_ne (fun e => hx e.symm), List.length_cons, List.length_cons]
      omega

/-! ## Lemmas on the overlay registry -/

theorem allocate_symbol_fst (c : DodecaCompiler) : (allocate_symbol c).1 = c.next_symbol_ := rfl

theorem allocate_symbol_next (c : DodecaCompiler) (i : Nat) (h : c.next_symbol_ = nth_symbol i) :
    (allocate_symbol c).2.next_symbol_ = nth_symbol (i + 1) := by
  have e : (allocate_symbol c).2.next_symbol_ =
      if 48 ≤ c.next_symbol_ ∧ c.next_symbol_ < 57 then c.next_symbol_ + 1
      else if c.next_symbol_ = 57 then 97
      else if c.next_symbol_ = 98 then 99
      else if 99 ≤ c.next_symbol_ ∧ c.next_symbol_ < 122 then c.next_symbol_ + 1
      else c.next_symbol_ := by
    unfold allocate_symbol
    simp only []
    split_ifs <;> rfl
  rw [e, h]
  unfold nth_symbol
  split_ifs <;> omega

theorem allocate_symbol_rest (c : DodecaCompiler) :
    (allocate_symbol c).2 = { c with next_symbol_ := (allocate_symbol c).2.next_symbol_ } := by
  unfold allocate_symbol
  simp only []
  split_ifs <;> rfl

theorem allocate_many_eq : ∀ (n i : Nat) (c : DodecaCompiler), c.next_symbol_ = nth_symbol i →
    (allocate_many n c).1 = (List.range n).map (fun j => nth_symbol (i + j)) ∧
      (allocate_many n c).2.next_symbol_ = nth_symbol (i + n) := by
  intro n
  induction n with
  | zero => intro i c h; exact ⟨rfl, h⟩
  | succ n ih =>
    intro i c h
    obtain ⟨i1, i2⟩ := ih (i + 1) _ (allocate_symbol_next c i h)
    unfold allocate_many
    simp only [i1, i2, allocate_symbol_fst, h]
    refine ⟨?_, by rw [Nat.add_assoc, Nat.add_comm 1 n]⟩
    rw [List.range_succ_eq_map, List.map_cons, List.map_map]
    simp only [Nat.add_zero, List.cons.injEq, true_and]
    apply List.map_congr_left
    intro j _
    simp only [Function.comp, Nat.succ_eq_add_one]
    rw [Nat.add_assoc, Nat.add_comm 1 j]

theorem register_overlay_eq (c : DodecaCompiler) (k : Str) (b : List Nat) :
    register_overlay c k b =
      { c with
        next_symbol_ := (allocate_symbol c).2.next_symbol_
        overlay_registry_ := assign c.overlay_registry_ k (stored_overlay k c.next_symbol_ b)
        dodeca_map_ :=
          { symbol_to_overlay := assign c.dodeca_map_.symbol_to_overlay c.next_symbol_
              (stored_overlay k c.next_symbol_ b)
            keyword_to_symbol := assign c.dodeca_map_.keyword_to_symbol k c.next_symbol_ } } := by
  unfold register_overlay
  simp only []
  rw [allocate_symbol_rest c]
  rfl

theorem compress_register (c : DodecaCompiler) (k : Str) (b : List Nat) (w : Str) :
    (register_overlay c k b).dodeca_map_.compress w =
      if k = w then c.next_symbol_ else c.dodeca_map_.compress w := by
  rw [register_overlay_eq]
  unfold DodecaMap.compress
  simp only [find_assign]
  split_ifs <;> rfl

theorem decompress_register (c : DodecaCompiler) (k : Str) (b : List Nat) (s : Nat) :
    (register_overlay c k b).dodeca_map_.decompress s =
      if c.next_symbol_ = s then some (stored_overlay k c.next_symbol_ b)
      else c.dodeca_map_.decompress s := by
  rw [register_overlay_eq]
  unfold DodecaMap.decompress
  simp only [find_assign]
  split_ifs <;> rfl

theorem register_all_concat (c : DodecaCompiler) (calls : List (Str × List Nat))
    (call : Str × List Nat) :
    register_all c (calls ++ [call]) = register_overlay (register_all c calls) call.1 call.2 := by
  unfold register_all
  rw [List.foldl_append]
  rfl

theorem register_all_next : ∀ (calls : List (Str × List Nat)),
    (register_all {} calls).next_symbol_ = nth_symbol calls.length := by
  intro calls
  induction calls using List.reverseRecOn with
  | nil => rfl
  | append_singleton l a ih =>
    rw [register_all_concat, register_overlay_eq]
    simp only [List.length_append, List.length_singleton]
    exact allocate_symbol_next _ _ ih

theorem nth_symbol_valid (i : Nat) : dodeca_utils.is_valid_symbol (nth_symbol i) = true := by
  unfold nth_symbol dodeca_utils.is_valid_symbol
  split_ifs with h
  · have h1 : 48 ≤ 48 + i := by omega
    have h2 : 48 + i ≤ 57 := by omega
    simp [h1, h2]
  · decide

theorem nth_symbol_ne (i n : Nat) (hi : i < n) (hn : n ≤ 10) : nth_symbol n ≠ nth_symbol i := by
  unfold nth_symbol
  split_ifs <;> omega

theorem allocate_many_fresh (n : Nat) :
    (allocate_many n {}).1 = (List.range n).map nth_symbol := by
  have h := (allocate_many_eq n 0 {} rfl).1
  rw [h]
  apply List.map_congr_left
  intro j _
  rw [Nat.zero_add]

theorem register_all_compress : ∀ (calls : List (Str × List Nat)),
    (calls.map Prod.fst).Nodup → ∀ (i : Nat) (call : Str × List Nat), calls[i]? = some call →
      (register_all {} calls).dodeca_map_.compress call.1 = nth_symbol i := by
  intro calls
  induction calls using List.reverseRecOn with
  | nil => intro _ i call h; simp at h
  | append_singleton l a ih =>
    intro hn i call h
    rw [List.map_append, List.nodup_append] at hn
    obtain ⟨hn1, _, hdis⟩ := hn
    rw [register_all_concat, compress_register, register_all_next]
    rcases Nat.lt_or_ge i l.length with hi | hi
    · rw [List.getElem?_append_left hi] at h
      have hmem : call.1 ∈ l.map Prod.fst :=
        List.mem_map.mpr ⟨call, List.mem_iff_getElem?.mpr ⟨i, h⟩, rfl⟩
      have hne : a.1 ≠ call.1 := fun e => hdis hmem (by simp [e])
      rw [if_neg hne]
      exact ih hn1 i call h
    · rw [List.getElem?_append_right hi] at h
      have hi0 : i - l.length = 0 := by
        rcases Nat.eq_zero_or_pos (i - l.length) with h0 | h0
        · exact h0
        · rw [List.getElem?_eq_none (by simp only [List.length_singleton]; omega)] at h; cases h
      rw [hi0] at h
      simp only [List.getElem?_cons_zero, Option.some.injEq] at h
      have hil : i = l.length := by omega
      rw [h, if_pos rfl, hil]

theorem register_all_decompress : ∀ (calls : List (Str × List Nat)),
    calls.length ≤ 11 → ∀ (i : Nat) (call : Str × List Nat), calls[i]? = some call →
      (register_all {} calls).dodeca_map_.decompress (nth_symbol i) =
        some (stored_overlay call.1 (nth_symbol i) call.2) := by
  intro calls
  induction calls using List.reverseRecOn with
  | nil => intro _ i call h; simp at h
  | append_singleton l a ih =>
    intro hl i call h
    simp only [List.length_append, List.length_singleton] at hl
    rw [register_all_concat, decompress_register, register_all_next]
    rcases Nat.lt_or_ge i l.length with hi | hi
    · rw [List.getElem?_append_left hi] at h
      rw [if_neg (nth_symbol_ne i l.length hi (by omega))]
      exact ih (by omega) i call h
    · rw [List.getElem?_append_right hi] at h
      have hi0 : i - l.length = 0 := by
        rcases Nat.eq_zero_or_pos (i - l.length) with h0 | h0
        · exact h0
        · rw [List.getElem?_eq_none (by simp only [List.length_singleton]; omega)] at h; cases h
      rw [hi0] at h
      simp only [List.getElem?_cons_zero, Option.some.injEq] at h
      have hil : i = l.length := by omega
      rw [h, hil, if_pos rfl]

theorem register_all_compress_unknown : ∀ (calls : List (Str × List Nat)) (k : Str),
    k ∉ calls.map Prod.fst → (register_all {} calls).dodeca_map_.compress k = 48 := by
  intro calls
  induction calls using List.reverseRecOn with
  | nil => intro k _; rfl
  | append_singleton l a ih =>
    intro k hk
    rw [List.map_append, List.mem_append, not_or] at hk
    have hne : a.1 ≠ k := fun e => hk.2 (by simp [e])
    rw [register_all_concat, compress_register, if_neg hne]
    exact ih k hk.1

theorem register_all_decompress_unknown : ∀ (calls : List (Str × List Nat)) (s : Nat),
    s ∉ (List.range calls.length).map nth_symbol →
      (register_all {} calls).dodeca_map_.decompress s = none := by
  intro calls
  induction calls using List.reverseRecOn with
  | nil => intro s _; rfl
  | append_singleton l a ih =>
    intro s hs
    simp only [List.length_append, List.length_singleton, List.range_succ, List.map_append,
      List.map_cons, List.map_nil, List.mem_append, List.mem_singleton, not_or] at hs
    have hne : nth_symbol l.length ≠ s := fun e => hs.2 e.symm
    rw [register_all_concat, decompress_register, register_all_next, if_neg hne]
    exact ih s hs.1

theorem map_keyword_single (reg : DodecaMap) (c : Nat) (i : Instruction) :
    map_keyword reg [c] i =
      if dodeca_utils.is_valid_symbol c then
        { i with type := InstructionType.OVERLAY, overlay_ref := reg.decompress c }
      else i := by
  have hk : ∀ s1 s2 : Str, 2 ≤ s1.length → 2 ≤ s2.length → ¬ ([c] = s1 ∨ [c] = s2) := by
    intro s1 s2 h1 h2 e
    rcases e with e | e
    · subst e; simp at h1
    · subst e; simp at h2
  unfold map_keyword
  rw [if_neg (hk _ _ (by decide) (by decide)), if_neg (hk _ _ (by decide) (by decide)),
    if_neg (hk _ _ (by decide) (by decide)), if_neg (hk _ _ (by decide) (by decide)),
    if_neg (hk _ _ (by decide) (by decide)), if_neg (hk _ _ (by decide) (by decide)),
    if_neg (hk _ _ (by decide) (by decide))]

theorem symbol_of_token_some (t : Str) (c : Nat) (h : symbol_of_token t = some c) :
    t = [c] ∧ dodeca_utils.is_valid_symbol c = true := by
  match t, h with
  | [], h => cases h
  | [c2], h =>
    have e : symbol_of_token [c2] = if dodeca_utils.is_valid_symbol c2 = true then some c2 else none := rfl
    rw [e] at h
    by_cases hv : dodeca_utils.is_valid_symbol c2 = true
    · rw [if_pos hv] at h
      simp only [Option.some.injEq] at h
      subst h
      exact ⟨rfl, hv⟩
    · rw [if_neg hv] at h
      cases h
  | _ :: _ :: _, h => cases h

theorem map_keyword_overlay (reg : DodecaMap) (t : Str) (i : Instruction)
    (h : i.overlay_ref = none) :
    match symbol_of_token t with
    | some c =>
      (map_keyword reg t i).type = InstructionType.OVERLAY ∧
        (map_keyword reg t i).overlay_ref = reg.decompress c
    | none => (map_keyword reg t i).overlay_ref = none := by
  match t with
  | [] =>
    show (map_keyword reg [] i).overlay_ref = none
    unfold map_keyword
    rw [if_neg (by decide), if_neg (by decide), if_neg (by decide), if_neg (by decide),
      if_neg (by decide), if_neg (by decide), if_neg (by decide)]
    exact h
  | [c] =>
    rw [map_keyword_single]
    unfold symbol_of_token
    by_cases hv : dodeca_utils.is_valid_symbol c = true
    · simp [hv]
    · simp [hv, h]
  | c :: d :: rest =>
    show (map_keyword reg (c :: d :: rest) i).overlay_ref = none
    unfold map_keyword
    split_ifs <;> exact h

/-! ## Lemmas on failing opcodes -/

theorem opcode_failure (rt : FrameRuntime) (opcode : Nat) (hop : opcode ≠ HEIPOpcode.STORE) :
    (execute_heip_opcode rt opcode).1 = false → (execute_heip_opcode rt opcode).2 = rt := by
  by_cases h0 : opcode = HEIPOpcode.NOP
  · unfold execute_heip_opcode
    rw [if_pos h0]
    intro hf
    exact absurd hf (by simp)
  by_cases h1 : opcode = HEIPOpcode.LOAD
  · unfold execute_heip_opcode
    rw [if_neg h0, if_pos h1]
    try simp only []
    split_ifs <;> intro hf <;> first | rfl | exact absurd hf (by simp)
  by_cases h3 : opcode = HEIPOpcode.ADD
  · unfold execute_heip_opcode
    rw [if_neg h0, if_neg h1, if_neg hop, if_pos h3]
    try simp only []
    split_ifs <;> intro hf <;> first | rfl | exact absurd hf (by simp)
  by_cases h4 : opcode = HEIPOpcode.SUB
  · unfold execute_heip_opcode
    rw [if_neg h0, if_neg h1, if_neg hop, if_neg h3, if_pos h4]
    try simp only []
    split_ifs <;> intro hf <;> first | rfl | exact absurd hf (by simp)
  by_cases h5 : opcode = HEIPOpcode.MUL
  · unfold execute_heip_opcode
    rw [if_neg h0, if_neg h1, if_neg hop, if_neg h3, if_neg h4, if_pos h5]
    try simp only []
    split_ifs <;> intro hf <;> first | rfl | exact absurd hf (by simp)
  by_cases h6 : opcode = HEIPOpcode.CALL
  · unfold execute_heip_opcode
    rw [if_neg h0, if_neg h1, if_neg hop, if_neg h3, if_neg h4, if_neg h5, if_pos h6]
    try simp only []
    split_ifs <;> intro hf <;> first | rfl | exact absurd hf (by simp)
  by_cases h7 : opcode = HEIPOpcode.RET
  · unfold execute_heip_opcode
    rw [if_neg h0, if_neg h1, if_neg hop, if_neg h3, if_neg h4, if_neg h5, if_neg h6, if_pos h7]
    try simp only []
    split_ifs <;> intro hf <;> first | rfl | exact absurd hf (by simp)
  by_cases h8 : opcode = HEIPOpcode.JMP
  · unfold execute_heip_opcode
    rw [if_neg h0, if_neg h1, if_neg hop, if_neg h3, if_neg h4, if_neg h5, if_neg h6, if_neg h7, if_pos h8]
    try simp only []
    split_ifs <;> intro hf <;> first | rfl | exact absurd hf (by simp)
  by_cases h9 : opcode = HEIPOpcode.PUSH
  · unfold execute_heip_opcode
    rw [if_neg h0, if_neg h1, if_neg hop, if_neg h3, if_neg h4, if_neg h5, if_neg h6, if_neg h7, if_neg h8, if_pos h9]
    try simp only []
    split_ifs <;> intro _ <;> rfl
  by_cases h10 : opcode = HEIPOpcode.POP
  · unfold execute_heip_opcode
    rw [if_neg h0, if_neg h1, if_neg hop, if_neg h3, if_neg h4, if_neg h5, if_neg h6, if_neg h7, if_neg h8, if_neg h9, if_pos h10]
    try simp only []
    split_ifs <;> intro hf <;> first | rfl | exact absurd hf (by simp)
  by_cases h11 : opcode = HEIPOpcode.FRAME_CREATE
  · unfold execute_heip_opcode
    rw [if_neg h0, if_neg h1, if_neg hop, if_neg h3, if_neg h4, if_neg h5, if_neg h6, if_neg h7, if_neg h8, if_neg h9, if_neg h10, if_pos h11]
    intro hf
    exact absurd hf (by simp)
  by_cases h12 : opcode = HEIPOpcode.FRAME_EXIT
  · unfold execute_heip_opcode
    rw [if_neg h0, if_neg h1, if_neg hop, if_neg h3, if_neg h4, if_neg h5, if_neg h6, if_neg h7, if_neg h8, if_neg h9, if_neg h10, if_neg h11, if_pos h12]
    intro hf
    exact absurd hf (by simp)
  by_cases h13 : opcode = HEIPOpcode.HELP_LEARN
  · unfold execute_heip_opcode
    rw [if_neg h0, if_neg h1, if_neg hop, if_neg h3, if_neg h4, if_neg h5, if_neg h6, if_neg h7, if_neg h8, if_neg h9, if_neg h10, if_neg h11, if_neg h12, if_pos h13]
    intro hf
    exact absurd hf (by simp)
  by_cases h14 : opcode = HEIPOpcode.HELP_HEAL
  · unfold execute_heip_opcode
    rw [if_neg h0, if_neg h1, if_neg hop, if_neg h3, if_neg h4, if_neg h5, if_neg h6, if_neg h7, if_neg h8, if_neg h9, if_neg h10, if_neg h11, if_neg h12, if_neg h13, if_pos h14]
    intro hf
    exact absurd hf (by simp)
  by_cases h15 : opcode = HEIPOpcode.OVERLAY_EXPAND
  · unfold execute_heip_opcode
    rw [if_neg h0, if_neg h1, if_neg hop, if_neg h3, if_neg h4, if_neg h5, if_neg h6, if_neg h7, if_neg h8, if_neg h9, if_neg h10, if_neg h11, if_neg h12, if_neg h13, if_neg h14, if_pos h15]
    intro hf
    exact absurd hf (by simp)
  unfold execute_heip_opcode
  rw [if_neg h0, if_neg h1, if_neg hop, if_neg h3, if_neg h4, if_neg h5, if_neg h6, if_neg h7, if_neg h8, if_neg h9, if_neg h10, if_neg h11, if_neg h12, if_neg h13, if_neg h14, if_neg h15]
  intro _
  rfl

theorem store_failure (st : FrameRuntime) :
    (execute_heip_opcode st HEIPOpcode.STORE).1 = false →
      (execute_heip_opcode st HEIPOpcode.STORE).2.stack_ = st.stack_.dropLast ∧
        (execute_heip_opcode st HEIPOpcode.STORE).2.memory_ = st.memory_ ∧
        ((execute_heip_opcode st HEIPOpcode.STORE).2.program_counter_ = st.program_counter_ ∨
          (execute_heip_opcode st HEIPOpcode.STORE).2.program_counter_ =
            (st.program_counter_ + 4) % 18446744073709551616) := by
  unfold execute_heip_opcode
  rw [if_neg (by decide), if_neg (by decide), if_pos rfl]
  try simp only []
  split_ifs with h1 h2 h3
  · intro _
    have he : st.stack_ = [] := by simpa using h1
    exact ⟨by rw [he]; rfl, rfl, Or.inl rfl⟩
  · intro _
    exact ⟨rfl, rfl, Or.inl rfl⟩
  · intro _
    exact ⟨rfl, rfl, Or.inr rfl⟩
  · intro hf
    exact absurd hf (by simp)

/-! ## Lemmas on keyword recognition -/

theorem map_keyword_type (reg : DodecaMap) (t : Str) (i : Instruction) :
    (map_keyword reg t i).type =
      match keyword_spellings.find? (fun e => decide (e.1 = t)) with
      | some e => e.2
      | none => if (symbol_of_token t).isSome then InstructionType.OVERLAY else i.type := by
  by_cases h1 : t = str "Instruct"
  · subst h1; rfl
  by_cases h2 : t = str "instruct"
  · subst h2; rfl
  by_cases h3 : t = str "Guide"
  · subst h3; rfl
  by_cases h4 : t = str "guide"
  · subst h4; rfl
  by_cases h5 : t = str "State"
  · subst h5; rfl
  by_cases h6 : t = str "state"
  · subst h6; rfl
  by_cases h7 : t = str "Protocol"
  · subst h7; rfl
  by_cases h8 : t = str "protocol"
  · subst h8; rfl
  by_cases h9 : t = str "Bubble"
  · subst h9; rfl
  by_cases h10 : t = str "bubble"
  · subst h10; rfl
  by_cases h11 : t = str "Chain"
  · subst h11; rfl
  by_cases h12 : t = str "chain"
  · subst h12; rfl
  by_cases h13 : t = str "Franchise"
  · subst h13; rfl
  by_cases h14 : t = str "franchise"
  · subst h14; rfl
  have hnone : keyword_spellings.find? (fun e => decide (e.1 = t)) = none := by
    rw [List.find?_eq_none]
    intro e he
    simp only [keyword_spellings, List.mem_cons, List.mem_singleton, List.not_mem_nil,
      or_false] at he
    rcases he with h | h | h | h | h | h | h | h | h | h | h | h | h | h <;>
      (subst h; simp only [decide_eq_true_eq]; intro hh; first
        | exact h1 hh.symm | exact h2 hh.symm | exact h3 hh.symm | exact h4 hh.symm
        | exact h5 hh.symm | exact h6 hh.symm | exact h7 hh.symm | exact h8 hh.symm
        | exact h9 hh.symm | exact h10 hh.symm | exact h11 hh.symm | exact h12 hh.symm
        | exact h13 hh.symm | exact h14 hh.symm)
  rw [hnone]
  unfold map_keyword
  rw [if_neg (not_or.mpr ⟨h1, h2⟩), if_neg (not_or.mpr ⟨h3, h4⟩), if_neg (not_or.mpr ⟨h5, h6⟩),
    if_neg (not_or.mpr ⟨h7, h8⟩), if_neg (not_or.mpr ⟨h9, h10⟩),
    if_neg (not_or.mpr ⟨h11, h12⟩), if_neg (not_or.mpr ⟨h13, h14⟩)]
  match t with
  | [] => rfl
  | [c] =>
    have e : symbol_of_token [c] =
        if dodeca_utils.is_valid_symbol c = true then some c else none := rfl
    rw [e]
    by_cases hv : dodeca_utils.is_valid_symbol c = true
    · simp [hv]
    · simp [hv]
  | _ :: _ :: _ => rfl

theorem parse_line_type (reg : DodecaMap) (line : Str) (pos : Nat) :
    (parse_line reg line pos).type =
      match keyword_spellings.find? (fun e => decide (e.1 = (tokens line).headD [])) with
      | some e => e.2
      | none =>
        if (symbol_of_token ((tokens line).headD [])).isSome then InstructionType.OVERLAY
        else InstructionType.INSTRUCT := by
  rw [parse_line_eq]
  exact map_keyword_type reg _ _

/-! ## Lemmas on recovery -/

theorem restore_state_frame (rt : FrameRuntime) :
    restore_state rt =
      { rt with
        program_counter_ := (restore_state rt).program_counter_
        stack_ := (restore_state rt).stack_
        execution_log_ := (restore_state rt).execution_log_ } := by
  rw [restore_state_eq]
  split_ifs <;> rfl

theorem attempt_recovery_frame (rt : FrameRuntime) :
    (attempt_recovery rt).2 =
      { rt with
        program_counter_ := (attempt_recovery rt).2.program_counter_
        stack_ := (attempt_recovery rt).2.stack_
        error_log_ := (attempt_recovery rt).2.error_log_
        execution_log_ := (attempt_recovery rt).2.execution_log_ } := by
  rw [attempt_recovery_eq]
  split_ifs <;> rfl

/-! ## The claims -/

/-- C1 (counterexample). With the empty registry the text `protocol p\nload 5\nstore 0\n`,
and likewise the literal text `protocol p\nload\nstore\n`, generates
`FRAME_CREATE, NOP, NOP, FRAME_EXIT`: the stream holds neither the LOAD opcode `0x01` nor
the STORE opcode `0x02`, because the first token of a line is consumed as the kind keyword
and the opcode is looked up from the second token. -/
theorem C1_load_line_emits_nop :
    generate_bytecode (build_protocols
        (parse_instructions {} (str "protocol p\nload 5\nstore 0\n"))) = [0x30, 0x00, 0x00, 0x32] ∧
      generate_bytecode (build_protocols
        (parse_instructions {} (str "protocol p\nload\nstore\n"))) = [0x30, 0x00, 0x00, 0x32] ∧
      0x01 ∉ generate_bytecode (build_protocols
        (parse_instructions {} (str "protocol p\nload 5\nstore 0\n"))) ∧
      0x02 ∉ generate_bytecode (build_protocols
        (parse_instructions {} (str "protocol p\nload 5\nstore 0\n"))) := by
  decide

/-- C1 (amended). With the empty registry the text
`protocol p\ninstruct load 5\ninstruct store 0\n` generates exactly `FRAME_CREATE`, `LOAD`,
the length 1 in four big-endian bytes and the byte of `"5"`, `STORE`, the length 1 in four
big-endian bytes and the byte of `"0"`, `FRAME_EXIT`: the opcode comes from the second token
of a line (`load` gives `0x01`, `store` gives `0x02`). -/
theorem C1_named_instructions_stream :
    generate_bytecode (build_protocols
        (parse_instructions {} (str "protocol p\ninstruct load 5\ninstruct store 0\n"))) =
      [0x30, 0x01, 0, 0, 0, 1, 53, 0x02, 0, 0, 0, 1, 48, 0x32] := by
  decide

/-- C2. `generate_bytecode` equals the reference encoder: for every list of protocols the
stream is the concatenation, in protocol order, of `0x30`, the encodings of the protocol's
instructions in list order, and `0x32`; an instruction with an overlay reference encodes as
`0x40` and the overlay bytes, any other as the opcode of its name and, per parameter, the
big-endian length and the raw bytes. The empty protocol list gives the empty stream. -/
theorem C2_generate_bytecode_reference (protocols : List Protocol) :
    generate_bytecode protocols = protocols.flatMap encode_protocol ∧
      generate_bytecode [] = [] := by
  constructor
  · unfold generate_bytecode
    rw [foldl_append_flatMap emit_protocol _ emit_protocol_eq]
    simp
  · rfl

/-- C3. `parse_instructions` returns, for every registry and every source text, exactly as
many instructions as the text has lines (pieces between `'\n'` bytes) that are neither
empty nor begin with `'#'`, and its i-th instruction is the one parsed from the i-th such
line: nothing is lost to the iteration bound and source order is kept. -/
theorem C3_parse_instruction_count (reg : DodecaMap) (source : Str) :
    (parse_instructions reg source).length =
        ((source.splitOn 10).filter
          (fun line => decide (line ≠ [] ∧ line.head? ≠ some 35))).length ∧
      ∀ i : Nat, (parse_instructions reg source)[i]? =
        (kept_lines source)[i]?.map (fun line => parse_line reg line (i % 4294967296)) := by
  constructor
  · rw [parse_instructions_eq, List.length_mapIdx]
    rfl
  · exact parse_instructions_getElem? reg source

/-- C4 (counterexample). The line `protocol p` is parsed with kind PROTOCOL, but the
re-cased lines `PROTOCOL p` and `pRoToCoL p` are not, and `PROTOCOL p` opens no protocol. -/
theorem C4_recased_keyword_not_recognised :
    (parse_instructions {} (str "protocol p")).map (fun inst => inst.type) =
        [InstructionType.PROTOCOL] ∧
      (parse_instructions {} (str "PROTOCOL p")).map (fun inst => inst.type) ≠
        [InstructionType.PROTOCOL] ∧
      (parse_instructions {} (str "pRoToCoL p")).map (fun inst => inst.type) ≠
        [InstructionType.PROTOCOL] ∧
      build_protocols (parse_instructions {} (str "PROTOCOL p")) = [] := by
  decide

/-- C4 (amended). For every registry, source text and kept line: a first token that is a
keyword of `instruct, guide, state, protocol, bubble, chain, franchise` in lower case or
with a capital first letter gives the instruction the kind of that keyword; a kind other
than INSTRUCT and OVERLAY is given by these spellings only; any other first token gives
OVERLAY when it is one character of `0-9` or `a-z` and the default kind INSTRUCT
otherwise. Hence every re-casing of `instruct` is parsed as INSTRUCT, a re-casing of a
keyword is parsed with the kind of that keyword exactly when the keyword is `instruct` or
the re-casing is one of the two spellings, and every other re-casing is parsed as
INSTRUCT. -/
theorem C4_keyword_two_spellings (reg : DodecaMap) (source : Str) (i : Nat) (line : Str)
    (inst : Instruction)
    (hline : (kept_lines source)[i]? = some line)
    (hinst : (parse_instructions reg source)[i]? = some inst) :
    (∀ k kind, (k, kind) ∈ keyword_spellings → (tokens line).head? = some k →
        inst.type = kind) ∧
      (inst.type ≠ InstructionType.INSTRUCT → inst.type ≠ InstructionType.OVERLAY →
        ((tokens line).headD [], inst.type) ∈ keyword_spellings) ∧
      ((tokens line).headD [] ∉ keyword_spellings.map Prod.fst →
        inst.type =
          if (symbol_of_token ((tokens line).headD [])).isSome then InstructionType.OVERLAY
          else InstructionType.INSTRUCT) ∧
      (((tokens line).headD []).map ascii_lower = str "instruct" →
        inst.type = InstructionType.INSTRUCT) ∧
      (∀ k kind, (k, kind) ∈ keyword_spellings →
        ((tokens line).headD []).map ascii_lower = k.map ascii_lower →
        (inst.type = kind ↔
          kind = InstructionType.INSTRUCT ∨
            ((tokens line).headD [], kind) ∈ keyword_spellings)) ∧
      (∀ k kind, (k, kind) ∈ keyword_spellings →
        ((tokens line).headD []).map ascii_lower = k.map ascii_lower →
        (tokens line).headD [] ∉ keyword_spellings.map Prod.fst →
        inst.type = InstructionType.INSTRUCT) := by
  rw [parse_instructions_getElem?, hline] at hinst
  simp only [Option.map_some', Option.some.injEq] at hinst
  have ht := parse_line_type reg line (i % 4294967296)
  rw [hinst] at ht
  have key : (∀ k kind, (k, kind) ∈ keyword_spellings → (tokens line).head? = some k →
        inst.type = kind) ∧
      (inst.type ≠ InstructionType.INSTRUCT → inst.type ≠ InstructionType.OVERLAY →
        ((tokens line).headD [], inst.type) ∈ keyword_spellings) ∧
      ((tokens line).headD [] ∉ keyword_spellings.map Prod.fst →
        inst.type =
          if (symbol_of_token ((tokens line).headD [])).isSome then InstructionType.OVERLAY
          else InstructionType.INSTRUCT) ∧
      (((tokens line).headD []).map ascii_lower = str "instruct" →
        inst.type = InstructionType.INSTRUCT) := ?_
  · obtain ⟨ka, kb, kc, kd⟩ := key
    refine ⟨ka, kb, kc, kd, ?_, ?_⟩
    · intro k kind hk hlow
      have h1 : ∀ e ∈ keyword_spellings, e.2 = InstructionType.INSTRUCT →
          e.1.map ascii_lower = str "instruct" := by decide
      have h2 : ∀ e ∈ keyword_spellings, e.2 ≠ InstructionType.OVERLAY := by decide
      constructor
      · intro htype
        by_cases hi : kind = InstructionType.INSTRUCT
        · exact Or.inl hi
        · right
          have := kb (by rw [htype]; exact hi) (by rw [htype]; exact h2 (k, kind) hk)
          rw [htype] at this
          exact this
      · rintro (hi | hmem)
        · rw [hi]
          apply kd
          rw [hlow]
          exact h1 (k, kind) hk hi
        · apply ka _ _ hmem
          have h3 : ∀ e ∈ keyword_spellings, e.1 ≠ [] := by decide
          cases hts : tokens line with
          | nil =>
            rw [hts] at hmem
            exact absurd rfl (h3 _ hmem)
          | cons a b => rfl
    · intro k kind hk hlow hnot
      have h4 : ∀ e ∈ keyword_spellings, 2 ≤ e.1.length := by decide
      have hl : 2 ≤ ((tokens line).headD []).length := by
        have := congrArg List.length hlow
        rw [List.length_map, List.length_map] at this
        rw [this]
        exact h4 (k, kind) hk
      have hs : symbol_of_token ((tokens line).headD []) = none := by
        match (tokens line).headD [], hl with
        | [], hl => simp at hl
        | [_], hl => simp at hl
        | _ :: _ :: _, _ => rfl
      rw [kc hnot, hs]
      rfl
  refine ⟨?_, ?_, ?_, ?_⟩
  · intro k kind hk hfirst
    have hd : (tokens line).headD [] = k := by
      cases hts : tokens line with
      | nil => rw [hts] at hfirst; simp at hfirst
      | cons a b => rw [hts] at hfirst; simpa using hfirst
    rw [hd] at ht
    rw [ht]
    simp only [keyword_spellings, List.mem_cons, Prod.mk.injEq, List.mem_singleton,
      List.not_mem_nil, or_false] at hk
    rcases hk with h | h | h | h | h | h | h | h | h | h | h | h | h | h <;>
      (obtain ⟨h1, h2⟩ := h; subst h1; subst h2; rfl)
  · intro h1 h2
    cases hf : keyword_spellings.find? (fun e => decide (e.1 = (tokens line).headD [])) with
    | none =>
      rw [hf] at ht
      simp only [] at ht
      split_ifs at ht
      · exact absurd ht h2
      · exact absurd ht h1
    | some e =>
      rw [hf] at ht
      simp only [] at ht
      have hmem := List.mem_of_find?_eq_some hf
      have hkey : e.1 = (tokens line).headD [] := by
        simpa using List.find?_some hf
      rw [← hkey, ht]
      exact hmem
  · intro hnot
    have hf : keyword_spellings.find? (fun e => decide (e.1 = (tokens line).headD [])) =
        none := by
      rw [List.find?_eq_none]
      intro e he hh
      simp only [decide_eq_true_eq] at hh
      exact hnot (List.mem_map.mpr ⟨e, he, hh⟩)
    rw [hf] at ht
    exact ht
  · intro hlow
    cases hf : keyword_spellings.find? (fun e => decide (e.1 = (tokens line).headD [])) with
    | none =>
      rw [hf] at ht
      simp only [] at ht
      have hs : symbol_of_token ((tokens line).headD []) = none := by
        have hl : ((tokens line).headD []).length = 8 := by
          have := congrArg List.length hlow
          rw [List.length_map] at this
          exact this
        match (tokens line).headD [], hl with
        | [], _ => rfl
        | [_], hl => simp at hl
        | _ :: _ :: _, _ => rfl
      rw [hs] at ht
      exact ht
    | some e =>
      rw [hf] at ht
      simp only [] at ht
      have hmem := List.mem_of_find?_eq_some hf
      have hkey : e.1 = (tokens line).headD [] := by
        simpa using List.find?_some hf
      have hall : ∀ e ∈ keyword_spellings,
          e.1.map ascii_lower = str "instruct" → e.2 = InstructionType.INSTRUCT := by
        decide
      rw [ht]
      exact hall e hmem (by rw [hkey]; exact hlow)

/-- C4 (witness): in the text `Protocol p\nINSTRUCT q\npRoToCoL r\nz s` the line
`INSTRUCT q`, whose first token is a re-casing of `instruct` outside the two spellings, is
parsed as INSTRUCT; so is `pRoToCoL r`, and `z s` is parsed as OVERLAY. -/
theorem C4_keyword_two_spellings_witness :
    (kept_lines (str "Protocol p\nINSTRUCT q\npRoToCoL r\nz s"))[1]? =
        some (str "INSTRUCT q") ∧
      (parse_instructions {} (str "Protocol p\nINSTRUCT q\npRoToCoL r\nz s")).map
        (fun inst => inst.type) =
        [InstructionType.PROTOCOL, InstructionType.INSTRUCT, InstructionType.INSTRUCT,
          InstructionType.OVERLAY] ∧
      (parse_instructions {} (str "Protocol p\nINSTRUCT q\npRoToCoL r\nz s"))[1]? =
        some { name := str "q", range_start := 1, range_end := 2 } ∧
      ((tokens (str "INSTRUCT q")).headD []).map ascii_lower = str "instruct" ∧
      (tokens (str "INSTRUCT q")).headD [] ∉ keyword_spellings.map Prod.fst ∧
      ({ name := str "q", range_start := 1, range_end := 2 } : Instruction).type =
        InstructionType.INSTRUCT :=
  ⟨by decide, by decide, by decide, by decide, by decide,
    (C4_keyword_two_spellings {} (str "Protocol p\nINSTRUCT q\npRoToCoL r\nz s") 1
      (str "INSTRUCT q") { name := str "q", range_start := 1, range_end := 2 }
      (by decide) (by decide)).2.2.2.1 (by decide)⟩

/-- C5. For every registry and source text, the instruction parsed from a kept line takes
its name from the second whitespace-separated token of the line (the empty string when
there is none) and its parameters from the tokens after the second, in order; the first
token is never the name. -/
theorem C5_name_is_second_token (reg : DodecaMap) (source : Str) (i : Nat) (line : Str)
    (inst : Instruction)
    (hline : (kept_lines source)[i]? = some line)
    (hinst : (parse_instructions reg source)[i]? = some inst) :
    inst.name = (tokens line).getD 1 [] ∧ inst.params = (tokens line).drop 2 := by
  rw [parse_instructions_getElem?, hline] at hinst
  simp only [Option.map_some', Option.some.injEq] at hinst
  rw [← hinst, parse_line_eq]
  exact ⟨rfl, rfl⟩

/-- C5 (witness): the second kept line of `#c\nprotocol p\nx load 5 6\n`. -/
theorem C5_name_is_second_token_witness :
    (kept_lines (str "#c\nprotocol p\nx load 5 6\n"))[1]? = some (str "x load 5 6") ∧
      (parse_instructions {} (str "#c\nprotocol p\nx load 5 6\n"))[1]? =
        some { type := InstructionType.OVERLAY, name := str "load", params := [str "5", str "6"],
               range_start := 1, range_end := 2 } ∧
      tokens (str "x load 5 6") = [str "x", str "load", str "5", str "6"] ∧
      (str "load" = (tokens (str "x load 5 6")).getD 1 [] ∧
        [str "5", str "6"] = (tokens (str "x load 5 6")).drop 2) :=
  ⟨by decide, by decide, by decide,
    C5_name_is_second_token {} (str "#c\nprotocol p\nx load 5 6\n") 1 (str "x load 5 6")
      { type := InstructionType.OVERLAY, name := str "load", params := [str "5", str "6"],
        range_start := 1, range_end := 2 } (by decide) (by decide)⟩

/-- C6 (counterexample). In the text `#c\nprotocol p\n` the line `protocol p` has 0-based
line index 1, yet the one instruction parsed from it has `range_start = 0` and
`range_end = 1`: skipped lines do not advance the range position. -/
theorem C6_range_ignores_skipped_lines :
    (str "#c\nprotocol p\n").splitOn 10 = [str "#c", str "protocol p", []] ∧
      (parse_instructions {} (str "#c\nprotocol p\n")).map
        (fun inst => (inst.range_start, inst.range_end)) = [(0, 1)] := by
  decide

/-- C6 (amended). For every registry and source text, the i-th instruction returned by
`parse_instructions` (counting from 0, skipped lines not counted) has `range_start = i` and
`range_end = i + 1` as 32-bit values, that is modulo 2^32 (so exactly `i` and `i + 1` while
`i + 1 < 2^32`). -/
theorem C6_range_is_instruction_index (reg : DodecaMap) (source : Str) (i : Nat)
    (inst : Instruction)
    (hinst : (parse_instructions reg source)[i]? = some inst) :
    inst.range_start = i % 4294967296 ∧ inst.range_end = (i + 1) % 4294967296 := by
  rw [parse_instructions_getElem?] at hinst
  cases hl : (kept_lines source)[i]? with
  | none => rw [hl] at hinst; simp at hinst
  | some line =>
    rw [hl] at hinst
    simp only [Option.map_some', Option.some.injEq] at hinst
    have hs : inst.range_start = i % 4294967296 := by
      rw [← hinst, parse_line_eq]
      exact map_keyword_range_start reg _ _
    have he : inst.range_end = (i + 1) % 4294967296 := by
      rw [← hinst, parse_line_eq]
      show (i % 4294967296 + 1) % 4294967296 = (i + 1) % 4294967296
      omega
    exact ⟨hs, he⟩

/-- C6 (witness): the instruction of the third kept line of a text with a comment and a
blank line. -/
theorem C6_range_is_instruction_index_witness :
    (parse_instructions {} (str "protocol p\n#c\nx load\n\ny store\n"))[2]? =
        some { type := InstructionType.OVERLAY, name := str "store",
               range_start := 2, range_end := 3 } ∧
      ((2 : Nat) = 2 % 4294967296 ∧ (3 : Nat) = (2 + 1) % 4294967296) :=
  ⟨by decide,
    C6_range_is_instruction_index {} (str "protocol p\n#c\nx load\n\ny store\n") 2
      { type := InstructionType.OVERLAY, name := str "store", range_start := 2, range_end := 3 }
      (by decide)⟩

/-- C7. `build_protocols` equals the reference grouping: one protocol per protocol-kind
instruction, in order and named by it, holding the maximal run of non-protocol instructions
after its opener; the concatenation of all instruction lists is the sequence of non-protocol
instructions after the first opener, so instructions before it are in no protocol. -/
theorem C7_build_protocols_grouping (instructions : List Instruction) :
    build_protocols instructions = group_protocols instructions ∧
      (build_protocols instructions).map (fun p => p.name) =
        (instructions.filter (fun i => decide (i.type = InstructionType.PROTOCOL))).map
          (fun i => i.name) ∧
      (build_protocols instructions).flatMap (fun p => p.instructions) =
        (instructions.dropWhile (fun i => decide (i.type ≠ InstructionType.PROTOCOL))).filter
          (fun i => decide (i.type ≠ InstructionType.PROTOCOL)) := by
  rw [build_protocols_eq]
  exact ⟨rfl, group_protocols_names instructions, group_protocols_flatten instructions⟩

/-- C8. `map_to_opcode` sends `load, store, add, sub, call, return, jump, compare, push,
pop` to `0x01, 0x02, 0x03, 0x04, 0x07, 0x08, 0x09, 0x0C, 0x0D, 0x0E` and every other
string to NOP `0x00`. -/
theorem C8_map_to_opcode_table (s : Str)
    (hs : s ∉ [str "load", str "store", str "add", str "sub", str "call", str "return",
      str "jump", str "compare", str "push", str "pop"]) :
    map_to_opcode (str "load") = 0x01 ∧ map_to_opcode (str "store") = 0x02 ∧
      map_to_opcode (str "add") = 0x03 ∧ map_to_opcode (str "sub") = 0x04 ∧
      map_to_opcode (str "call") = 0x07 ∧ map_to_opcode (str "return") = 0x08 ∧
      map_to_opcode (str "jump") = 0x09 ∧ map_to_opcode (str "compare") = 0x0C ∧
      map_to_opcode (str "push") = 0x0D ∧ map_to_opcode (str "pop") = 0x0E ∧
      map_to_opcode s = 0x00 := by
  refine ⟨by decide, by decide, by decide, by decide, by decide, by decide, by decide,
    by decide, by decide, by decide, ?_⟩
  simp only [List.mem_cons, List.mem_singleton, List.not_mem_nil, or_false, not_or] at hs
  obtain ⟨h1, h2, h3, h4, h5, h6, h7, h8, h9, h10⟩ := hs
  have hne : ∀ {a b : Str}, b ≠ a → decide (a = b) = false := by
    intro a b h
    exact decide_eq_false (fun e => h e.symm)
  simp only [map_to_opcode, opcode_map, List.find?, hne h1, hne h2, hne h3, hne h4, hne h5,
    hne h6, hne h7, hne h8, hne h9, hne h10]

/-- C8 (witness): the re-cased name `LOAD`; `mul` and the empty string also give NOP. -/
theorem C8_map_to_opcode_table_witness :
    (map_to_opcode (str "load") = 0x01 ∧ map_to_opcode (str "store") = 0x02 ∧
      map_to_opcode (str "add") = 0x03 ∧ map_to_opcode (str "sub") = 0x04 ∧
      map_to_opcode (str "call") = 0x07 ∧ map_to_opcode (str "return") = 0x08 ∧
      map_to_opcode (str "jump") = 0x09 ∧ map_to_opcode (str "compare") = 0x0C ∧
      map_to_opcode (str "push") = 0x0D ∧ map_to_opcode (str "pop") = 0x0E ∧
      map_to_opcode (str "LOAD") = 0x00) ∧
      map_to_opcode (str "mul") = 0x00 ∧ map_to_opcode [] = 0x00 :=
  ⟨C8_map_to_opcode_table (str "LOAD") (by decide), by decide, by decide⟩

/-- C9. For every 32-bit `x`, `emit_operand` appends exactly the four bytes `(x >> 24) & 0xFF`,
`(x >> 16) & 0xFF`, `(x >> 8) & 0xFF`, `x & 0xFF`; and when those bytes, as written by
`emit_operand`, sit at the program counter of a runtime, LOAD succeeds, pushes exactly `x`
and advances the program counter by 4, changing nothing else. -/
theorem C9_operand_round_trip (x : Nat) (output pre post : List Nat) (rt : FrameRuntime)
    (hx : x < 4294967296)
    (hcode : rt.bytecode_ = emit_operand pre x ++ post)
    (hpc : rt.program_counter_ = pre.length)
    (hsize : rt.bytecode_.length < 18446744073709551616) :
    emit_operand output x =
        output ++ [(x >>> 24) &&& 0xFF, (x >>> 16) &&& 0xFF, (x >>> 8) &&& 0xFF, x &&& 0xFF] ∧
      execute_heip_opcode rt HEIPOpcode.LOAD =
        (true, { rt with program_counter_ := rt.program_counter_ + 4, stack_ := rt.stack_ ++ [x] }) := by
  constructor
  · exact emit_operand_be_bytes output x
  · rw [emit_operand_be_bytes, be_bytes_eq] at hcode
    have hlen : pre.length + 4 ≤ rt.bytecode_.length := by
      rw [hcode]; simp
    obtain ⟨g0, g1, g2, g3⟩ := getD_append_mid pre post (x / 16777216 % 256) (x / 65536 % 256)
      (x / 256 % 256) (x % 256)
    rw [← hcode] at g0 g1 g2 g3
    have m0 : rt.program_counter_ % 18446744073709551616 = pre.length := by rw [hpc]; omega
    have m1 : (rt.program_counter_ + 1) % 18446744073709551616 = pre.length + 1 := by
      rw [hpc]; omega
    have m2 : (rt.program_counter_ + 2) % 18446744073709551616 = pre.length + 2 := by
      rw [hpc]; omega
    have m3 : (rt.program_counter_ + 3) % 18446744073709551616 = pre.length + 3 := by
      rw [hpc]; omega
    have m4 : (rt.program_counter_ + 4) % 18446744073709551616 = rt.program_counter_ + 4 := by
      rw [hpc]; omega
    have hmiss : immediate_missing rt = false := by
      unfold immediate_missing
      rw [m4, hpc]
      exact decide_eq_false (by omega)
    have hread : read_immediate rt = x := by
      unfold read_immediate byte_at
      rw [m0, m1, m2, m3, g0, g1, g2, g3]
      exact be_word_be_bytes x hx
    have hop : execute_heip_opcode rt HEIPOpcode.LOAD =
        (true, { advance_pc rt with stack_ := (advance_pc rt).stack_ ++ [read_immediate rt] }) := by
      unfold execute_heip_opcode
      rw [if_neg (by decide), if_pos rfl, hmiss]
      rfl
    rw [hop, hread]
    unfold advance_pc
    rw [m4]

/-- C9 (witness): the operand `0xDEADBEEF` after a LOAD opcode byte. -/
theorem C9_operand_round_trip_witness :
    (3735928559 < 4294967296 ∧
      load_example.bytecode_ = emit_operand [0x01] 3735928559 ++ [0x32] ∧
      load_example.program_counter_ = [0x01].length ∧
      load_example.bytecode_.length < 18446744073709551616) ∧
      (emit_operand [] 3735928559 = [] ++ [(3735928559 >>> 24) &&& 0xFF,
          (3735928559 >>> 16) &&& 0xFF, (3735928559 >>> 8) &&& 0xFF, 3735928559 &&& 0xFF] ∧
        execute_heip_opcode load_example HEIPOpcode.LOAD =
          (true, { load_example with
                     program_counter_ := load_example.program_counter_ + 4
                     stack_ := load_example.stack_ ++ [3735928559] })) :=
  ⟨⟨by decide, by decide, by decide, by decide⟩,
    C9_operand_round_trip 3735928559 [] [0x01] [0x32] load_example
      (by decide) (by decide) (by decide) (by decide)⟩

/-- C10. ADD, SUB and MUL are correct modulo 2^32: on a stack `s ++ [a, b]` (`b` on top)
each succeeds, changes only the stack and leaves `s ++ [(a + b) mod 2^32]`,
`s ++ [(a - b) mod 2^32]`, `s ++ [(a * b) mod 2^32]`; on a stack of fewer than two values
each fails and leaves the runtime unchanged. -/
theorem C10_arithmetic_mod_2_32 (rt short : FrameRuntime) (s : List Nat) (a b : Nat)
    (hstack : rt.stack_ = s ++ [a, b]) (hshort : short.stack_.length < 2) :
    execute_heip_opcode rt HEIPOpcode.ADD =
        (true, { rt with stack_ := s ++ [(a + b) % 4294967296] }) ∧
      execute_heip_opcode rt HEIPOpcode.SUB =
        (true, { rt with stack_ := s ++ [Int.toNat (((a : Int) - (b : Int)) % 4294967296)] }) ∧
      execute_heip_opcode rt HEIPOpcode.MUL =
        (true, { rt with stack_ := s ++ [(a * b) % 4294967296] }) ∧
      execute_heip_opcode short HEIPOpcode.ADD = (false, short) ∧
      execute_heip_opcode short HEIPOpcode.SUB = (false, short) ∧
      execute_heip_opcode short HEIPOpcode.MUL = (false, short) := by
  obtain ⟨hb, hd, hl⟩ := stack_two s a b
  rw [← hstack] at hb hd hl
  have ha : back rt.stack_.dropLast = a := by rw [hd, back_concat]
  have hdd : rt.stack_.dropLast.dropLast = s := by rw [hd, List.dropLast_concat]
  refine ⟨?_, ?_, ?_, ?_, ?_, ?_⟩
  · unfold execute_heip_opcode
    rw [if_neg (by decide), if_neg (by decide), if_neg (by decide), if_pos rfl, if_neg hl,
      hb, ha, hdd]
  · unfold execute_heip_opcode
    rw [if_neg (by decide), if_neg (by decide), if_neg (by decide), if_neg (by decide),
      if_pos rfl, if_neg hl, hb, ha, hdd]
    simp only [sub_wrap]
  · unfold execute_heip_opcode
    rw [if_neg (by decide), if_neg (by decide), if_neg (by decide), if_neg (by decide),
      if_neg (by decide), if_pos rfl, if_neg hl, hb, ha, hdd]
  · unfold execute_heip_opcode
    rw [if_neg (by decide), if_neg (by decide), if_neg (by decide), if_pos rfl, if_pos hshort]
  · unfold execute_heip_opcode
    rw [if_neg (by decide), if_neg (by decide), if_neg (by decide), if_neg (by decide),
      if_pos rfl, if_pos hshort]
  · unfold execute_heip_opcode
    rw [if_neg (by decide), if_neg (by decide), if_neg (by decide), if_neg (by decide),
      if_neg (by decide), if_pos rfl, if_pos hshort]

/-- C10 (witness): 4294967295 and 1 under ADD give 0, under SUB 4294967294, under MUL
4294967295; a one-element stack makes all three fail. -/
theorem C10_arithmetic_mod_2_32_witness :
    (arith_example.stack_ = [7] ++ [4294967295, 1] ∧ short_example.stack_.length < 2) ∧
      (execute_heip_opcode arith_example HEIPOpcode.ADD).2.stack_ = [7, 0] ∧
      (execute_heip_opcode arith_example HEIPOpcode.SUB).2.stack_ = [7, 4294967294] ∧
      (execute_heip_opcode arith_example HEIPOpcode.MUL).2.stack_ = [7, 4294967295] ∧
      (execute_heip_opcode arith_example HEIPOpcode.ADD =
          (true, { arith_example with stack_ := [7] ++ [(4294967295 + 1) % 4294967296] }) ∧
        execute_heip_opcode arith_example HEIPOpcode.SUB =
          (true, { arith_example with
                     stack_ := [7] ++
                       [Int.toNat ((((4294967295 : Nat) : Int) - ((1 : Nat) : Int)) % 4294967296)] }) ∧
        execute_heip_opcode arith_example HEIPOpcode.MUL =
          (true, { arith_example with stack_ := [7] ++ [(4294967295 * 1) % 4294967296] }) ∧
        execute_heip_opcode short_example HEIPOpcode.ADD = (false, short_example) ∧
        execute_heip_opcode short_example HEIPOpcode.SUB = (false, short_example) ∧
        execute_heip_opcode short_example HEIPOpcode.MUL = (false, short_example)) :=
  ⟨⟨by decide, by decide⟩, by decide, by decide, by decide,
    C10_arithmetic_mod_2_32 arith_example short_example [7] 4294967295 1 (by decide) (by decide)⟩

/-- C11. STORE success semantics: on a stack `s ++ [v]`, with the four bytes of an address
`a` (as written by `emit_operand`) at the program counter and `a + 4` within a memory of
at most 2^32 bytes (the runtime has 1 MiB), STORE succeeds, leaves the stack `s`, advances
the program counter by 4, stores the big-endian bytes of `v` at `a, a + 1, a + 2, a + 3`
and changes no other memory byte and nothing else. -/
theorem C11_store_success (rt : FrameRuntime) (s pre post : List Nat) (v a : Nat)
    (hstack : rt.stack_ = s ++ [v])
    (hcode : rt.bytecode_ = emit_operand pre a ++ post)
    (hpc : rt.program_counter_ = pre.length)
    (hsize : rt.bytecode_.length < 18446744073709551616)
    (hmem : rt.memory_size ≤ 4294967296)
    (hbound : a + 4 ≤ rt.memory_size) :
    execute_heip_opcode rt HEIPOpcode.STORE =
      (true,
        { rt with
          stack_ := s
          program_counter_ := rt.program_counter_ + 4
          memory_ := fun i =>
            if i = a then (v >>> 24) &&& 0xFF
            else if i = a + 1 then (v >>> 16) &&& 0xFF
            else if i = a + 2 then (v >>> 8) &&& 0xFF
            else if i = a + 3 then v &&& 0xFF
            else rt.memory_ i }) := by
  have ha : a < 4294967296 := by omega
  have hne : rt.stack_.isEmpty = false := by rw [hstack]; exact isEmpty_concat s v
  have hback : back rt.stack_ = v := by rw [hstack]; exact back_concat s v
  have hdrop : rt.stack_.dropLast = s := by rw [hstack]; exact List.dropLast_concat
  obtain ⟨hmiss, hread, hadv⟩ :=
    immediate_at { rt with stack_ := rt.stack_.dropLast } pre post a ha hcode hpc hsize
  have hguard : ¬ ((a + 4) % 4294967296 > rt.memory_size) := by omega
  have e1 : (a + 1) % 4294967296 = a + 1 := by omega
  have e2 : (a + 2) % 4294967296 = a + 2 := by omega
  have e3 : (a + 3) % 4294967296 = a + 3 := by omega
  unfold execute_heip_opcode
  rw [if_neg (by decide), if_neg (by decide), if_pos rfl, hne]
  simp only [Bool.false_eq_true, if_false]
  rw [hmiss, hread, hadv, hback, hdrop]
  simp only [Bool.false_eq_true, if_false]
  rw [if_neg hguard, e1, e2, e3]
  congr 2
  funext i
  simp only [mem_write]
  split_ifs <;> first | rfl | omega

/-- C11 (witness): storing `0xDEADBEEF` at address 16 of a fresh runtime. -/
theorem C11_store_success_witness :
    (store_example.stack_ = [7] ++ [3735928559] ∧
      store_example.bytecode_ = emit_operand [0x02] 16 ++ [0x32] ∧
      store_example.program_counter_ = [0x02].length ∧
      store_example.bytecode_.length < 18446744073709551616 ∧
      store_example.memory_size ≤ 4294967296 ∧
      16 + 4 ≤ store_example.memory_size) ∧
      [15, 16, 17, 18, 19, 20].map (execute_heip_opcode store_example HEIPOpcode.STORE).2.memory_ =
        [0, 222, 173, 190, 239, 0] ∧
      execute_heip_opcode store_example HEIPOpcode.STORE =
        (true,
          { store_example with
            stack_ := [7]
            program_counter_ := store_example.program_counter_ + 4
            memory_ := fun i =>
              if i = 16 then (3735928559 >>> 24) &&& 0xFF
              else if i = 16 + 1 then (3735928559 >>> 16) &&& 0xFF
              else if i = 16 + 2 then (3735928559 >>> 8) &&& 0xFF
              else if i = 16 + 3 then 3735928559 &&& 0xFF
              else store_example.memory_ i }) :=
  ⟨⟨by decide, by decide, by decide, by decide, by decide, by decide⟩, by decide,
    C11_store_success store_example [7] [0x02] [0x32] 3735928559 16
      (by decide) (by decide) (by decide) (by decide) (by decide) (by decide)⟩

/-- C12 (the code at the failing input). A fresh runtime has 1 MiB of memory and
`0xFFFFFFFC + 4` exceeds it, yet STORE with the immediate address `0xFFFFFFFC` returns
success and writes the four bytes of the value at offsets `0xFFFFFFFC .. 0xFFFFFFFF`,
outside the buffer; so does the whole program `LOAD 0xDEADBEEF; STORE 0xFFFFFFFC` under
`execute`, which returns 0. -/
theorem C12_store_guard_wraps :
    store_wrap_example.memory_size = 1048576 ∧
      4294967292 + 4 > store_wrap_example.memory_size ∧
      (execute_heip_opcode store_wrap_example HEIPOpcode.STORE).1 = true ∧
      [4294967292, 4294967293, 4294967294, 4294967295].map store_wrap_example.memory_ =
        [0, 0, 0, 0] ∧
      [4294967292, 4294967293, 4294967294, 4294967295].map
        (execute_heip_opcode store_wrap_example HEIPOpcode.STORE).2.memory_ =
        [222, 173, 190, 239] ∧
      (execute 3 (load_bytecode (FrameRuntime.init 0)
        [0x01, 0xDE, 0xAD, 0xBE, 0xEF, 0x02, 0xFF, 0xFF, 0xFF, 0xFC])).status? = some 0 ∧
      [4294967292, 4294967293, 4294967294, 4294967295].map
        (execute 3 (load_bytecode (FrameRuntime.init 0)
          [0x01, 0xDE, 0xAD, 0xBE, 0xEF, 0x02, 0xFF, 0xFF, 0xFF, 0xFC])).state.memory_ =
        [222, 173, 190, 239] := by
  decide

/-- C13 (counterexample). In a program of 2^32 bytes a CALL at position `p = 2^32 - 5`
pushes 0, not the return address `p + 5 = 2^32`: the stack holds 32-bit values. A RET
after it resumes at 0. -/
theorem C13_return_address_truncated :
    call_wrap_example.program_counter_ = 4294967291 + 1 ∧
      (execute_heip_opcode call_wrap_example HEIPOpcode.CALL).2.stack_ = [0] ∧
      (execute_heip_opcode call_wrap_example HEIPOpcode.CALL).2.stack_ ≠ [4294967291 + 5] ∧
      (execute_heip_opcode (execute_heip_opcode call_wrap_example HEIPOpcode.CALL).2
        HEIPOpcode.RET).2.program_counter_ = 0 := by
  have hlen : call_wrap_example.bytecode_.length = 4294967296 := by
    show (List.replicate 4294967296 0).length = 4294967296
    exact List.length_replicate _ _
  have hpc : call_wrap_example.program_counter_ = 4294967292 := rfl
  have hstack : call_wrap_example.stack_ = [] := rfl
  have hmiss : immediate_missing call_wrap_example = false := by
    unfold immediate_missing
    rw [hlen, hpc]
    decide
  have hcall := call_step call_wrap_example hmiss
  have hadv : (advance_pc call_wrap_example).program_counter_ = 4294967296 := by
    show (call_wrap_example.program_counter_ + 4) % 18446744073709551616 = 4294967296
    rw [hpc]
  have hs : (execute_heip_opcode call_wrap_example HEIPOpcode.CALL).2.stack_ = [0] := by
    rw [hcall]
    show (advance_pc call_wrap_example).stack_ ++
      [(advance_pc call_wrap_example).program_counter_ % 4294967296] = [0]
    rw [hadv]
    show call_wrap_example.stack_ ++ [4294967296 % 4294967296] = [0]
    rw [hstack]
    rfl
  refine ⟨hpc, hs, ?_, ?_⟩
  · rw [hs]; decide
  · rw [ret_step]
    have hne : (execute_heip_opcode call_wrap_example HEIPOpcode.CALL).2.stack_.isEmpty = false := by
      rw [hs]; rfl
    rw [hne]
    simp only [Bool.false_eq_true, if_false]
    rw [hs]
    rfl

/-- C13 (amended). A CALL whose opcode is at position `p`, with the four bytes of a target
`t` after it, succeeds, pushes the return address `p + 5` as a 32-bit value (modulo 2^32)
and sets the program counter to `t`; a RET executed next succeeds, pops that value and
resumes at it, with the stack as before the CALL; RET on an empty stack fails and changes
nothing. -/
theorem C13_call_ret (rt e : FrameRuntime) (pre post : List Nat) (p t : Nat)
    (ht : t < 4294967296)
    (hcode : rt.bytecode_ = emit_operand pre t ++ post)
    (hlen : pre.length = p + 1)
    (hpc : rt.program_counter_ = p + 1)
    (hsize : rt.bytecode_.length < 18446744073709551616)
    (hempty : e.stack_ = []) :
    execute_heip_opcode rt HEIPOpcode.CALL =
        (true, { rt with program_counter_ := t, stack_ := rt.stack_ ++ [(p + 5) % 4294967296] }) ∧
      execute_heip_opcode
          { rt with program_counter_ := t, stack_ := rt.stack_ ++ [(p + 5) % 4294967296] }
          HEIPOpcode.RET =
        (true, { rt with program_counter_ := (p + 5) % 4294967296 }) ∧
      execute_heip_opcode e HEIPOpcode.RET = (false, e) := by
  obtain ⟨hmiss, hread, hadv⟩ := immediate_at rt pre post t ht hcode (by omega) hsize
  refine ⟨?_, ?_, ?_⟩
  · rw [call_step rt hmiss, hread, hadv]
    have h5 : rt.program_counter_ + 4 = p + 5 := by omega
    simp only [h5]
  · rw [ret_step]
    simp only [isEmpty_concat, Bool.false_eq_true, if_false, back_concat, List.dropLast_concat]
  · rw [ret_step, hempty]
    rfl

/-- C13 (witness): CALL 9 at position 0 on the stack `7`, then RET. -/
theorem C13_call_ret_witness :
    (9 < 4294967296 ∧
      call_example.bytecode_ = emit_operand [0x07] 9 ++ [0, 0, 0, 0, 0x08] ∧
      [0x07].length = 0 + 1 ∧
      call_example.program_counter_ = 0 + 1 ∧
      call_example.bytecode_.length < 18446744073709551616 ∧
      (FrameRuntime.init 0).stack_ = []) ∧
      (execute_heip_opcode call_example HEIPOpcode.CALL =
          (true, { call_example with
                     program_counter_ := 9
                     stack_ := call_example.stack_ ++ [(0 + 5) % 4294967296] }) ∧
        execute_heip_opcode
            { call_example with
              program_counter_ := 9
              stack_ := call_example.stack_ ++ [(0 + 5) % 4294967296] }
            HEIPOpcode.RET =
          (true, { call_example with program_counter_ := (0 + 5) % 4294967296 }) ∧
        execute_heip_opcode (FrameRuntime.init 0) HEIPOpcode.RET =
          (false, FrameRuntime.init 0)) :=
  ⟨⟨by decide, by decide, by decide, by decide, by decide, by decide⟩,
    C13_call_ret call_example (FrameRuntime.init 0) [0x07] [0, 0, 0, 0, 0x08] 0 9
      (by decide) (by decide) (by decide) (by decide) (by decide) (by decide)⟩

/-- C14. Every opcode byte other than the sixteen dispatched ones makes
`execute_instruction` return failure and leaves the runtime, hence stack and memory,
unchanged. -/
theorem C14_unknown_opcode_fails (rt : FrameRuntime) (opcode : Nat)
    (h : opcode ∉ [0x00, 0x01, 0x02, 0x03, 0x04, 0x05, 0x07, 0x08, 0x09, 0x0D, 0x0E, 0x20,
      0x22, 0x30, 0x32, 0x40]) :
    execute_instruction rt opcode = (false, rt) := by
  simp only [List.mem_cons, List.mem_singleton, List.not_mem_nil, or_false, not_or] at h
  obtain ⟨h0, h1, h2, h3, h4, h5, h7, h8, h9, hd, he, h20, h22, h30, h32, h40⟩ := h
  unfold execute_instruction execute_heip_opcode
  rw [if_neg h0, if_neg h1, if_neg h2, if_neg h3, if_neg h4, if_neg h5, if_neg h7, if_neg h8,
    if_neg h9, if_neg hd, if_neg he, if_neg h30, if_neg h32, if_neg h20, if_neg h22,
    if_neg h40]

/-- C14 (witness): DIV `0x06` on a fresh runtime; the other enumerated but unimplemented
opcodes JZ, JNZ, CMP, ALLOC, FREE, FRAME_ENTER and SYMBOL_RESOLVE are outside the
dispatched sixteen as well. -/
theorem C14_unknown_opcode_fails_witness :
    [HEIPOpcode.DIV, HEIPOpcode.JZ, HEIPOpcode.JNZ, HEIPOpcode.CMP, HEIPOpcode.ALLOC,
        HEIPOpcode.FREE, HEIPOpcode.FRAME_ENTER, HEIPOpcode.SYMBOL_RESOLVE].filter
        (fun op => decide (op ∈ [0x00, 0x01, 0x02, 0x03, 0x04, 0x05, 0x07, 0x08, 0x09, 0x0D,
          0x0E, 0x20, 0x22, 0x30, 0x32, 0x40])) = [] ∧
      execute_instruction (FrameRuntime.init 0) HEIPOpcode.DIV = (false, FrameRuntime.init 0) :=
  ⟨by decide, C14_unknown_opcode_fails (FrameRuntime.init 0) HEIPOpcode.DIV (by decide)⟩

/-- C15 (counterexample). On a fresh runtime the opcodes `0x20` (HELP_LEARN) and `0x22`
(HELP_HEAL), both in the range `0x20`-`0x23`, return success. -/
theorem C15_help_opcodes_succeed :
    (execute_instruction (FrameRuntime.init 0) 0x20).1 = true ∧
      (execute_instruction (FrameRuntime.init 0) 0x22).1 = true := by
  decide

/-- C15 (amended). The opcode bytes `0x21`, `0x23`, `0x33` and `0x34` make
`execute_instruction` return failure and change nothing; `0x20` (HELP_LEARN) and `0x22`
(HELP_HEAL) are dispatched and return success, in every runtime. -/
theorem C15_reserved_opcodes (rt : FrameRuntime) :
    execute_instruction rt 0x21 = (false, rt) ∧ execute_instruction rt 0x23 = (false, rt) ∧
      execute_instruction rt 0x33 = (false, rt) ∧ execute_instruction rt 0x34 = (false, rt) ∧
      (execute_instruction rt 0x20).1 = true ∧ (execute_instruction rt 0x22).1 = true := by
  refine ⟨?_, ?_, ?_, ?_, ?_, ?_⟩
  · unfold execute_instruction execute_heip_opcode
    rw [if_neg (by decide), if_neg (by decide), if_neg (by decide), if_neg (by decide),
      if_neg (by decide), if_neg (by decide), if_neg (by decide), if_neg (by decide),
      if_neg (by decide), if_neg (by decide), if_neg (by decide), if_neg (by decide),
      if_neg (by decide), if_neg (by decide), if_neg (by decide), if_neg (by decide)]
  · unfold execute_instruction execute_heip_opcode
    rw [if_neg (by decide), if_neg (by decide), if_neg (by decide), if_neg (by decide),
      if_neg (by decide), if_neg (by decide), if_neg (by decide), if_neg (by decide),
      if_neg (by decide), if_neg (by decide), if_neg (by decide), if_neg (by decide),
      if_neg (by decide), if_neg (by decide), if_neg (by decide), if_neg (by decide)]
  · unfold execute_instruction execute_heip_opcode
    rw [if_neg (by decide), if_neg (by decide), if_neg (by decide), if_neg (by decide),
      if_neg (by decide), if_neg (by decide), if_neg (by decide), if_neg (by decide),
      if_neg (by decide), if_neg (by decide), if_neg (by decide), if_neg (by decide),
      if_neg (by decide), if_neg (by decide), if_neg (by decide), if_neg (by decide)]
  · unfold execute_instruction execute_heip_opcode
    rw [if_neg (by decide), if_neg (by decide), if_neg (by decide), if_neg (by decide),
      if_neg (by decide), if_neg (by decide), if_neg (by decide), if_neg (by decide),
      if_neg (by decide), if_neg (by decide), if_neg (by decide), if_neg (by decide),
      if_neg (by decide), if_neg (by decide), if_neg (by decide), if_neg (by decide)]
  · unfold execute_instruction execute_heip_opcode
    rw [if_neg (by decide), if_neg (by decide), if_neg (by decide), if_neg (by decide),
      if_neg (by decide), if_neg (by decide), if_neg (by decide), if_neg (by decide),
      if_neg (by decide), if_neg (by decide), if_neg (by decide), if_neg (by decide),
      if_neg (by decide), if_pos rfl]
  · unfold execute_instruction execute_heip_opcode
    rw [if_neg (by decide), if_neg (by decide), if_neg (by decide), if_neg (by decide),
      if_neg (by decide), if_neg (by decide), if_neg (by decide), if_neg (by decide),
      if_neg (by decide), if_neg (by decide), if_neg (by decide), if_neg (by decide),
      if_neg (by decide), if_neg (by decide), if_pos rfl]

/-- C16 (failing input). After `JMP 0x80000000` has run, `save_state` checkpoints the
counter 2^31. When the program `0xFF` is then loaded and executed, its instruction fails
and recovery sets the counter to `2^64 - 2^31`, not to the checkpointed 2^31; the loop
ends there and `execute` returns 0. -/
theorem C16_restored_counter_sign_extended :
    jump_example.program_counter_ = 2147483648 ∧
      sign_example.self_healing_enabled_ = true ∧
      checkpoint_of sign_example = [128, 0, 0, 0] ∧
      (execute_instruction { sign_example with program_counter_ := 1 } 0xFF).1 = false ∧
      (execute 1 sign_example).state.program_counter_ = 18446744071562067968 ∧
      (execute 2 sign_example).status? = some 0 := by
  decide

/-- C16 (agreement). Failure policy of `execute`: when the instruction fetched at the program
counter fails, leaving the runtime `rf`, the loop returns 1 if self-healing is disabled or
the checkpoint of the current frame is empty; otherwise the program counter and the stack
are set to the values decoded from that checkpoint and the loop goes on from there. The
instruction counter is not incremented. The values decoded from the checkpoint bytes of a
counter below 2^31 and a stack of 32-bit values are that counter and that stack. -/
theorem C16_failure_policy (rt rf : FrameRuntime) (fuel pc0 : Nat) (stack0 : List Nat)
    (hpc : rt.program_counter_ < rt.bytecode_.length)
    (hfail : execute_instruction
        { rt with program_counter_ := (rt.program_counter_ + 1) % 18446744073709551616 }
        (byte_at rt.bytecode_ rt.program_counter_) = (false, rf))
    (hpc0 : pc0 < 2147483648)
    (hstack0 : ∀ v ∈ stack0, v < 4294967296) :
    execute_loop (fuel + 1) rt =
        (if rf.self_healing_enabled_ = true then
          if checkpoint_of rf ≠ [] then
            execute_loop fuel
              { rf with
                program_counter_ :=
                  int_to_size_t (be_word ((checkpoint_of rf).getD 0 0) ((checkpoint_of rf).getD 1 0)
                    ((checkpoint_of rf).getD 2 0) ((checkpoint_of rf).getD 3 0))
                stack_ := restore_stack ((checkpoint_of rf).drop 4) []
                error_log_ := []
                execution_log_ := rf.execution_log_ ++
                  [str "Attempting self-healing recovery", str "State restored from checkpoint",
                    str "Self-healing recovery successful"] }
          else
            ExecOutcome.returned 1
              { rf with
                error_log_ := []
                execution_log_ := rf.execution_log_ ++ [str "Attempting self-healing recovery"] }
        else ExecOutcome.returned 1 rf) ∧
      rf.instruction_count_ = rt.instruction_count_ ∧
      int_to_size_t
          (be_word ((be_bytes pc0 ++ stack0.flatMap be_bytes).getD 0 0)
            ((be_bytes pc0 ++ stack0.flatMap be_bytes).getD 1 0)
            ((be_bytes pc0 ++ stack0.flatMap be_bytes).getD 2 0)
            ((be_bytes pc0 ++ stack0.flatMap be_bytes).getD 3 0)) = pc0 ∧
      restore_stack ((be_bytes pc0 ++ stack0.flatMap be_bytes).drop 4) [] = stack0 := by
  refine ⟨?_, ?_, ?_, ?_⟩
  · rw [execute_loop_succ, if_pos hpc]
    unfold execute_iteration
    simp only [hfail, if_true]
    by_cases hh : rf.self_healing_enabled_ = true
    · rw [if_pos hh, if_pos hh, attempt_recovery_eq]
      by_cases hc : checkpoint_of rf = []
      · simp [hc]
      · simp [hc, log_execution_event]
    · rw [if_neg hh, if_neg hh]
  · have h := (opcode_frames
      { rt with program_counter_ := (rt.program_counter_ + 1) % 18446744073709551616 }
      (byte_at rt.bytecode_ rt.program_counter_)).1
    unfold execute_instruction at hfail
    rw [hfail] at h
    exact h
  · rw [be_bytes_eq]
    simp only [List.cons_append, List.getD_cons_zero, List.getD_cons_succ]
    rw [be_word_be_bytes _ (by omega), int_to_size_t_small _ hpc0]
  · rw [be_bytes_eq]
    simp only [List.cons_append, List.nil_append, List.drop_succ_cons, List.drop_zero]
    rw [restore_stack_flatMap _ _ hstack0]
    rfl

/-- C16 (agreement, witness): the second POP of `LOAD 7; FRAME_CREATE; POP; POP` fails on the empty
stack; the checkpoint taken by FRAME_CREATE holds the counter 6 and the stack `7`, and the
loop goes on from there with the instruction counter still 3. A failing opcode on a fresh
runtime (empty checkpoint), or with self-healing disabled, makes `execute` return 1. -/
theorem C16_failure_policy_witness :
    (recover_example.program_counter_ < recover_example.bytecode_.length ∧
      execute_instruction
        { recover_example with
          program_counter_ := (recover_example.program_counter_ + 1) % 18446744073709551616 }
        (byte_at recover_example.bytecode_ recover_example.program_counter_) =
        (false, failed_example)) ∧
      (failed_example.self_healing_enabled_ = true ∧
        checkpoint_of failed_example = be_bytes 6 ++ [7].flatMap be_bytes ∧
        recover_example.stack_ = [] ∧ recover_example.instruction_count_ = 3 ∧
        (execute_loop 1 recover_example).state.program_counter_ = 6 ∧
        (execute_loop 1 recover_example).state.stack_ = [7] ∧
        (execute_loop 1 recover_example).state.instruction_count_ = 3 ∧
        (execute 2 (load_bytecode (FrameRuntime.init 0) [0xFF])).status? = some 1 ∧
        (execute 3 (load_bytecode { FrameRuntime.init 0 with self_healing_enabled_ := false }
          [0x30, 0xFF])).status? = some 1) ∧
      (execute_loop (0 + 1) recover_example =
          (if failed_example.self_healing_enabled_ = true then
            if checkpoint_of failed_example ≠ [] then
              execute_loop 0
                { failed_example with
                  program_counter_ :=
                    int_to_size_t (be_word ((checkpoint_of failed_example).getD 0 0)
                      ((checkpoint_of failed_example).getD 1 0)
                      ((checkpoint_of failed_example).getD 2 0)
                      ((checkpoint_of failed_example).getD 3 0))
                  stack_ := restore_stack ((checkpoint_of failed_example).drop 4) []
                  error_log_ := []
                  execution_log_ := failed_example.execution_log_ ++
                    [str "Attempting self-healing recovery", str "State restored from checkpoint",
                      str "Self-healing recovery successful"] }
            else
              ExecOutcome.returned 1
                { failed_example with
                  error_log_ := []
                  execution_log_ := failed_example.execution_log_ ++
                    [str "Attempting self-healing recovery"] }
          else ExecOutcome.returned 1 failed_example) ∧
        failed_example.instruction_count_ = recover_example.instruction_count_ ∧
        int_to_size_t
            (be_word ((be_bytes 6 ++ [7].flatMap be_bytes).getD 0 0)
              ((be_bytes 6 ++ [7].flatMap be_bytes).getD 1 0)
              ((be_bytes 6 ++ [7].flatMap be_bytes).getD 2 0)
              ((be_bytes 6 ++ [7].flatMap be_bytes).getD 3 0)) = 6 ∧
        restore_stack ((be_bytes 6 ++ [7].flatMap be_bytes).drop 4) [] = [7]) :=
  ⟨⟨by decide, rfl⟩,
    ⟨by decide, by decide, by decide, by decide, by decide, by decide, by decide, by decide,
      by decide⟩,
    C16_failure_policy recover_example failed_example 0 6 [7] (by decide) rfl (by decide)
      (by decide)⟩

/-- C17 (counterexample). With self-healing enabled, `execute` on the two-byte program
`FRAME_CREATE, 0xFF` has not returned after six iterations of its loop and has by then
restored the checkpoint five times. -/
theorem C17_restores_more_than_once :
    (execute 6 (load_bytecode (FrameRuntime.init 0) [0x30, 0xFF])).status? = none ∧
      restorations (execute 6 (load_bytecode (FrameRuntime.init 0) [0x30, 0xFF])).state = 5 := by
  decide

/-- C17 (amended). With self-healing enabled and a checkpoint present, every instruction
failure restores the checkpoint and the loop goes on, with no bound on the number of
restorations: on the program `FRAME_CREATE, 0xFF` the loop of `execute` never returns,
whatever number of iterations it is given, and `n + 1` iterations restore the checkpoint
`n` times. -/
theorem C17_retry_is_unbounded (now fuel : Nat) :
    (execute fuel (load_bytecode (FrameRuntime.init now) [0x30, 0xFF])).status? = none ∧
      restorations (execute fuel (load_bytecode (FrameRuntime.init now) [0x30, 0xFF])).state =
        fuel - 1 := by
  cases fuel with
  | zero => exact ⟨rfl, rfl⟩
  | succ fuel =>
    have hlt : (log_execution_event (load_bytecode (FrameRuntime.init now) [0x30, 0xFF])
        (str "Execution started")).program_counter_ <
        (log_execution_event (load_bytecode (FrameRuntime.init now) [0x30, 0xFF])
          (str "Execution started")).bytecode_.length := by
      show 0 < 2
      decide
    unfold execute
    rw [execute_loop_succ, if_pos hlt, retry_first]
    simp only []
    obtain ⟨i1, i2⟩ := retry_forever now fuel
      [str "Bytecode loaded: 2 bytes", str "Execution started", str "Checkpoint created",
        str "Frame created"]
    refine ⟨i1, ?_⟩
    rw [i2]
    have h0 : restorations (retry_state now
        [str "Bytecode loaded: 2 bytes", str "Execution started", str "Checkpoint created",
          str "Frame created"]) = 0 := rfl
    rw [h0]
    omega

/-- C18 (failing input). After the program `JMP 0x80000000` the program counter is 2^31;
`save_state` followed by `restore_state` then leaves it at `2^64 - 2^31`. A program counter
of `2^32 + 5` comes back as 5. The stack value `0xFFFFFFFF` is restored unchanged. -/
theorem C18_counter_not_restored :
    jump_example.program_counter_ = 2147483648 ∧
      (restore_state (save_state jump_example)).program_counter_ = 18446744071562067968 ∧
      checkpoint_wide_example.program_counter_ = 4294967301 ∧
      (restore_state (save_state checkpoint_wide_example)).program_counter_ = 5 ∧
      (restore_state (save_state checkpoint_wide_example)).stack_ = [4294967295] := by
  decide

/-- C18 (agreement). For every runtime whose program counter is below 2^31 and whose stack
holds 32-bit values (the empty stack and values with the top bit set included),
`save_state` followed immediately by `restore_state` leaves the program counter and the
stack identical to their values before `save_state`. -/
theorem C18_checkpoint_round_trip (rt : FrameRuntime)
    (hpc : rt.program_counter_ < 2147483648)
    (hstack : ∀ v ∈ rt.stack_, v < 4294967296) :
    (restore_state (save_state rt)).program_counter_ = rt.program_counter_ ∧
      (restore_state (save_state rt)).stack_ = rt.stack_ := by
  have hsame : (save_state rt).program_counter_ = rt.program_counter_ ∧
      (save_state rt).stack_ = rt.stack_ := by
    unfold save_state
    simp only []
    split <;> exact ⟨rfl, rfl⟩
  rw [restore_state_eq]
  rcases checkpoint_of_save_state rt with h | h
  · rw [h]
    simpa using hsame
  · have hne : checkpoint_of (save_state rt) ≠ [] := by
      rw [h, be_bytes_eq]
      simp
    rw [if_pos hne, h, be_bytes_eq]
    constructor
    · show int_to_size_t (be_word _ _ _ _) = rt.program_counter_
      simp only [List.cons_append, List.getD_cons_zero, List.getD_cons_succ]
      rw [be_word_be_bytes _ (by omega), int_to_size_t_small _ hpc]
    · show restore_stack (List.drop 4 _) [] = rt.stack_
      simp only [List.cons_append, List.nil_append, List.drop_succ_cons, List.drop_zero]
      rw [restore_stack_flatMap _ _ hstack]
      rfl

/-- C18 (agreement, witness): counter 6 and the stack `0xFFFFFFFF, 0, 0x80000000`. -/
theorem C18_checkpoint_round_trip_witness :
    (checkpoint_example.program_counter_ < 2147483648 ∧
      checkpoint_example.stack_.all (fun v => decide (v < 4294967296)) = true) ∧
      checkpoint_of (save_state checkpoint_example) =
        [0, 0, 0, 6, 255, 255, 255, 255, 0, 0, 0, 0, 128, 0, 0, 0] ∧
      ((restore_state (save_state checkpoint_example)).program_counter_ =
          checkpoint_example.program_counter_ ∧
        (restore_state (save_state checkpoint_example)).stack_ = checkpoint_example.stack_) :=
  ⟨⟨by decide, by decide⟩, by decide,
    C18_checkpoint_round_trip checkpoint_example (by decide) (by decide)⟩

/-- C19 (counterexample). Executing FRAME_CREATE on a fresh runtime succeeds but creates
no frame: the frame table still has one frame, the frame stack is still `[root]` and the
next id is still 2. The method `create_frame` does create and push a frame, and then the
current frame (the root, index 0) is not the top of the frame stack (index 1). -/
theorem C19_frame_create_makes_no_frame :
    (execute_heip_opcode (FrameRuntime.init 0) HEIPOpcode.FRAME_CREATE).1 = true ∧
      (execute_heip_opcode (FrameRuntime.init 0) HEIPOpcode.FRAME_CREATE).2.heap.length = 1 ∧
      (execute_heip_opcode (FrameRuntime.init 0) HEIPOpcode.FRAME_CREATE).2.frame_stack_ = [0] ∧
      (execute_heip_opcode (FrameRuntime.init 0) HEIPOpcode.FRAME_CREATE).2.current_frame_ =
        some 0 ∧
      (execute_heip_opcode (FrameRuntime.init 0) HEIPOpcode.FRAME_CREATE).2.next_frame_id_ = 2 ∧
      (create_frame (FrameRuntime.init 0) (str "f") 0).2.frame_stack_ = [0, 1] ∧
      (create_frame (FrameRuntime.init 0) (str "f") 0).2.current_frame_ = some 0 := by
  decide

/-- C19 (amended). A fresh runtime has exactly one frame, the root frame with id 1, which
is the current frame and the only entry of the frame stack. Executing FRAME_CREATE
succeeds and creates no frame; like every other opcode it leaves the number of frames,
their ids, the frame stack, the current frame and the next id unchanged, so while opcodes
execute the current frame stays the top of the frame stack if it was. -/
theorem C19_opcodes_keep_frames (now : Nat) (rt : FrameRuntime) (opcode : Nat) :
    ((FrameRuntime.init now).heap.map (fun f => (f.name, f.frame_id)) = [(str "__root__", 1)] ∧
        (FrameRuntime.init now).frame_stack_ = [0] ∧
        (FrameRuntime.init now).current_frame_ = some 0 ∧
        (FrameRuntime.init now).next_frame_id_ = 2) ∧
      (execute_heip_opcode rt HEIPOpcode.FRAME_CREATE).1 = true ∧
      ((execute_heip_opcode rt opcode).2.heap.length = rt.heap.length ∧
        (execute_heip_opcode rt opcode).2.heap.map (fun f => f.frame_id) =
          rt.heap.map (fun f => f.frame_id) ∧
        (execute_heip_opcode rt opcode).2.frame_stack_ = rt.frame_stack_ ∧
        (execute_heip_opcode rt opcode).2.current_frame_ = rt.current_frame_ ∧
        (execute_heip_opcode rt opcode).2.next_frame_id_ = rt.next_frame_id_) := by
  obtain ⟨_, _, _, h4, h5, h6, h7, h8⟩ := opcode_frames rt opcode
  refine ⟨⟨rfl, rfl, rfl, rfl⟩, ?_, h8, h7, h4, h5, h6⟩
  rw [frame_create_step]

/-- C20 (counterexample). The current frame has the range `[0, 2^32 - 1]` and the program
is 2^32 + 1 NOP bytes. After the NOP at position `2^32 - 1` has executed, the program
counter is 2^32, which is not in the range, yet the iteration does not stop the run: the
position checked is the counter cast to 32 bits, which is 0. -/
theorem C20_range_check_truncates :
    current_range range_wrap_example = some { start := 0, end_ := 4294967295 } ∧
      ¬ (0 ≤ 4294967296 ∧ 4294967296 ≤ 4294967295) ∧
      execute_iteration range_wrap_example =
        ExecOutcome.running
          { range_wrap_example with program_counter_ := 4294967296, instruction_count_ := 1 } := by
  refine ⟨by decide, by decide, ?_⟩
  have hop : byte_at range_wrap_example.bytecode_ range_wrap_example.program_counter_ = 0 := by
    show (List.replicate 4294967297 0).getD (4294967295 % 18446744073709551616) 0 = 0
    exact getD_replicate_zero _ _
  have hin : in_range range_wrap_example
      (((range_wrap_example.program_counter_ + 1) % 18446744073709551616) % 4294967296) =
      true := by
    decide
  rw [nop_iteration range_wrap_example hop hin]
  rfl

/-- C20 (amended). `in_range p` is true for every `p` when the current frame has no range
and otherwise true exactly when `start <= p <= end`; in `execute`, after a successfully
executed instruction, if the program counter taken modulo 2^32 (its cast to the 32-bit
position) is not in range, the run stops and returns 0 having only counted that
instruction and logged the stop. -/
theorem C20_execution_range (rt0 rt rl rs : FrameRuntime) (r : Range) (p fuel : Nat)
    (hnone : current_range rt0 = none)
    (hsome : current_range rt = some r)
    (hpc : rl.program_counter_ < rl.bytecode_.length)
    (hsucc : execute_instruction
        { rl with program_counter_ := (rl.program_counter_ + 1) % 18446744073709551616 }
        (byte_at rl.bytecode_ rl.program_counter_) = (true, rs))
    (hout : in_range rs (rs.program_counter_ % 4294967296) = false) :
    in_range rt0 p = true ∧
      (in_range rt p = true ↔ r.start ≤ p ∧ p ≤ r.end_) ∧
      execute_loop (fuel + 1) rl =
        ExecOutcome.returned 0
          { rs with
            instruction_count_ := (rs.instruction_count_ + 1) % 18446744073709551616
            execution_log_ := rs.execution_log_ ++
              [str "Execution out of range", str "Execution completed successfully"] } := by
  refine ⟨?_, ?_, ?_⟩
  · rw [in_range_eq, hnone]
  · rw [in_range_eq, hsome]
    simp
  · have hout2 : in_range
        { rs with instruction_count_ := (rs.instruction_count_ + 1) % 18446744073709551616 }
        (rs.program_counter_ % 4294967296) = false := hout
    rw [execute_loop_succ, if_pos hpc]
    unfold execute_iteration
    simp only [hsucc, Bool.true_eq_false, if_false, hout2, if_true, log_execution_event,
      List.append_assoc, List.singleton_append]

/-- C20 (witness): in `NOP; NOP; NOP` with the range `[0, 1]` the second NOP leaves the
counter at 2, outside the range, and `execute` returns 0 after two instructions without
running the third; a fresh runtime has no range. -/
theorem C20_execution_range_witness :
    (current_range (FrameRuntime.init 0) = none ∧
      current_range range_example = some { start := 0, end_ := 1 } ∧
      (execute_loop 1 range_example).state.program_counter_ <
        (execute_loop 1 range_example).state.bytecode_.length ∧
      in_range { (execute_loop 1 range_example).state with program_counter_ := 2 }
        (2 % 4294967296) = false) ∧
      ((execute 5 range_example).status? = some 0 ∧
        (execute 5 range_example).state.instruction_count_ = 2 ∧
        (execute 5 range_example).state.program_counter_ = 2) ∧
      (in_range (FrameRuntime.init 0) 7 = true ∧
        (in_range range_example 1 = true ↔ (0 ≤ 1 ∧ 1 ≤ 1)) ∧
        execute_loop (0 + 1) (execute_loop 1 range_example).state =
          ExecOutcome.returned 0
            { ({ (execute_loop 1 range_example).state with program_counter_ := 2 } : FrameRuntime) with
              instruction_count_ := (1 + 1) % 18446744073709551616
              execution_log_ :=
                (execute_loop 1 range_example).state.execution_log_ ++
                  [str "Execution out of range", str "Execution completed successfully"] }) :=
  ⟨⟨by decide, by decide, by decide, by decide⟩, ⟨by decide, by decide, by decide⟩,
    C20_execution_range (FrameRuntime.init 0) range_example (execute_loop 1 range_example).state
      { (execute_loop 1 range_example).state with program_counter_ := 2 }
      { start := 0, end_ := 1 } 1 0 (by decide) (by decide) (by decide) rfl (by decide)⟩

/-- C21 (counterexample). The 1028-byte input `wrap_example` is cut into 257 windows that
are pairwise different; the one-byte identifier counter wraps after 256 of them, so the
first window `0,0,0,0` and the last window `0,0,1,0` both receive the identifier 0. -/
theorem C21_identifier_wraps :
    4 ≤ wrap_example.length ∧
      (fold_recursively wrap_example 1).getD 0 0 = (fold_recursively wrap_example 1).getD 256 0 ∧
      (windows wrap_example).getD 0 [] = [0, 0, 0, 0] ∧
      (windows wrap_example).getD 256 [] = [0, 0, 1, 0] :=
  ⟨wrap_example_length,
    by rw [(wrap_example_fold 0 (by decide)).1, (wrap_example_fold 256 (by decide)).1],
    (wrap_example_fold 0 (by decide)).2, (wrap_example_fold 256 (by decide)).2⟩

/-- C21 (amended). One folding pass on at least 4 bytes outputs `n / 4` bytes; the byte
number `k` is the identifier of the window `data[4k..4k+3]`, which is the position of that
window among the distinct windows in first-seen order, reduced modulo 256; when there are
at most 256 distinct windows, two windows receive the same identifier if and only if they
are equal. -/
theorem C21_fold_pass (data : List Nat) (h : 4 ≤ data.length) :
    fold_recursively data 1 =
        (windows data).map (fun w => position w (first_seen (windows data)) % 256) ∧
      (fold_recursively data 1).length = data.length / 4 ∧
      (∀ k, k < data.length / 4 →
        (windows data)[k]? = some ((data.drop (4 * k)).take 4)) ∧
      (first_seen (windows data)).Nodup ∧
      (∀ w, w ∈ first_seen (windows data) ↔ w ∈ windows data) ∧
      ((first_seen (windows data)).length ≤ 256 →
        ∀ i j, i < data.length / 4 → j < data.length / 4 →
          ((fold_recursively data 1).getD i 0 = (fold_recursively data 1).getD j 0 ↔
            (windows data).getD i [] = (windows data).getD j [])) := by
  have hout := fold_one data h
  refine ⟨hout, ?_, windows_getElem? data, foldl_see_nodup _ _ List.nodup_nil,
    mem_first_seen _, ?_⟩
  · rw [hout, List.length_map, windows_length]
  · intro hsmall i j hi hj
    rw [← windows_length] at hi hj
    have gi : (windows data)[i]? = some ((windows data)[i]) := List.getElem?_eq_getElem hi
    have gj : (windows data)[j]? = some ((windows data)[j]) := List.getElem?_eq_getElem hj
    have mi : (windows data)[i] ∈ first_seen (windows data) :=
      (mem_first_seen _ _).mpr (List.getElem_mem hi)
    have mj : (windows data)[j] ∈ first_seen (windows data) :=
      (mem_first_seen _ _).mpr (List.getElem_mem hj)
    have li := position_lt _ _ mi
    have lj := position_lt _ _ mj
    rw [hout]
    simp only [List.getD_eq_getElem?_getD, List.getElem?_map, gi, gj, Option.map_some',
      Option.getD_some]
    rw [Nat.mod_eq_of_lt (by omega), Nat.mod_eq_of_lt (by omega)]
    constructor
    · exact position_inj _ _ _ mi mj
    · intro e; rw [e]

/-- C21 (witness): the 13 bytes `1 2 3 4 9 9 9 9 1 2 3 4 7` fold to `0 1 0`; the last byte
belongs to no window. -/
theorem C21_fold_pass_witness :
    4 ≤ [1, 2, 3, 4, 9, 9, 9, 9, 1, 2, 3, 4, 7].length ∧
      fold_recursively [1, 2, 3, 4, 9, 9, 9, 9, 1, 2, 3, 4, 7] 1 = [0, 1, 0] ∧
      windows [1, 2, 3, 4, 9, 9, 9, 9, 1, 2, 3, 4, 7] =
        [[1, 2, 3, 4], [9, 9, 9, 9], [1, 2, 3, 4]] ∧
      first_seen (windows [1, 2, 3, 4, 9, 9, 9, 9, 1, 2, 3, 4, 7]) =
        [[1, 2, 3, 4], [9, 9, 9, 9]] ∧
      (fold_recursively [1, 2, 3, 4, 9, 9, 9, 9, 1, 2, 3, 4, 7] 1).length =
        [1, 2, 3, 4, 9, 9, 9, 9, 1, 2, 3, 4, 7].length / 4 :=
  ⟨by decide, by decide, by decide, by decide,
    (C21_fold_pass [1, 2, 3, 4, 9, 9, 9, 9, 1, 2, 3, 4, 7] (by decide)).2.1⟩

/-- C22. `fold_structure` is not injective: the eight bytes `1` and the eight bytes `2`,
each made of one window repeated twice, both fold to `0 0`; hence no function undoes
`fold_structure` on every input. -/
theorem C22_fold_not_injective :
    ([1, 1, 1, 1, 1, 1, 1, 1] : List Nat) ≠ [2, 2, 2, 2, 2, 2, 2, 2] ∧
      windows [1, 1, 1, 1, 1, 1, 1, 1] = [[1, 1, 1, 1], [1, 1, 1, 1]] ∧
      windows [2, 2, 2, 2, 2, 2, 2, 2] = [[2, 2, 2, 2], [2, 2, 2, 2]] ∧
      fold_structure [1, 1, 1, 1, 1, 1, 1, 1] = [0, 0] ∧
      fold_structure [2, 2, 2, 2, 2, 2, 2, 2] = [0, 0] ∧
      ¬ ∃ unfold_structure : List Nat → List Nat,
        ∀ x, unfold_structure (fold_structure x) = x := by
  refine ⟨by decide, by decide, by decide, by decide, by decide, ?_⟩
  rintro ⟨u, hu⟩
  have h1 := hu [1, 1, 1, 1, 1, 1, 1, 1]
  have h2 := hu [2, 2, 2, 2, 2, 2, 2, 2]
  have e1 : fold_structure [1, 1, 1, 1, 1, 1, 1, 1] = [0, 0] := by decide
  have e2 : fold_structure [2, 2, 2, 2, 2, 2, 2, 2] = [0, 0] := by decide
  rw [e1] at h1
  rw [e2, h1] at h2
  exact absurd h2 (by decide)

/-- C23. For every compiler state and byte sequence, `apply_help_optimizations` leaves the
sequence with every `0x00` byte removed and the other bytes in order (no `0x00` remains,
the length drops by the number of `0x00` bytes, a second application changes no byte),
and it appends the one event `Adapted: bytecode_compression` to the adaptation history,
adding one score increment for `bytecode_compression`; nothing else of the compiler
changes. -/
theorem C23_help_optimizations (c : DodecaCompiler) (b : List Nat) :
    (apply_help_optimizations c b).2 = b.filter (fun x => decide (x ≠ 0)) ∧
      (apply_help_optimizations c b).2.Sublist b ∧
      0 ∉ (apply_help_optimizations c b).2 ∧
      (apply_help_optimizations c b).2.length + b.count 0 = b.length ∧
      (apply_help_optimizations (apply_help_optimizations c b).1
        (apply_help_optimizations c b).2).2 = (apply_help_optimizations c b).2 ∧
      (apply_help_optimizations c b).1.help_context_.adaptation_history =
        c.help_context_.adaptation_history ++ [str "Adapted: bytecode_compression"] ∧
      (apply_help_optimizations c b).1 =
        { c with
          help_context_ :=
            { c.help_context_ with
              adaptation_history :=
                c.help_context_.adaptation_history ++ [str "Adapted: bytecode_compression"]
              heuristic_scores :=
                add_score c.help_context_.heuristic_scores (str "bytecode_compression") 2 } } := by
  have h2 : ∀ (c2 : DodecaCompiler) (l : List Nat),
      (apply_help_optimizations c2 l).2 = l.filter (fun x => decide (x ≠ 0)) := by
    intro c2 l
    unfold apply_help_optimizations
    simp only [decide_not]
    rfl
  refine ⟨h2 c b, ?_, ?_, ?_, ?_, rfl, rfl⟩
  · rw [h2]; exact List.filter_sublist b
  · rw [h2]; simp
  · rw [h2]
    exact filter_length_add_count b
  · rw [h2, h2, List.filter_filter]
    simp

/-- C24. After `register_overlay` of a keyword and a replacement on any compiler state,
`compress` of the keyword is the symbol that the call allocated and `decompress` of that
symbol is the overlay with that name and those bytes; on a compiler that has only seen the
registrations `calls`, `compress` of a keyword that is not among them is `'0'` and
`decompress` of a symbol that was not allocated is empty. Both lookups are total. -/
theorem C24_registry_round_trip (c : DodecaCompiler) (k : Str) (b : List Nat)
    (calls : List (Str × List Nat)) (k' : Str) (s : Nat)
    (hk : k' ∉ calls.map Prod.fst)
    (hs : s ∉ (allocate_many calls.length {}).1) :
    (register_overlay c k b).dodeca_map_.compress k = (allocate_symbol c).1 ∧
      (register_overlay c k b).dodeca_map_.decompress (allocate_symbol c).1 =
        some { name := k, symbol := (allocate_symbol c).1, compressed_bytecode := b,
               original_size := 0, compressed_size := b.length } ∧
      (register_all {} calls).dodeca_map_.compress k' = 48 ∧
      (register_all {} calls).dodeca_map_.decompress s = none := by
  refine ⟨?_, ?_, register_all_compress_unknown calls k' hk, ?_⟩
  · rw [compress_register, if_pos rfl]
    rfl
  · rw [decompress_register, allocate_symbol_fst, if_pos rfl]
    rfl
  · rw [allocate_many_fresh] at hs
    exact register_all_decompress_unknown calls s hs

/-- C24 (witness): `foo` then `bar` are registered on a fresh compiler; `bar` gets `'1'`,
`baz` was never registered and `'2'` was never allocated. -/
theorem C24_registry_round_trip_witness :
    str "baz" ∉ [(str "foo", [1, 2]), (str "bar", [3])].map Prod.fst ∧
      50 ∉ (allocate_many [(str "foo", [1, 2]), (str "bar", [3])].length {}).1 ∧
      (allocate_symbol (register_all {} [(str "foo", [1, 2])])).1 = 49 ∧
      (register_all {} [(str "foo", [1, 2]), (str "bar", [3])]).dodeca_map_.compress
        (str "foo") = 48 ∧
      ((register_overlay (register_all {} [(str "foo", [1, 2])])
          (str "bar") [3]).dodeca_map_.compress (str "bar") =
          (allocate_symbol (register_all {} [(str "foo", [1, 2])])).1 ∧
        (register_overlay (register_all {} [(str "foo", [1, 2])])
          (str "bar") [3]).dodeca_map_.decompress
            (allocate_symbol (register_all {} [(str "foo", [1, 2])])).1 =
          some { name := str "bar",
                 symbol := (allocate_symbol (register_all {} [(str "foo", [1, 2])])).1,
                 compressed_bytecode := [3], original_size := 0,
                 compressed_size := [3].length } ∧
        (register_all {} [(str "foo", [1, 2]), (str "bar", [3])]).dodeca_map_.compress
          (str "baz") = 48 ∧
        (register_all {} [(str "foo", [1, 2]), (str "bar", [3])]).dodeca_map_.decompress 50 =
          none) :=
  ⟨by decide, by decide, by decide, by decide,
    C24_registry_round_trip (register_all {} [(str "foo", [1, 2])]) (str "bar") [3]
      [(str "foo", [1, 2]), (str "bar", [3])] (str "baz") 50 (by decide) (by decide)⟩

/-- C25. On a fresh compiler the first `n` calls of `allocate_symbol` return
`nth_symbol 0, ..., nth_symbol (n - 1)`: the first ten return `'0'` to `'9'`, the eleventh
returns `'a'` and so does every later call; `'b'` is never returned. -/
theorem C25_allocation_plateau (n : Nat) :
    (allocate_many n {}).1 = (List.range n).map nth_symbol ∧
      (allocate_many n {}).2.next_symbol_ = nth_symbol n ∧
      (allocate_many 13 {}).1 = [48, 49, 50, 51, 52, 53, 54, 55, 56, 57, 97, 97, 97] ∧
      (allocate_many (n + 11) {}).1.getLast? = some 97 ∧
      98 ∉ (allocate_many n {}).1 := by
  have h1 := allocate_many_fresh n
  refine ⟨h1, ?_, by decide, ?_, ?_⟩
  · have := (allocate_many_eq n 0 {} rfl).2
    rw [Nat.zero_add] at this
    exact this
  · rw [allocate_many_fresh, List.range_succ, List.map_append, List.getLast?_append]
    simp only [List.map_cons, List.map_nil, List.getLast?_singleton]
    unfold nth_symbol
    rw [if_neg (by omega)]
    rfl
  · rw [h1]
    simp only [List.mem_map, List.mem_range, not_exists, not_and]
    intro i _
    unfold nth_symbol
    split_ifs <;> omega

/-- C26 (failing input). Twelve registrations under pairwise different keywords on a
fresh compiler: the eleventh keyword `k:` and the twelfth keyword `k;` both hold the
symbol `'a'`, and `'a'` resolves to the overlay of the twelfth, not of the eleventh. -/
theorem C26_symbol_reused :
    (twelve_overlays.map Prod.fst).Nodup ∧
      (register_all {} twelve_overlays).dodeca_map_.compress [107, 58] = 97 ∧
      (register_all {} twelve_overlays).dodeca_map_.compress [107, 59] = 97 ∧
      (register_all {} twelve_overlays).dodeca_map_.decompress 97 =
        some (stored_overlay [107, 59] 97 [11]) ∧
      (allocate_many 12 {}).1 = [48, 49, 50, 51, 52, 53, 54, 55, 56, 57, 97, 97] := by
  decide

/-- C26 (agreement). For at most eleven registrations under pairwise different keywords on a
fresh compiler, the symbols allocated are pairwise different and all in `0-9` or `a-z`,
the registration number `i` holds the symbol `nth_symbol i`, and afterwards the symbol of
every registered keyword resolves to the overlay registered under that keyword. -/
theorem C26_first_eleven_symbols (calls : List (Str × List Nat)) (i : Nat)
    (call : Str × List Nat)
    (hn : (calls.map Prod.fst).Nodup) (hl : calls.length ≤ 11)
    (hi : calls[i]? = some call) :
    (allocate_many calls.length {}).1.Nodup ∧
      (allocate_many calls.length {}).1.all dodeca_utils.is_valid_symbol = true ∧
      (allocate_many calls.length {}).1[i]? = some (nth_symbol i) ∧
      (register_all {} calls).dodeca_map_.compress call.1 = nth_symbol i ∧
      (register_all {} calls).dodeca_map_.decompress
          ((register_all {} calls).dodeca_map_.compress call.1) =
        some { name := call.1, symbol := nth_symbol i, compressed_bytecode := call.2,
               original_size := 0, compressed_size := call.2.length } := by
  have hc := register_all_compress calls hn i call hi
  have hilt : i < calls.length := by
    rcases Nat.lt_or_ge i calls.length with h | h
    · exact h
    · rw [List.getElem?_eq_none h] at hi; cases hi
  refine ⟨?_, ?_, ?_, hc, ?_⟩
  · rw [allocate_many_fresh]
    apply List.Nodup.map_on _ (List.nodup_range _)
    intro x hx y hy hxy
    rw [List.mem_range] at hx hy
    unfold nth_symbol at hxy
    split_ifs at hxy <;> omega
  · rw [allocate_many_fresh, List.all_eq_true]
    intro x hx
    obtain ⟨j, _, hj⟩ := List.mem_map.mp hx
    rw [← hj]
    exact nth_symbol_valid j
  · rw [allocate_many_fresh, List.getElem?_map, List.getElem?_range hilt]
    rfl
  · rw [hc]
    exact register_all_decompress calls hl i call hi

/-- C26 (agreement, witness): the first eleven of `twelve_overlays`; the eleventh keyword `k:` holds
`'a'`, which resolves to its own overlay. -/
theorem C26_first_eleven_symbols_witness :
    ((twelve_overlays.take 11).map Prod.fst).Nodup ∧ (twelve_overlays.take 11).length ≤ 11 ∧
      (twelve_overlays.take 11)[10]? = some ([107, 58], [10]) ∧
      (allocate_many 11 {}).1 = [48, 49, 50, 51, 52, 53, 54, 55, 56, 57, 97] ∧
      (register_all {} (twelve_overlays.take 11)).dodeca_map_.decompress
          ((register_all {} (twelve_overlays.take 11)).dodeca_map_.compress [107, 58]) =
        some { name := [107, 58], symbol := nth_symbol 10, compressed_bytecode := [10],
               original_size := 0, compressed_size := [10].length } :=
  ⟨by decide, by decide, by decide, by decide,
    (C26_first_eleven_symbols (twelve_overlays.take 11) 10 ([107, 58], [10])
      (by decide) (by decide) (by decide)).2.2.2.2⟩

/-- C27. For every registry and source text, the instruction parsed from a kept line whose
first token is one character of `0-9` or `a-z` (such a token is no keyword) has kind
OVERLAY and the overlay reference that `decompress` of the registry returns for that
character; for every other first token the instruction has no overlay reference. An
instruction without overlay reference is encoded as the opcode that `map_to_opcode` gives
for its name, followed by its parameters. -/
theorem C27_overlay_tagging (reg : DodecaMap) (source : Str) (i : Nat) (line : Str)
    (inst : Instruction) (acc : List Nat)
    (hline : (kept_lines source)[i]? = some line)
    (hinst : (parse_instructions reg source)[i]? = some inst) :
    (match symbol_of_token ((tokens line).headD []) with
      | some c =>
        (tokens line).headD [] = [c] ∧ dodeca_utils.is_valid_symbol c = true ∧
          [c] ∉ keyword_spellings.map Prod.fst ∧
          inst.type = InstructionType.OVERLAY ∧ inst.overlay_ref = reg.decompress c
      | none => inst.overlay_ref = none) ∧
      (inst.overlay_ref = none →
        emit_instruction acc inst =
          ((tokens line).drop 2).foldl emit_param
            (emit_opcode acc (map_to_opcode ((tokens line).getD 1 [])))) := by
  rw [parse_instructions_getElem?, hline] at hinst
  simp only [Option.map_some', Option.some.injEq] at hinst
  have hm := map_keyword_overlay reg ((tokens line).headD [])
    { range_start := i % 4294967296 } rfl
  constructor
  · rw [← hinst, parse_line_eq]
    cases hs : symbol_of_token ((tokens line).headD []) with
    | none =>
      rw [hs] at hm
      exact hm
    | some c =>
      rw [hs] at hm
      have hc := symbol_of_token_some _ c hs
      refine ⟨hc.1, hc.2, ?_, hm.1, hm.2⟩
      simp [keyword_spellings, str]
  · intro hnone
    have hn : inst.name = (tokens line).getD 1 [] := by rw [← hinst, parse_line_eq]
    have hp : inst.params = (tokens line).drop 2 := by rw [← hinst, parse_line_eq]
    unfold emit_instruction
    rw [hnone, hn, hp]

/-- C27 (witness): with `foo` registered under `'0'`, the line `0 load 5` refers to that
overlay and is encoded as OVERLAY_EXPAND and its bytes; `z load 5` is of kind OVERLAY
without reference, `zz load 5` and `? load 5` are plain, and all three are encoded as
LOAD with their parameter. -/
theorem C27_overlay_tagging_witness :
    (kept_lines (str "protocol p\n0 load 5\nz load 5\nzz load 5\n? load 5\n"))[1]? =
        some (str "0 load 5") ∧
      (parse_instructions (register_all {} [(str "foo", [1, 2])]).dodeca_map_
        (str "protocol p\n0 load 5\nz load 5\nzz load 5\n? load 5\n")).map
        (fun inst => (inst.type, inst.overlay_ref)) =
        [(InstructionType.PROTOCOL, none),
          (InstructionType.OVERLAY, some (stored_overlay (str "foo") 48 [1, 2])),
          (InstructionType.OVERLAY, none), (InstructionType.INSTRUCT, none),
          (InstructionType.INSTRUCT, none)] ∧
      generate_bytecode (build_protocols (parse_instructions
        (register_all {} [(str "foo", [1, 2])]).dodeca_map_
        (str "protocol p\n0 load 5\nz load 5\nzz load 5\n? load 5\n"))) =
        [0x30, 0x40, 1, 2, 0x01, 0, 0, 0, 1, 53, 0x01, 0, 0, 0, 1, 53,
          0x01, 0, 0, 0, 1, 53, 0x32] ∧
      symbol_of_token ((tokens (str "0 load 5")).headD []) = some 48 ∧
      (parse_instructions (register_all {} [(str "foo", [1, 2])]).dodeca_map_
        (str "protocol p\n0 load 5\nz load 5\nzz load 5\n? load 5\n"))[1]? =
        some { type := InstructionType.OVERLAY, name := str "load", params := [str "5"],
               range_start := 1, range_end := 2,
               overlay_ref := some (stored_overlay (str "foo") 48 [1, 2]) } ∧
      (match symbol_of_token ((tokens (str "0 load 5")).headD []) with
        | some c =>
          (tokens (str "0 load 5")).headD [] = [c] ∧ dodeca_utils.is_valid_symbol c = true ∧
            [c] ∉ keyword_spellings.map Prod.fst ∧
            ({ type := InstructionType.OVERLAY, name := str "load", params := [str "5"],
               range_start := 1, range_end := 2,
               overlay_ref := some (stored_overlay (str "foo") 48 [1, 2]) } :
              Instruction).type = InstructionType.OVERLAY ∧
            ({ type := InstructionType.OVERLAY, name := str "load", params := [str "5"],
               range_start := 1, range_end := 2,
               overlay_ref := some (stored_overlay (str "foo") 48 [1, 2]) } :
              Instruction).overlay_ref =
              (register_all {} [(str "foo", [1, 2])]).dodeca_map_.decompress c
        | none =>
          ({ type := InstructionType.OVERLAY, name := str "load", params := [str "5"],
             range_start := 1, range_end := 2,
             overlay_ref := some (stored_overlay (str "foo") 48 [1, 2]) } :
            Instruction).overlay_ref = none) :=
  ⟨by decide, by decide, by decide, by decide, by decide,
    (C27_overlay_tagging (register_all {} [(str "foo", [1, 2])]).dodeca_map_
      (str "protocol p\n0 load 5\nz load 5\nzz load 5\n? load 5\n") 1 (str "0 load 5")
      { type := InstructionType.OVERLAY, name := str "load", params := [str "5"],
        range_start := 1, range_end := 2,
        overlay_ref := some (stored_overlay (str "foo") 48 [1, 2]) } [] (by decide)
      (by decide)).1⟩

/-- C28 (counterexample). For an input of `2^50 - 1` bytes `optimal_fold_depth` gives 25,
not `floor(log2 n) / 2 = 24`: the logarithm of the `double` rounds up to 50. After 24
passes 3 bytes are left, so the stop for fewer than 4 bytes ends the recursion with the
depth not used up. The depth is likewise one more than `floor(log2 n) / 2` for
`2^52 - 1`, `2^62 - 1` and `2^64 - 1` bytes. -/
theorem C28_depth_rounds_up :
    1 ≤ (List.replicate 1125899906842623 0).length ∧
      dodeca_utils.optimal_fold_depth (List.replicate 1125899906842623 0).length = 25 ∧
      Nat.log2 (List.replicate 1125899906842623 0).length / 2 = 24 ∧
      (fold_pass^[24] (List.replicate 1125899906842623 0)).length = 3 ∧
      fold_structure (List.replicate 1125899906842623 0) =
        fold_pass^[24] (List.replicate 1125899906842623 0) ∧
      dodeca_utils.optimal_fold_depth 4503599627370495 = 26 ∧ Nat.log2 4503599627370495 / 2 = 25 ∧
      dodeca_utils.optimal_fold_depth 4611686018427387903 = 31 ∧ Nat.log2 4611686018427387903 / 2 = 30 ∧
      dodeca_utils.optimal_fold_depth 18446744073709551615 = 32 ∧ Nat.log2 18446744073709551615 / 2 = 31 := by
  have hlen : (List.replicate 1125899906842623 0).length = 1125899906842623 :=
    List.length_replicate _ _
  have hf : floor_log2 1125899906842623 1125899906842623 = 49 := by decide
  have hit := (fold_recursively_iterate 24 (List.replicate 1125899906842623 0)
    (by rw [hlen]; decide)).2
  have hfs := fold_structure_eq (List.replicate 1125899906842623 0) (by rw [hlen]; decide)
  rw [hlen] at hit hfs
  rw [hf] at hfs
  refine ⟨by rw [hlen]; decide, by rw [hlen]; exact depth_rounded.1, ?_, ?_, hfs,
    depth_rounded.2, ?_, by decide, ?_, by decide, ?_⟩
  · rw [hlen, ← floor_log2_eq, hf]
  · rw [hit]
    decide
  · rw [← floor_log2_eq]; decide
  · rw [← floor_log2_eq]; decide
  · rw [← floor_log2_eq]; decide

/-- C28 (amended). For every input of `n ≥ 1` bytes, with `d = floor(log2 n) / 2` (which is
0 exactly when `n < 4`, and `4^d ≤ n < 4^(d+1)`): the depth that `optimal_fold_depth`
computes is `d` or `d + 1`, it is `d` for `n < 2^48`, and it is 0 exactly when `n < 4`.
`fold_structure` applies exactly `d` passes: before each of them at least 4 bytes are
left, each maps `m` bytes to `m / 4`, and after them fewer than 4 bytes are left. The
result has `n / 4^d` bytes, which is 1, 2 or 3, and an input of fewer than 4 bytes is
returned unchanged. -/
theorem C28_fold_structure_size (data : List Nat) (h : 1 ≤ data.length) :
    (dodeca_utils.optimal_fold_depth data.length = Nat.log2 data.length / 2 ∨
        dodeca_utils.optimal_fold_depth data.length = Nat.log2 data.length / 2 + 1) ∧
      (data.length < 281474976710656 →
        dodeca_utils.optimal_fold_depth data.length = Nat.log2 data.length / 2) ∧
      (dodeca_utils.optimal_fold_depth data.length = 0 ↔ data.length < 4) ∧
      (Nat.log2 data.length / 2 = 0 ↔ data.length < 4) ∧
      4 ^ (Nat.log2 data.length / 2) ≤ data.length ∧
      data.length < 4 ^ (Nat.log2 data.length / 2 + 1) ∧
      fold_structure data = fold_pass^[Nat.log2 data.length / 2] data ∧
      (∀ j, j < Nat.log2 data.length / 2 →
        4 ≤ (fold_pass^[j] data).length ∧
          (fold_pass^[j + 1] data).length = (fold_pass^[j] data).length / 4) ∧
      (fold_pass^[Nat.log2 data.length / 2] data).length < 4 ∧
      (fold_structure data).length = data.length / 4 ^ (Nat.log2 data.length / 2) ∧
      1 ≤ (fold_structure data).length ∧ (fold_structure data).length ≤ 3 ∧
      (data.length < 4 → fold_structure data = data) := by
  rw [← floor_log2_eq]
  obtain ⟨b1, b2⟩ := exact_bounds data.length h
  obtain ⟨hlen, l1, l2⟩ := fold_structure_length data h
  have hfs := fold_structure_eq data h
  have hzero := depth_zero_iff data.length h
  have hz2 : floor_log2 data.length data.length / 2 = 0 ↔ data.length < 4 := by
    constructor
    · intro hz
      rw [hz] at b2
      simpa using b2
    · intro hlt
      by_contra hne
      have : 4 ^ 1 ≤ 4 ^ (floor_log2 data.length data.length / 2) :=
        Nat.pow_le_pow_right (by decide) (by omega)
      omega
  refine ⟨depth_cases data.length h, depth_exact data.length h, hzero, hz2, b1, b2, hfs, ?_,
    ?_, hlen, l1, l2, ?_⟩
  · intro j hj
    have hj1 : 4 ^ (j + 1) ≤ data.length :=
      le_trans (Nat.pow_le_pow_right (by decide) (by omega)) b1
    have hj0 : 4 ^ j ≤ data.length :=
      le_trans (Nat.pow_le_pow_right (by decide) (by omega)) hj1
    have l0 := (fold_recursively_iterate j data hj0).2
    have l1 := (fold_recursively_iterate (j + 1) data hj1).2
    have hpj : 0 < 4 ^ j := Nat.pow_pos (by decide)
    rw [l0, l1]
    constructor
    · rw [Nat.le_div_iff_mul_le hpj]
      rw [pow_succ] at hj1
      omega
    · rw [Nat.div_div_eq_div_mul, pow_succ]
  · rw [← hfs]
    omega
  · intro hlt
    rw [hfs, hz2.mpr hlt]
    rfl

/-- C28 (witness): forty bytes `7` have depth 2; the first pass leaves ten bytes `0`, the
second leaves `0 0`. -/
theorem C28_fold_structure_size_witness :
    1 ≤ (List.replicate 40 7).length ∧
      dodeca_utils.optimal_fold_depth (List.replicate 40 7).length = 2 ∧
      fold_structure (List.replicate 40 7) = [0, 0] ∧
      fold_pass (List.replicate 40 7) = List.replicate 10 0 ∧
      fold_structure (List.replicate 40 7) =
        fold_pass^[Nat.log2 (List.replicate 40 7).length / 2] (List.replicate 40 7) ∧
      dodeca_utils.optimal_fold_depth (List.replicate 40 7).length = Nat.log2 (List.replicate 40 7).length / 2 :=
  ⟨by decide, by decide, by decide, by decide,
    (C28_fold_structure_size (List.replicate 40 7) (by decide)).2.2.2.2.2.2.1,
    (C28_fold_structure_size (List.replicate 40 7) (by decide)).2.1 (by decide)⟩

/-- C29. For every byte sequence of at least 4 bytes, `fold_structure` of it starts with
`0x00` and its byte at index `k` is at most `k`; hence `apply_help_optimizations` of the
folded sequence leaves at most 2 bytes, each `0x01` or `0x02`, and neither FRAME_CREATE
nor FRAME_EXIT is among them. -/
theorem C29_no_frame_markers (b : List Nat) (c : DodecaCompiler) (h : 4 ≤ b.length) :
    (fold_structure b).head? = some 0 ∧
      (∀ k, k < (fold_structure b).length → (fold_structure b).getD k 0 ≤ k) ∧
      (apply_help_optimizations c (fold_structure b)).2.length ≤ 2 ∧
      (∀ x ∈ (apply_help_optimizations c (fold_structure b)).2, x = 1 ∨ x = 2) ∧
      HEIPOpcode.FRAME_CREATE ∉ (apply_help_optimizations c (fold_structure b)).2 ∧
      HEIPOpcode.FRAME_EXIT ∉ (apply_help_optimizations c (fold_structure b)).2 := by
  obtain ⟨_, l1, l2⟩ := fold_structure_length b (by omega)
  have hle := fold_structure_le b h
  have hopt : (apply_help_optimizations c (fold_structure b)).2 =
      (fold_structure b).filter (fun x => x != 0) := rfl
  rw [hopt]
  generalize fold_structure b = r at l1 l2 hle
  match r, l1, l2, hle with
  | [x], _, _, hle =>
    have h0 := hle 0 (by simp)
    simp only [List.getD_cons_zero] at h0
    have hx : x = 0 := by omega
    subst hx
    refine ⟨rfl, hle, ?_⟩
    simp
  | [x, y], _, _, hle =>
    have h0 := hle 0 (by simp)
    have h1 := hle 1 (by simp)
    simp only [List.getD_cons_zero, List.getD_cons_succ] at h0 h1
    have hx : x = 0 := by omega
    subst hx
    refine ⟨rfl, hle, ?_⟩
    interval_cases y <;> simp
  | [x, y, z], _, _, hle =>
    have h0 := hle 0 (by simp)
    have h1 := hle 1 (by simp)
    have h2 := hle 2 (by simp)
    simp only [List.getD_cons_zero, List.getD_cons_succ] at h0 h1 h2
    have hx : x = 0 := by omega
    subst hx
    refine ⟨rfl, hle, ?_⟩
    interval_cases y <;> interval_cases z <;> simp
  | [], l1, _, _ => simp at l1
  | _ :: _ :: _ :: _ :: _, _, l2, _ => simp only [List.length_cons] at l2; omega

/-- C29 (witness): the stream `FRAME_CREATE, NOP, NOP, FRAME_EXIT` generated from
`protocol main\nload 7\nstore 16\n` folds to `0` and is optimised to nothing; a 12-byte
stream with LOAD and STORE folds to `0 1 2` and is optimised to `1 2`. -/
theorem C29_no_frame_markers_witness :
    4 ≤ (generate_bytecode (build_protocols (parse_instructions {}
        (str "protocol main\nload 7\nstore 16\n")))).length ∧
      generate_bytecode (build_protocols (parse_instructions {}
        (str "protocol main\nload 7\nstore 16\n"))) = [0x30, 0, 0, 0x32] ∧
      fold_structure [0x30, 0, 0, 0x32] = [0] ∧
      (apply_help_optimizations {} (fold_structure [0x30, 0, 0, 0x32])).2 = [] ∧
      fold_structure [0x30, 0x01, 0, 0, 0, 7, 0x02, 0, 0, 0, 16, 0x32] = [0, 1, 2] ∧
      (apply_help_optimizations {} (fold_structure
        [0x30, 0x01, 0, 0, 0, 7, 0x02, 0, 0, 0, 16, 0x32])).2 = [1, 2] ∧
      HEIPOpcode.FRAME_CREATE ∉ (apply_help_optimizations {} (fold_structure
        (generate_bytecode (build_protocols (parse_instructions {}
          (str "protocol main\nload 7\nstore 16\n")))))).2 :=
  ⟨by decide, by decide, by decide, by decide, by decide, by decide,
    (C29_no_frame_markers _ {} (by decide)).2.2.2.2.1⟩

/-- C30. For every opcode other than STORE and every runtime, a failing
`execute_heip_opcode` leaves the runtime, hence stack, memory and program counter, as it
was on entry. A failing STORE leaves the memory unchanged and the stack without its top
value; the program counter is unchanged or moved past the immediate. With the value 5 on
the stack, STORE fails after popping it both when the immediate is missing and when the
address is outside the memory. -/
theorem C30_failure_atomicity (rt st : FrameRuntime) (opcode : Nat)
    (hop : opcode ≠ HEIPOpcode.STORE)
    (hfail : (execute_heip_opcode rt opcode).1 = false)
    (hstore : (execute_heip_opcode st HEIPOpcode.STORE).1 = false) :
    (execute_heip_opcode rt opcode).2 = rt ∧
      ((execute_heip_opcode st HEIPOpcode.STORE).2.stack_ = st.stack_.dropLast ∧
        (execute_heip_opcode st HEIPOpcode.STORE).2.memory_ = st.memory_ ∧
        ((execute_heip_opcode st HEIPOpcode.STORE).2.program_counter_ = st.program_counter_ ∨
          (execute_heip_opcode st HEIPOpcode.STORE).2.program_counter_ =
            (st.program_counter_ + 4) % 18446744073709551616)) ∧
      ((execute_heip_opcode store_short_example HEIPOpcode.STORE).1 = false ∧
        store_short_example.stack_ = [5] ∧
        (execute_heip_opcode store_short_example HEIPOpcode.STORE).2.stack_ = [] ∧
        (execute_heip_opcode store_short_example HEIPOpcode.STORE).2.program_counter_ = 1) ∧
      ((execute_heip_opcode store_far_example HEIPOpcode.STORE).1 = false ∧
        store_far_example.stack_ = [5] ∧
        (execute_heip_opcode store_far_example HEIPOpcode.STORE).2.stack_ = [] ∧
        (execute_heip_opcode store_far_example HEIPOpcode.STORE).2.program_counter_ = 5) :=
  ⟨opcode_failure rt opcode hop hfail, store_failure st hstore,
    ⟨by decide, by decide, by decide, by decide⟩, ⟨by decide, by decide, by decide, by decide⟩⟩

/-- C30 (witness): ADD on a one-value stack fails and changes nothing; STORE to the address
`0x00100000` fails with the value popped. -/
theorem C30_failure_atomicity_witness :
    HEIPOpcode.ADD ≠ HEIPOpcode.STORE ∧
      (execute_heip_opcode { FrameRuntime.init 0 with stack_ := [7] } HEIPOpcode.ADD).1 = false ∧
      (execute_heip_opcode store_far_example HEIPOpcode.STORE).1 = false ∧
      (execute_heip_opcode { FrameRuntime.init 0 with stack_ := [7] } HEIPOpcode.ADD).2 =
        { FrameRuntime.init 0 with stack_ := [7] } ∧
      (execute_heip_opcode store_far_example HEIPOpcode.STORE).2.stack_ =
        store_far_example.stack_.dropLast :=
  ⟨by decide, by decide, by decide,
    (C30_failure_atomicity { FrameRuntime.init 0 with stack_ := [7] } store_far_example
      HEIPOpcode.ADD (by decide) (by decide) (by decide)).1,
    (C30_failure_atomicity { FrameRuntime.init 0 with stack_ := [7] } store_far_example
      HEIPOpcode.ADD (by decide) (by decide) (by decide)).2.1.1⟩

/-- C31. For every runtime, `restore_state` changes at most the program counter, the operand
stack and the execution log, and `attempt_recovery` at most these and the error log: the
memory, the bytecode, the frame stack, the current frame and every frame with its stored
checkpoint stay as they were, so what a STORE has written is still in memory after a
recovery. `attempt_recovery` returns whether the checkpoint of the current frame is
non-empty; when it is empty, `restore_state` changes nothing and `attempt_recovery` returns
false with the program counter and the stack unchanged. In the program
`FRAME_CREATE; LOAD 7; STORE 16; POP` the failing POP restores the counter 1 and the byte
stored at address 19 is still 7. -/
theorem C31_recovery_frame (rt re : FrameRuntime) (h : checkpoint_of re = []) :
    (restore_state rt =
        { rt with
          program_counter_ := (restore_state rt).program_counter_
          stack_ := (restore_state rt).stack_
          execution_log_ := (restore_state rt).execution_log_ } ∧
      (attempt_recovery rt).2 =
        { rt with
          program_counter_ := (attempt_recovery rt).2.program_counter_
          stack_ := (attempt_recovery rt).2.stack_
          error_log_ := (attempt_recovery rt).2.error_log_
          execution_log_ := (attempt_recovery rt).2.execution_log_ }) ∧
      ((restore_state rt).memory_ = rt.memory_ ∧ (restore_state rt).bytecode_ = rt.bytecode_ ∧
        (restore_state rt).frame_stack_ = rt.frame_stack_ ∧
        (restore_state rt).heap = rt.heap ∧
        checkpoint_of (restore_state rt) = checkpoint_of rt) ∧
      ((attempt_recovery rt).2.memory_ = rt.memory_ ∧
        (attempt_recovery rt).2.bytecode_ = rt.bytecode_ ∧
        (attempt_recovery rt).2.frame_stack_ = rt.frame_stack_ ∧
        (attempt_recovery rt).2.heap = rt.heap ∧
        checkpoint_of (attempt_recovery rt).2 = checkpoint_of rt) ∧
      ((attempt_recovery (execute_heip_opcode rt HEIPOpcode.STORE).2).2.memory_ =
          (execute_heip_opcode rt HEIPOpcode.STORE).2.memory_ ∧
        (attempt_recovery rt).1 = decide (checkpoint_of rt ≠ [])) ∧
      (restore_state re = re ∧ (attempt_recovery re).1 = false ∧
        (attempt_recovery re).2.program_counter_ = re.program_counter_ ∧
        (attempt_recovery re).2.stack_ = re.stack_) ∧
      (persist_example.memory_ 19 = 7 ∧ persist_example.program_counter_ = 11 ∧
        checkpoint_of persist_example = be_bytes 1 ∧
        (attempt_recovery persist_example).1 = true ∧
        (execute_loop 1 persist_example).status? = none ∧
        (execute_loop 1 persist_example).state.program_counter_ = 1 ∧
        (execute_loop 1 persist_example).state.stack_ = [] ∧
        restorations (execute_loop 1 persist_example).state = 1 ∧
        (execute_loop 1 persist_example).state.memory_ 19 = 7) := by
  have hr : ∀ r : FrameRuntime, (restore_state r).memory_ = r.memory_ ∧
      (restore_state r).bytecode_ = r.bytecode_ ∧
      (restore_state r).frame_stack_ = r.frame_stack_ ∧ (restore_state r).heap = r.heap ∧
      checkpoint_of (restore_state r) = checkpoint_of r := by
    intro r
    rw [restore_state_eq]
    split_ifs <;> exact ⟨rfl, rfl, rfl, rfl, rfl⟩
  have ha : ∀ r : FrameRuntime, (attempt_recovery r).2.memory_ = r.memory_ ∧
      (attempt_recovery r).2.bytecode_ = r.bytecode_ ∧
      (attempt_recovery r).2.frame_stack_ = r.frame_stack_ ∧
      (attempt_recovery r).2.heap = r.heap ∧
      checkpoint_of (attempt_recovery r).2 = checkpoint_of r := by
    intro r
    rw [attempt_recovery_eq]
    split_ifs <;> exact ⟨rfl, rfl, rfl, rfl, rfl⟩
  refine ⟨⟨restore_state_frame rt, attempt_recovery_frame rt⟩, hr rt, ha rt,
    ⟨(ha _).1, ?_⟩, ⟨?_, ?_, ?_, ?_⟩, by decide⟩
  · rw [attempt_recovery_eq]
    split_ifs with hc <;> simp [hc]
  · rw [restore_state_eq, if_neg (by simp [h])]
  · rw [attempt_recovery_eq, if_neg (by simp [h])]
  · rw [attempt_recovery_eq, if_neg (by simp [h])]
  · rw [attempt_recovery_eq, if_neg (by simp [h])]

/-- C31 (witness): a fresh runtime has an empty checkpoint, so recovery fails on it and
changes neither counter nor stack; `persist_example` has a checkpoint and keeps its memory
across the recovery. -/
theorem C31_recovery_frame_witness :
    checkpoint_of (FrameRuntime.init 0) = [] ∧
      checkpoint_of persist_example ≠ [] ∧
      (restore_state (FrameRuntime.init 0) = FrameRuntime.init 0 ∧
        (attempt_recovery (FrameRuntime.init 0)).1 = false ∧
        (attempt_recovery (FrameRuntime.init 0)).2.program_counter_ =
          (FrameRuntime.init 0).program_counter_ ∧
        (attempt_recovery (FrameRuntime.init 0)).2.stack_ = (FrameRuntime.init 0).stack_) ∧
      ((attempt_recovery persist_example).2.memory_ = persist_example.memory_ ∧
        (attempt_recovery persist_example).2.bytecode_ = persist_example.bytecode_ ∧
        (attempt_recovery persist_example).2.frame_stack_ = persist_example.frame_stack_ ∧
        (attempt_recovery persist_example).2.heap = persist_example.heap ∧
        checkpoint_of (attempt_recovery persist_example).2 = checkpoint_of persist_example) ∧
      (attempt_recovery persist_example).2.stack_ = [] ∧
      (attempt_recovery persist_example).2.program_counter_ = 1 :=
  ⟨by decide, by decide,
    (C31_recovery_frame persist_example (FrameRuntime.init 0) (by decide)).2.2.2.2.1,
    (C31_recovery_frame persist_example (FrameRuntime.init 0) (by decide)).2.2.1,
    by decide, by decide⟩

end heip
